import Mathlib

/-!
# Collision-geometry cooking cache of Hazel

A shallow embedding of `PXPhysicsWrappers::CreateConvexMesh` and
`PXPhysicsWrappers::CreateTriangleMesh`
(`Hazel/src/Hazel/Physics/PXPhysicsWrappers.cpp`): the cooking loop, the cache
buffer that is written and read back, and the reconstruction of the debug
meshes.

Conventions
* a byte is a `Nat` below 256 and a block of memory is a `List Nat`;
* `uint32_t` arithmetic is arithmetic on `Nat` reduced modulo `U32`;
* a run that trips a buffer bound has no result: it is `none`;
* the external collaborators (cooking service, PhysX mesh factory, transform
  decomposition, hash-table traversal order, contents of fresh memory, byte
  order) are the fields of `Services`.
-/

namespace Hazel

/-! ## Machine integers -/

/-- Modulus of `uint32_t` arithmetic. -/
def U32 : Nat := 4294967296

/-- Byte order of the machine: it fixes the object representation of a `uint32_t`. -/
inductive ByteOrder where
  | little
  | big
  deriving DecidableEq, Repr

/-- The four bytes of a `uint32_t` holding `n`, as `memcpy` sees them
(`colliderBuffer.Write(&data.Size, sizeof(uint32_t), offset)`). -/
def u32Bytes (o : ByteOrder) (n : Nat) : List Nat :=
  match o with
  | .little => [n % 256, n / 256 % 256, n / 65536 % 256, n / 16777216 % 256]
  | .big => [n / 16777216 % 256, n / 65536 % 256, n / 256 % 256, n % 256]

/-- The `uint32_t` whose object representation is the four bytes `b0 b1 b2 b3`
(in memory order). -/
def u32OfBytes (o : ByteOrder) (b0 b1 b2 b3 : Nat) : Nat :=
  match o with
  | .little => b0 % 256 + 256 * (b1 % 256) + 65536 * (b2 % 256) + 16777216 * (b3 % 256)
  | .big => b3 % 256 + 256 * (b2 % 256) + 65536 * (b1 % 256) + 16777216 * (b0 % 256)

/-- The counted loop `for (uint32_t i = start; i < bound; i++) body`, run on the
state `s`. `fuel` bounds the number of iterations; `bound - start` is enough. -/
def forLoop {σ : Type} (bound : Nat) (body : Nat → σ → σ) : Nat → Nat → σ → σ
  | 0, _, s => s
  | fuel + 1, i, s =>
    if i < bound then forLoop bound body fuel ((i + 1) % U32) (body i s) else s

/-! ## Buffer -/

/-- A `Buffer`: `Data` is the block of memory, `Size` its length. -/
structure Buffer where
  Data : List Nat
  deriving DecidableEq, Repr

namespace Buffer

/-- The field `Size` of the buffer. -/
def Size (b : Buffer) : Nat := b.Data.length

/-- Modelled from the spec: `Buffer::Allocate` (Hazel/Core/Buffer.h is not among
the sources). The buffer gets `size` bytes of fresh memory; nothing initialises
them, so their contents `heap 0, heap 1, ...` are whatever the allocator returns. -/
def Allocate (heap : Nat → Nat) (size : Nat) : Buffer :=
  ⟨(List.range size).map heap⟩

/-- Modelled from the spec: `Buffer::Write(data, size, offset)` (Hazel/Core/Buffer.h
is not among the sources). Copies `size` bytes to `offset`; a write that does not
fit in the buffer has no result. -/
def Write (b : Buffer) (data : List Nat) (size offset : Nat) : Option Buffer :=
  if offset + size ≤ b.Size then
    some ⟨b.Data.take offset ++ data.take size ++ b.Data.drop (offset + size)⟩
  else none

/-- Modelled from the spec: `Buffer::Read<uint32_t>(offset)` (Hazel/Core/Buffer.h is
not among the sources). The cache format is "`uint32 length` (native byte order)
followed by `length` raw bytes"; a prefix that does not lie within the buffer
cannot be read. -/
def Read (o : ByteOrder) (b : Buffer) (offset : Nat) : Option Nat :=
  match b.Data.drop offset with
  | b0 :: b1 :: b2 :: b3 :: _ => some (u32OfBytes o b0 b1 b2 b3)
  | _ => none

/-- Modelled from the spec: `Buffer::ReadBytes(size, offset)` (Hazel/Core/Buffer.h
is not among the sources). Returns a copy of `size` bytes from `offset`; the spec
has the load fail "if a length prefix claims more bytes than remain". -/
def ReadBytes (b : Buffer) (size offset : Nat) : Option (List Nat) :=
  if offset + size ≤ b.Size then some ((b.Data.drop offset).take size) else none

end Buffer

/-! ## Meshes, shapes and the external services -/

/-- A `glm::vec3` (also `physx::PxVec3`) over the scalar type `F`. -/
structure Vec3 (F : Type) where
  x : F
  y : F
  z : F
  deriving DecidableEq, Repr

/-- Component-wise product of `glm::vec3`: `submeshScale * scale`. -/
instance {F : Type} [Mul F] : Mul (Vec3 F) :=
  ⟨fun a b => ⟨a.x * b.x, a.y * b.y, a.z * b.z⟩⟩

/-- A `Submesh` of the collision mesh; `M` is the type of `glm::mat4`. -/
structure Submesh (M : Type) where
  BaseVertex : Nat
  VertexCount : Nat
  BaseIndex : Nat
  IndexCount : Nat
  Transform : M
  MeshName : String
  deriving DecidableEq, Repr

/-- The fields that the cooking loops set in `PxConvexMeshDesc` and in
`PxTriangleMeshDesc`: counts, and the positions in `vertices` and in `indices`
at which the data pointers point. -/
structure MeshDesc where
  pointsCount : Nat
  pointsData : Nat
  indicesCount : Nat
  indicesData : Nat
  deriving DecidableEq, Repr

/-- The cooking request built for a submesh. -/
def meshDesc {M : Type} (submesh : Submesh M) : MeshDesc :=
  { pointsCount := submesh.VertexCount
    pointsData := submesh.BaseVertex
    indicesCount := submesh.IndexCount / 3
    indicesData := submesh.BaseIndex / 3 }

/-- The local struct `ColliderData`. -/
structure ColliderData where
  Data : List Nat
  Size : Nat
  deriving DecidableEq, Repr

/-- The result of `Math::DecomposeTransform`. -/
structure Decomposed (F : Type) where
  translation : Vec3 F
  rotation : Vec3 F
  scale : Vec3 F
  deriving DecidableEq, Repr

/-- A `physx::PxTransform` built by `ToPhysXTransform(translation, rotation)`. -/
structure PxTransform (F : Type) where
  translation : Vec3 F
  rotation : Vec3 F
  deriving DecidableEq, Repr

/-- A `physx::PxShape` as the cooking functions build it: the cooked bytes its
mesh was created from, the `PxMeshScale` of its geometry and its local pose. -/
structure PxShape (F : Type) where
  cooked : List Nat
  scale : Vec3 F
  localPose : PxTransform F
  deriving DecidableEq, Repr

/-- A `physx::PxHullPolygon`: the two fields the reconstruction reads. -/
structure PxHullPolygon where
  mNbVerts : Nat
  mIndexBase : Nat
  deriving DecidableEq, Repr

/-- What the reconstruction reads of a `physx::PxConvexMesh`: `getNbPolygons` and
`getPolygonData` (the list `polygons`), and the memory behind `getVertices` and
`getIndexBuffer`. -/
structure PxConvexMesh (F : Type) where
  polygons : List PxHullPolygon
  getVertices : Nat → Vec3 F
  getIndexBuffer : Nat → Nat

/-- What the reconstruction reads of a `physx::PxTriangleMesh`; `getTriangles` is
the index memory seen through the cast to `const PxU16*`. -/
structure PxTriangleMesh (F : Type) where
  getNbVertices : Nat
  getVertices : Nat → Vec3 F
  getNbTriangles : Nat
  getTriangles : Nat → Nat

/-- The collaborators outside the source file. -/
structure Services (F M : Type) where
  /-- Call of `s_CookingFactory->cookConvexMesh`: the cooked bytes, or failure. -/
  cookConvexMesh : MeshDesc → Option (List Nat)
  /-- Call of `s_CookingFactory->cookTriangleMesh`: the cooked bytes, or failure. -/
  cookTriangleMesh : MeshDesc → Option (List Nat)
  /-- Call of `Math::DecomposeTransform`. -/
  DecomposeTransform : M → Decomposed F
  /-- Call of `s_Physics->createConvexMesh`. -/
  createConvexMesh : List Nat → PxConvexMesh F
  /-- Call of `s_Physics->createTriangleMesh`. -/
  createTriangleMesh : List Nat → PxTriangleMesh F
  /-- The order in which a range-for visits a `std::unordered_map` whose entries,
  in order of first insertion, are the argument. -/
  traverse : List (String × ColliderData) → List (String × ColliderData)
  /-- Contents of freshly allocated memory. -/
  heap : Nat → Nat
  /-- Byte order of the machine. -/
  byteOrder : ByteOrder

/-- The assignment `colliderData[name] = data` on a `std::unordered_map`, whose
entries are kept in order of first insertion: an existing key gets the new value,
a new key gets a new entry. -/
def mapAssign (m : List (String × ColliderData)) (name : String) (data : ColliderData) :
    List (String × ColliderData) :=
  match m with
  | [] => [(name, data)]
  | (k, v) :: rest =>
    if k = name then (k, data) :: rest else (k, v) :: mapAssign rest name data

/-- The shape built for a submesh from cooked bytes: geometry scaled by
`submeshScale * scale`, local pose from the decomposed translation and rotation.
The same statements build it on the fresh-cook and on the cache-hit path. -/
def buildShape {F M : Type} [Mul F] (env : Services F M) (scale : Vec3 F)
    (submesh : Submesh M) (cooked : List Nat) : PxShape F :=
  let d := env.DecomposeTransform submesh.Transform
  { cooked := cooked
    scale := d.scale * scale
    localPose := ⟨d.translation, d.rotation⟩ }

/-! ## The fresh-cook path -/

/-- The variables that the cooking loop updates. -/
structure CookState (F : Type) where
  shapes : List (PxShape F)
  colliderData : List (String × ColliderData)
  bufferSize : Nat

/-- One iteration of the cooking loop, for the cooking function `cook`. -/
def cookStep {F M : Type} [Mul F] (env : Services F M) (cook : MeshDesc → Option (List Nat))
    (scale : Vec3 F) (st : CookState F) (submesh : Submesh M) : CookState F :=
  match cook (meshDesc submesh) with
  | none => st
  | some buf =>
    let size := buf.length % U32
    let data : ColliderData := { Data := buf.take size, Size := size }
    { shapes := st.shapes ++ [buildShape env scale submesh (buf.take size)]
      colliderData := mapAssign st.colliderData submesh.MeshName data
      bufferSize := ((st.bufferSize + 4) % U32 + size) % U32 }

/-- The cooking loop over the submeshes. -/
def cookLoop {F M : Type} [Mul F] (env : Services F M) (cook : MeshDesc → Option (List Nat))
    (scale : Vec3 F) (submeshes : List (Submesh M)) (st : CookState F) : CookState F :=
  submeshes.foldl (cookStep env cook scale) st

/-- The write loop `for (auto& [submeshName, data] : colliderData)` over the
entries in the order visited, from the buffer `buf` and the offset `offset`.
Returns the buffer and the final offset. -/
def writeLoop (o : ByteOrder) :
    List (String × ColliderData) → Buffer → Nat → Option (Buffer × Nat)
  | [], buf, offset => some (buf, offset)
  | (_, data) :: rest, buf, offset =>
    match buf.Write (u32Bytes o data.Size) 4 offset with
    | none => none
    | some buf1 =>
      match buf1.Write data.Data data.Size ((offset + 4) % U32) with
      | none => none
      | some buf2 => writeLoop o rest buf2 (((offset + 4) % U32 + data.Size) % U32)

/-- The fresh-cook branch: cooking loop, `Allocate`, write loop. Returns the
shapes and the buffer handed to `SerializeMesh`. -/
def freshCook {F M : Type} [Mul F] (env : Services F M) (cook : MeshDesc → Option (List Nat))
    (scale : Vec3 F) (submeshes : List (Submesh M)) : Option (List (PxShape F) × Buffer) :=
  let st := cookLoop env cook scale submeshes ⟨[], [], 0⟩
  let colliderBuffer := Buffer.Allocate env.heap st.bufferSize
  match writeLoop env.byteOrder (env.traverse st.colliderData) colliderBuffer 0 with
  | none => none
  | some (buf, _) => some (st.shapes, buf)

/-! ## The cache-hit path -/

/-- The read loop over the submeshes, from the offset `offset`, appending to
`shapes`. Returns the shapes and the final offset. -/
def readLoop {F M : Type} [Mul F] (env : Services F M) (scale : Vec3 F) (colliderBuffer : Buffer) :
    List (Submesh M) → Nat → List (PxShape F) → Option (List (PxShape F) × Nat)
  | [], offset, shapes => some (shapes, offset)
  | submesh :: rest, offset, shapes =>
    match colliderBuffer.Read env.byteOrder offset with
    | none => none
    | some dataSize =>
      match colliderBuffer.ReadBytes dataSize ((offset + 4) % U32) with
      | none => none
      | some data =>
        readLoop env scale colliderBuffer rest (((offset + 4) % U32 + dataSize) % U32)
          (shapes ++ [buildShape env scale submesh data])

/-- The cache-hit branch: the read loop from offset 0 over the deserialized buffer. -/
def cachedLoad {F M : Type} [Mul F] (env : Services F M) (scale : Vec3 F)
    (colliderBuffer : Buffer) (submeshes : List (Submesh M)) : Option (List (PxShape F)) :=
  (readLoop env scale colliderBuffer submeshes 0 []).map Prod.fst

/-! ## Reconstruction of the debug meshes -/

/-- A `Vertex` of a reconstructed mesh; only `Position` is set. -/
structure Vertex (F : Type) where
  Position : Vec3 F
  deriving DecidableEq, Repr

/-- An `Index`: the three corners of a triangle. -/
structure Index where
  V1 : Nat
  V2 : Nat
  V3 : Nat
  deriving DecidableEq, Repr

/-- The transform given to a reconstructed mesh: `FromPhysXTransform(pose)`, and
for a triangle mesh that matrix times `glm::scale(glm::mat4(1.0f), scale)`. -/
structure MeshTransform (F : Type) where
  pose : PxTransform F
  scale : Option (Vec3 F)
  deriving DecidableEq, Repr

/-- The arguments of `Ref<Mesh>::Create(vertices, indices, transform)`: an entry
of `collider.ProcessedMeshes`. -/
structure Mesh (F : Type) where
  Vertices : List (Vertex F)
  Indices : List Index
  Transform : MeshTransform F
  deriving DecidableEq, Repr

/-- The variables that the polygon loop of one shape updates and reads. The
counters `nbVertices`, `nbFaces` and `indexCounter` are written and never read;
they are left out. -/
structure HullState (F : Type) where
  collisionVertices : List (Vertex F)
  collisionIndices : List Index
  vertCounter : Nat
  ProcessedMeshes : List (Mesh F)

/-- Bound of the fan loop: `uint32_t(polygon.mNbVerts) - 1`. -/
def fanBound (mNbVerts : Nat) : Nat := (mNbVerts % U32 + U32 - 1) % U32

/-- Body of the vertex loop of a polygon, on `(collisionVertices, vertCounter)`. -/
def vertexBody {F : Type} (mesh : PxConvexMesh F) (polygon : PxHullPolygon) (vI : Nat)
    (s : List (Vertex F) × Nat) : List (Vertex F) × Nat :=
  (s.1 ++ [⟨mesh.getVertices (mesh.getIndexBuffer ((polygon.mIndexBase + vI) % U32))⟩],
    (s.2 + 1) % U32)

/-- Body of the fan loop of a polygon whose first vertex has index `vI0`. -/
def fanBody (vI0 vI : Nat) (collisionIndices : List Index) : List Index :=
  collisionIndices ++ [{ V1 := vI0, V2 := (vI0 + vI + 1) % U32, V3 := (vI0 + vI) % U32 }]

/-- The fan loop `for (uint32_t vI = 1; vI < uint32_t(polygon.mNbVerts) - 1; vI++)`
appending to `collisionIndices`. -/
def fanLoop (vI0 mNbVerts : Nat) (collisionIndices : List Index) : List Index :=
  forLoop (fanBound mNbVerts) (fanBody vI0) (fanBound mNbVerts) 1 collisionIndices

/-- One iteration of the polygon loop of a shape with local pose `pose`. -/
def polygonStep {F : Type} (mesh : PxConvexMesh F) (pose : PxTransform F)
    (st : HullState F) (polygon : PxHullPolygon) : HullState F :=
  let vI0 := st.vertCounter
  let vs := forLoop polygon.mNbVerts (vertexBody mesh polygon) polygon.mNbVerts 0
    (st.collisionVertices, st.vertCounter)
  let is := fanLoop vI0 polygon.mNbVerts st.collisionIndices
  { collisionVertices := vs.1
    collisionIndices := is
    vertCounter := vs.2
    ProcessedMeshes := st.ProcessedMeshes ++ [⟨vs.1, is, ⟨pose, none⟩⟩] }

/-- The body of `for (auto shape : shapes)` in convex mode: the polygon loop of
one shape, started with empty vertex and index lists. -/
def reconstructConvexShape {F M : Type} (env : Services F M) (processed : List (Mesh F))
    (shape : PxShape F) : List (Mesh F) :=
  let mesh := env.createConvexMesh shape.cooked
  (mesh.polygons.foldl (polygonStep mesh shape.localPose)
    { collisionVertices := [], collisionIndices := [], vertCounter := 0,
      ProcessedMeshes := processed }).ProcessedMeshes

/-- The body of `for (auto shape : shapes)` in triangle mode. -/
def reconstructTriangleShape {F M : Type} (env : Services F M) (processed : List (Mesh F))
    (shape : PxShape F) : List (Mesh F) :=
  let mesh := env.createTriangleMesh shape.cooked
  let vertices := forLoop mesh.getNbVertices
    (fun v (vs : List (Vertex F)) => vs ++ [⟨mesh.getVertices v⟩]) mesh.getNbVertices 0 []
  let indices := forLoop mesh.getNbTriangles
    (fun tri (is : List Index) => is ++ [{ V1 := mesh.getTriangles ((3 * tri + 0) % U32),
                                           V2 := mesh.getTriangles ((3 * tri + 1) % U32),
                                           V3 := mesh.getTriangles ((3 * tri + 2) % U32) }])
    mesh.getNbTriangles 0 []
  processed ++ [⟨vertices, indices, ⟨shape.localPose, some shape.scale⟩⟩]

/-! ## The two entry points -/

/-- What the functions read and write of a `MeshColliderComponent`: the submeshes
of `collider.CollisionMesh` and `collider.ProcessedMeshes`. -/
structure MeshColliderComponent (F M : Type) where
  Submeshes : List (Submesh M)
  ProcessedMeshes : List (Mesh F)

/-- The effects of a call: the shapes returned, the collider, and the cache file
of the collision mesh (`none` when there is no file). -/
structure Outcome (F M : Type) where
  shapes : List (PxShape F)
  collider : MeshColliderComponent F M
  cache : Option Buffer

/-- Modelled from the spec: `PhysicsMeshSerializer` (not among the sources), the
Cache Store for the file of this collision mesh. `DeleteIfSerialized` "deletes the
Cache File if present", `IsSerialized` tells whether it exists, `SerializeMesh`
writes the buffer as the file and `DeserializeMesh` returns the file as a buffer.
This is the branch on the cache, for the cooking function `cook`: the shapes, and
the cache file afterwards. -/
def cookOrLoad {F M : Type} [Mul F] (env : Services F M) (cook : MeshDesc → Option (List Nat))
    (scale : Vec3 F) (submeshes : List (Submesh M)) (invalidateOld : Bool)
    (cache : Option Buffer) : Option (List (PxShape F) × Option Buffer) :=
  let cache1 := if invalidateOld then none else cache
  match cache1 with
  | none =>
    match freshCook env cook scale submeshes with
    | none => none
    | some (shapes, colliderBuffer) => some (shapes, some colliderBuffer)
  | some colliderBuffer =>
    match cachedLoad env scale colliderBuffer submeshes with
    | none => none
    | some shapes => some (shapes, some colliderBuffer)

/-- The function `PXPhysicsWrappers::CreateConvexMesh(collider, scale, invalidateOld)` run with
the cache file `cache`: `ProcessedMeshes.clear()`, the branch on the cache, the
reconstruction under its guard. The cooking parameters that the function sets
before cooking act on the cooking service only, which is `env.cookConvexMesh`. -/
def CreateConvexMesh {F M : Type} [Mul F] (env : Services F M)
    (collider : MeshColliderComponent F M) (scale : Vec3 F) (invalidateOld : Bool)
    (cache : Option Buffer) : Option (Outcome F M) :=
  let cleared : List (Mesh F) := []
  match cookOrLoad env env.cookConvexMesh scale collider.Submeshes invalidateOld cache with
  | none => none
  | some (shapes, cache2) =>
    let processed :=
      if cleared.length ≤ 0 then shapes.foldl (reconstructConvexShape env) cleared else cleared
    some { shapes := shapes
           collider := { collider with ProcessedMeshes := processed }
           cache := cache2 }

/-- The function `PXPhysicsWrappers::CreateTriangleMesh(collider, scale, invalidateOld)` run with
the cache file `cache`: `ProcessedMeshes.clear()`, the branch on the cache, the
reconstruction under its guard. -/
def CreateTriangleMesh {F M : Type} [Mul F] (env : Services F M)
    (collider : MeshColliderComponent F M) (scale : Vec3 F) (invalidateOld : Bool)
    (cache : Option Buffer) : Option (Outcome F M) :=
  let cleared : List (Mesh F) := []
  match cookOrLoad env env.cookTriangleMesh scale collider.Submeshes invalidateOld cache with
  | none => none
  | some (shapes, cache2) =>
    let processed :=
      if cleared.length ≤ 0 then shapes.foldl (reconstructTriangleShape env) cleared else cleared
    some { shapes := shapes
           collider := { collider with ProcessedMeshes := processed }
           cache := cache2 }

/-- The cooking function of a mode: `cookConvexMesh` in convex mode,
`cookTriangleMesh` in triangle mode. -/
def cookFor {F M : Type} (env : Services F M) (isConvex : Bool) :
    MeshDesc → Option (List Nat) :=
  if isConvex then env.cookConvexMesh else env.cookTriangleMesh

/-- Either entry point, as `AddMeshCollider` selects it by `collider.IsConvex`. -/
def createMesh {F M : Type} [Mul F] (env : Services F M) (isConvex : Bool)
    (collider : MeshColliderComponent F M) (scale : Vec3 F) (invalidateOld : Bool)
    (cache : Option Buffer) : Option (Outcome F M) :=
  if isConvex then CreateConvexMesh env collider scale invalidateOld cache
  else CreateTriangleMesh env collider scale invalidateOld cache

/-! ## The format of the cache file -/

/-- The format of the Cache File for the blobs `blobs`: each record is the four
bytes of its length followed by its bytes. -/
def encodeRecords (o : ByteOrder) (blobs : List (List Nat)) : List Nat :=
  (blobs.map fun b => u32Bytes o b.length ++ b).flatten

/-- The bytes that the write loop writes for the entries `es`, in the order given. -/
def encodeEntries (o : ByteOrder) (es : List (String × ColliderData)) : List Nat :=
  (es.map fun e => u32Bytes o e.2.Size ++ e.2.Data).flatten

/-- The shapes returned by a call, when it returns. -/
def shapesOf {F M : Type} (r : Option (Outcome F M)) : Option (List (PxShape F)) :=
  r.map fun out => out.shapes

/-- The cache file left by a call, when it returns. -/
def cacheOf {F M : Type} (r : Option (Outcome F M)) : Option Buffer :=
  r.bind fun out => out.cache

/-- The submeshes whose cooking succeeds, each with its cooked bytes, in
iteration order. -/
def cookedOf {M : Type} (cook : MeshDesc → Option (List Nat)) (submeshes : List (Submesh M)) :
    List (Submesh M × List Nat) :=
  submeshes.filterMap fun s => (cook (meshDesc s)).map fun b => (s, b)

/-! ## Auxiliary definitions for the statements -/

/-- The entry stored in `colliderData` for a cooked submesh. -/
def entryOf {M : Type} (p : Submesh M × List Nat) : String × ColliderData :=
  (p.1.MeshName, ⟨p.2, p.2.length⟩)

/-- The assignments `colliderData[name] = data` for the entries `l`, in order. -/
def assignAll (m l : List (String × ColliderData)) : List (String × ColliderData) :=
  l.foldl (fun m e => mapAssign m e.1 e.2) m

/-- Sum of `4 + Size` over the entries: what `bufferSize` counts for them. -/
def entriesSize (es : List (String × ColliderData)) : Nat :=
  (es.map fun e => 4 + e.2.Size).sum

/-- Sum of `4 + size` over the cooked submeshes: what `bufferSize` counts up. -/
def cookedSize {M : Type} (cook : MeshDesc → Option (List Nat)) (submeshes : List (Submesh M)) :
    Nat :=
  ((cookedOf cook submeshes).map fun p => 4 + p.2.length).sum

/-- The vertices that the vertex loop emits for a polygon, in order. -/
def polygonVertices {F : Type} (mesh : PxConvexMesh F) (polygon : PxHullPolygon) :
    List (Vertex F) :=
  (List.range' 0 polygon.mNbVerts).map fun vI =>
    ⟨mesh.getVertices (mesh.getIndexBuffer ((polygon.mIndexBase + vI) % U32))⟩

/-- The triangles that the fan loop emits for a polygon of `k` vertices, `k` at
least 1, whose first vertex has index `vI0`. -/
def fanTriangles (vI0 k : Nat) : List Index :=
  (List.range' 1 (k - 2)).map fun vI =>
    { V1 := vI0, V2 := (vI0 + vI + 1) % U32, V3 := (vI0 + vI) % U32 }

/-- The meshes appended by the polygon loop for the polygons `ps`, when the
vertex and index lists hold `cv` and `ci` before it: each mesh holds the lists
as they stand after its polygon. -/
def hullMeshes {F : Type} (mesh : PxConvexMesh F) (pose : PxTransform F) :
    List PxHullPolygon → List (Vertex F) → List Index → List (Mesh F)
  | [], _, _ => []
  | p :: ps, cv, ci =>
    ⟨cv ++ polygonVertices mesh p, ci ++ fanTriangles cv.length p.mNbVerts, ⟨pose, none⟩⟩
      :: hullMeshes mesh pose ps (cv ++ polygonVertices mesh p)
          (ci ++ fanTriangles cv.length p.mNbVerts)

/-! ## Sample data -/

/-- A tetrahedron as a cooked convex mesh: four triangular polygons over four
vertices. -/
def sampleHull : PxConvexMesh Int :=
  { polygons := [⟨3, 0⟩, ⟨3, 3⟩, ⟨3, 6⟩, ⟨3, 9⟩]
    getVertices := fun i => ⟨i, 2 * i, 3 * i⟩
    getIndexBuffer := fun i => [0, 1, 2, 0, 3, 1, 0, 2, 3, 1, 3, 2].getD i 0 }

/-- Sample services over integer scalars, a transform being a number: cooking
fails on a submesh without vertices and otherwise returns one byte, the base
vertex of the submesh; the hash table is visited in order of insertion; fresh
memory holds bytes 255; the machine is little-endian. -/
def sampleServices : Services Int Nat :=
  { cookConvexMesh := fun d => if d.pointsCount = 0 then none else some [d.pointsData]
    cookTriangleMesh := fun d => if d.pointsCount = 0 then none else some [d.pointsData]
    DecomposeTransform := fun m => ⟨⟨m, 0, 0⟩, ⟨0, m, 0⟩, ⟨1, 2, 3⟩⟩
    createConvexMesh := fun _ => sampleHull
    createTriangleMesh := fun _ => ⟨3, fun i => ⟨i, 0, 0⟩, 1, fun i => i⟩
    traverse := id
    heap := fun _ => 255
    byteOrder := .little }

/-- A sample submesh: base vertex and transform `base`, `count` vertices. -/
def sampleSubmesh (base count : Nat) (name : String) : Submesh Nat :=
  { BaseVertex := base, VertexCount := count, BaseIndex := 0, IndexCount := 3 * count,
    Transform := base, MeshName := name }

/-- A sample collider whose two submeshes have the same name. -/
def sampleTwins : MeshColliderComponent Int Nat :=
  { Submeshes := [sampleSubmesh 7 1 "Cube", sampleSubmesh 9 1 "Cube"], ProcessedMeshes := [] }

/-- A sample collider with one submesh, which cooks. -/
def sampleSingle : MeshColliderComponent Int Nat :=
  { Submeshes := [sampleSubmesh 7 1 "Cube"], ProcessedMeshes := [] }

/-- A sample collider with one submesh, which fails to cook. -/
def sampleEmpty : MeshColliderComponent Int Nat :=
  { Submeshes := [sampleSubmesh 7 0 "Cube"], ProcessedMeshes := [] }

/-- A sample collider with two submeshes of different names; the first fails to
cook. -/
def samplePair : MeshColliderComponent Int Nat :=
  { Submeshes := [sampleSubmesh 7 0 "Cube", sampleSubmesh 9 1 "Ball"], ProcessedMeshes := [] }

/-- The world scale of the samples. -/
def sampleScale : Vec3 Int := ⟨2, 2, 2⟩

/-! ## The collider after a call, matrices, and the actor -/

/-- The Processed Meshes of the collider after a call, when it returns. -/
def processedOf {F M : Type} (r : Option (Outcome F M)) : Option (List (Mesh F)) :=
  r.map fun out => out.collider.ProcessedMeshes

/-- The body of the shape loop of the reconstruction of a mode. -/
def reconstructShape {F M : Type} (env : Services F M) (isConvex : Bool) :
    List (Mesh F) → PxShape F → List (Mesh F) :=
  if isConvex then reconstructConvexShape env else reconstructTriangleShape env

/-- The vertices that the vertex loop of the triangle-mode reconstruction emits. -/
def triangleVertices {F : Type} (mesh : PxTriangleMesh F) : List (Vertex F) :=
  (List.range' 0 mesh.getNbVertices).map fun v => ⟨mesh.getVertices v⟩

/-- The triangles that the index loop of the triangle-mode reconstruction emits. -/
def triangleIndices {F : Type} (mesh : PxTriangleMesh F) : List Index :=
  (List.range' 0 mesh.getNbTriangles).map fun tri =>
    { V1 := mesh.getTriangles ((3 * tri + 0) % U32)
      V2 := mesh.getTriangles ((3 * tri + 1) % U32)
      V3 := mesh.getTriangles ((3 * tri + 2) % U32) }

/-- What `tris[i]` reads through the cast to `const PxU16*` when the cooked mesh
stores 16-bit indices: the index at position `i` of the cooked index array. -/
def u16ViewOf16 (indices : List Nat) (i : Nat) : Nat :=
  indices.getD i 0

/-- What `tris[i]` reads through the cast to `const PxU16*` when the cooked mesh
stores 32-bit indices: one half of the index at position `i / 2`. -/
def u16ViewOf32 (o : ByteOrder) (indices : List Nat) (i : Nat) : Nat :=
  let w := indices.getD (i / 2) 0
  match o with
  | .little => if i % 2 = 0 then w % 65536 else w / 65536 % 65536
  | .big => if i % 2 = 0 then w / 65536 % 65536 else w % 65536

/-- The matrix operations of the reconstruction, over a type `Mat` of `glm::mat4`. -/
structure MatrixOps (F Mat : Type) where
  /-- Conversion `FromPhysXTransform` of a pose to a matrix. -/
  FromPhysXTransform : PxTransform F → Mat
  /-- The matrix `glm::scale(glm::mat4(1.0f), v)`. -/
  scale : Vec3 F → Mat
  /-- The product `operator*` of two matrices. -/
  mul : Mat → Mat → Mat

/-- The matrix that a `MeshTransform` stands for. -/
def MeshTransform.matrix {F Mat : Type} (ops : MatrixOps F Mat) (t : MeshTransform F) : Mat :=
  match t.scale with
  | none => ops.FromPhysXTransform t.pose
  | some s => ops.mul (ops.FromPhysXTransform t.pose) (ops.scale s)

/-- A shape attached to an actor, with the two flags that `AddMeshCollider` sets on
it. The material, which is one and the same for all shapes of the call, is left
out. -/
structure AttachedShape (F : Type) where
  shape : PxShape F
  eSIMULATION_SHAPE : Bool
  eTRIGGER_SHAPE : Bool
  deriving DecidableEq, Repr

/-- What `AddMeshCollider` reads and writes of a `PhysicsActor`: the shapes
attached to it. -/
structure PhysicsActor (F : Type) where
  shapes : List (AttachedShape F)
  deriving DecidableEq, Repr

/-- Modelled from the spec: `PhysicsActor::AddCollisionShape` (PhysicsActor.cpp is
not among the sources). The shapes returned are "for the caller to attach to a
physical actor": the shape is attached to the actor, after those it holds. -/
def PhysicsActor.AddCollisionShape {F : Type} (actor : PhysicsActor F)
    (shape : AttachedShape F) : PhysicsActor F :=
  { shapes := actor.shapes ++ [shape] }

/-- The function `PXPhysicsWrappers::AddMeshCollider(actor)` run with the cache file
`cache`: `IsConvex`, `IsTrigger` and `collider` are those of the actor's
`MeshColliderComponent`, `size` is the scale of the entity's transform, and
`invalidateOld` is the default argument of the two cooking functions, whose
declaration is not among the sources. Returns the actor and the outcome of the
cooking call. -/
def AddMeshCollider {F M : Type} [Mul F] (env : Services F M) (invalidateOld : Bool)
    (IsConvex IsTrigger : Bool) (actor : PhysicsActor F)
    (collider : MeshColliderComponent F M) (size : Vec3 F) (cache : Option Buffer) :
    Option (PhysicsActor F × Outcome F M) :=
  let r :=
    if IsConvex then CreateConvexMesh env collider size invalidateOld cache
    else CreateTriangleMesh env collider size invalidateOld cache
  match r with
  | none => none
  | some out =>
    some (out.shapes.foldl
      (fun a shape => a.AddCollisionShape ⟨shape, !IsTrigger, IsTrigger⟩) actor, out)

/-- The submeshes for which a call builds a shape: on the fresh-cook path those
whose cooking succeeds, on the cache-hit path all of them. -/
def shapedSubmeshes {F M : Type} (env : Services F M) (isConvex : Bool)
    (collider : MeshColliderComponent F M) (invalidateOld : Bool) (cache : Option Buffer) :
    List (Submesh M) :=
  match (if invalidateOld then none else cache) with
  | none => (cookedOf (cookFor env isConvex) collider.Submeshes).map Prod.fst
  | some _ => collider.Submeshes

/-! ## Further sample data -/

/-- The sample services with a hash table that is visited in the reverse of the
order of insertion. -/
def sampleReversed : Services Int Nat :=
  { sampleServices with traverse := List.reverse }

/-- A sample collider with two submeshes of different names, which both cook. -/
def sampleDuo : MeshColliderComponent Int Nat :=
  { Submeshes := [sampleSubmesh 7 1 "Cube", sampleSubmesh 9 1 "Ball"], ProcessedMeshes := [] }

/-- The outcome of the fresh-cook call in triangle mode for `sampleDuo` under
`sampleReversed`. -/
def sampleDuoFirst : Outcome Int Nat :=
  { shapes := [buildShape sampleReversed sampleScale (sampleSubmesh 7 1 "Cube") [7],
      buildShape sampleReversed sampleScale (sampleSubmesh 9 1 "Ball") [9]]
    collider :=
      { Submeshes := sampleDuo.Submeshes
        ProcessedMeshes :=
          [buildShape sampleReversed sampleScale (sampleSubmesh 7 1 "Cube") [7],
            buildShape sampleReversed sampleScale (sampleSubmesh 9 1 "Ball") [9]].foldl
            (reconstructTriangleShape sampleReversed) [] }
    cache := some ⟨[1, 0, 0, 0, 9, 1, 0, 0, 0, 7]⟩ }

/-- The outcome of the cache-hit call in triangle mode that follows
`sampleDuoFirst`. -/
def sampleDuoSecond : Outcome Int Nat :=
  { shapes := [buildShape sampleReversed sampleScale (sampleSubmesh 7 1 "Cube") [9],
      buildShape sampleReversed sampleScale (sampleSubmesh 9 1 "Ball") [7]]
    collider :=
      { Submeshes := sampleDuo.Submeshes
        ProcessedMeshes :=
          [buildShape sampleReversed sampleScale (sampleSubmesh 7 1 "Cube") [9],
            buildShape sampleReversed sampleScale (sampleSubmesh 9 1 "Ball") [7]].foldl
            (reconstructTriangleShape sampleReversed) [] }
    cache := some ⟨[1, 0, 0, 0, 9, 1, 0, 0, 0, 7]⟩ }

/-- A Processed Mesh left by an earlier call. -/
def sampleOldMesh : Mesh Int :=
  { Vertices := [], Indices := [], Transform := ⟨⟨⟨0, 0, 0⟩, ⟨0, 0, 0⟩⟩, none⟩ }

/-- The sample collider with one submesh, holding a Processed Mesh already. -/
def sampleStale : MeshColliderComponent Int Nat :=
  { Submeshes := [sampleSubmesh 7 1 "Cube"], ProcessedMeshes := [sampleOldMesh] }

/-- A cooked triangle mesh of 70001 vertices that stores 32-bit indices: one
triangle, with the corners 0, 1 and 70000. -/
def sampleWideMesh : PxTriangleMesh Int :=
  { getNbVertices := 70001
    getVertices := fun i => ⟨i, 0, 0⟩
    getNbTriangles := 1
    getTriangles := u16ViewOf32 .little [0, 1, 70000] }

/-- The sample services with a mesh factory that returns `sampleWideMesh`. -/
def sampleWide : Services Int Nat :=
  { sampleServices with createTriangleMesh := fun _ => sampleWideMesh }

/-- Sample matrices: a matrix is a map on the integers, the product is
composition, a pose translates by the first component of its translation and a
scale multiplies by its first component. -/
def sampleOps : MatrixOps Int (Int → Int) :=
  { FromPhysXTransform := fun p v => v + p.translation.x
    scale := fun s v => s.x * v
    mul := fun a b v => a (b v) }

/-! ## The cooking parameters -/

/-- A `physx::PxCookingParams`: the three members that `CreateConvexMesh` assigns,
and the others together. -/
structure PxCookingParams (F R : Type) where
  planeTolerance : F
  meshPreprocessParams : Nat
  meshWeldTolerance : F
  others : R
  deriving DecidableEq, Repr

/-- The flag `PxMeshPreprocessingFlag::eWELD_VERTICES`. -/
def eWELD_VERTICES : Nat := 1

/-- The cooking object `s_CookingFactory`: the parameters it holds; `getParams()`
returns a reference to them and `setParams(p)` assigns `p` to them. -/
structure PxCooking (F R : Type) where
  mParams : PxCookingParams F R
  deriving DecidableEq, Repr

/-- The statements of `CreateConvexMesh` on the cooking parameters, run on the
cooking object `cooking`; `zero` and `hundredth` are the literals `0.0f` and
`0.01f`. `currentParams` is a reference: it is read where it is used. Between the
two calls of `setParams` the function cooks or loads, which does not set
parameters. Returns the cooking object when the function returns. -/
def cookingParamsAfter {F R : Type} (zero hundredth : F) (cooking : PxCooking F R) :
    PxCooking F R :=
  let currentParams : PxCooking F R → PxCookingParams F R := fun c => c.mParams
  let newParams : PxCookingParams F R := currentParams cooking
  let newParams := { newParams with planeTolerance := zero }
  let newParams := { newParams with meshPreprocessParams := eWELD_VERTICES }
  let newParams := { newParams with meshWeldTolerance := hundredth }
  let cooking : PxCooking F R := { mParams := newParams }
  let cooking : PxCooking F R := { mParams := currentParams cooking }
  cooking

/-! ## The overlap queries -/

/-- The geometry of an overlap query. -/
inductive PxGeometry (F : Type) where
  | PxBoxGeometry (hx hy hz : F)
  | PxCapsuleGeometry (radius halfHeight : F)
  | PxSphereGeometry (radius : F)

/-- What `scene->overlap(geometry, pose, buf)` leaves: its result, `buf.nbTouches`
and `buf.touches`, the contents of `s_OverlapBuffer` after the query. -/
structure PxOverlapBuffer (H : Type) where
  result : Bool
  nbTouches : Nat
  touches : Nat → H

/-- The statements after the query, the same in the three functions: the result,
the caller's `buffer` and `*count`. `OVERLAP_MAX_COLLIDERS` is a macro whose
definition is not among the sources. -/
def copyTouches {H : Type} (OVERLAP_MAX_COLLIDERS : Nat) (buf : PxOverlapBuffer H)
    (buffer : List H) (count : Nat) : Bool × List H × Nat :=
  if buf.result then
    let bodyCount :=
      if buf.nbTouches ≥ OVERLAP_MAX_COLLIDERS then OVERLAP_MAX_COLLIDERS else buf.nbTouches
    (buf.result, (List.range bodyCount).map buf.touches ++ buffer.drop bodyCount, bodyCount)
  else (buf.result, buffer, count)

/-- The function `PXPhysicsWrappers::OverlapBox`; `overlap` is the query of the
physics scene for a geometry placed at `origin`. -/
def OverlapBox {F H : Type} (OVERLAP_MAX_COLLIDERS : Nat)
    (overlap : PxGeometry F → Vec3 F → PxOverlapBuffer H) (origin halfSize : Vec3 F)
    (buffer : List H) (count : Nat) : Bool × List H × Nat :=
  let geometry := PxGeometry.PxBoxGeometry halfSize.x halfSize.y halfSize.z
  copyTouches OVERLAP_MAX_COLLIDERS (overlap geometry origin) buffer count

/-- The function `PXPhysicsWrappers::OverlapCapsule`. -/
def OverlapCapsule {F H : Type} (OVERLAP_MAX_COLLIDERS : Nat)
    (overlap : PxGeometry F → Vec3 F → PxOverlapBuffer H) (origin : Vec3 F)
    (radius halfHeight : F) (buffer : List H) (count : Nat) : Bool × List H × Nat :=
  let geometry := PxGeometry.PxCapsuleGeometry radius halfHeight
  copyTouches OVERLAP_MAX_COLLIDERS (overlap geometry origin) buffer count

/-- The function `PXPhysicsWrappers::OverlapSphere`. -/
def OverlapSphere {F H : Type} (OVERLAP_MAX_COLLIDERS : Nat)
    (overlap : PxGeometry F → Vec3 F → PxOverlapBuffer H) (origin : Vec3 F)
    (radius : F) (buffer : List H) (count : Nat) : Bool × List H × Nat :=
  let geometry := PxGeometry.PxSphereGeometry radius
  copyTouches OVERLAP_MAX_COLLIDERS (overlap geometry origin) buffer count

/-! ## The script engine: module names -/

namespace StdString

/-- The position that `find(c)` returns on a `std::string`, given as its
characters; `none` is `npos`. -/
def find (s : List Char) (c : Char) : Option Nat :=
  match s with
  | [] => none
  | x :: xs => if x = c then some 0 else (find xs c).map (· + 1)

/-- The position that `find_last_of(c)` returns; `none` is `npos`. -/
def find_last_of (s : List Char) (c : Char) : Option Nat :=
  match s with
  | [] => none
  | x :: xs =>
    match find_last_of xs c with
    | some i => some (i + 1)
    | none => if x = c then some 0 else none

end StdString

/-- The three strings of an `EntityScriptClass`. -/
structure ScriptClassNames where
  FullName : List Char
  ClassName : List Char
  NamespaceName : List Char
  deriving DecidableEq, Repr

/-- The namespace and the class name that `ScriptEngine::GetCoreClass` passes to
`mono_class_from_name`. With `npos` for the last dot, `substr(0, npos)` and
`substr(npos + 1)` are both the whole string. -/
def GetCoreClassNames (fullName : List Char) : List Char × List Char :=
  let namespaceName : List Char := []
  if (StdString.find fullName '.').isSome then
    match StdString.find_last_of fullName '.' with
    | some i => (fullName.take i, fullName.drop (i + 1))
    | none => (fullName, fullName)
  else (namespaceName, fullName)

/-- The namespace and the class name that `ScriptEngine::ModuleExists` passes to
`mono_class_from_name`. -/
def ModuleExistsNames (moduleName : List Char) : List Char × List Char :=
  let NamespaceName : List Char := []
  if (StdString.find moduleName '.').isSome then
    match StdString.find_last_of moduleName '.' with
    | some i => (moduleName.take i, moduleName.drop (i + 1))
    | none => (moduleName, moduleName)
  else (NamespaceName, moduleName)

/-- The names that `ScriptEngine::InitScriptEntity` assigns in
`s_EntityClassMap[moduleName]`, which holds `scriptClass` before: without a dot
the namespace is left as it is. -/
def InitScriptEntityNames (scriptClass : ScriptClassNames) (moduleName : List Char) :
    ScriptClassNames :=
  let scriptClass := { scriptClass with FullName := moduleName }
  if (StdString.find moduleName '.').isSome then
    match StdString.find_last_of moduleName '.' with
    | some i =>
      { scriptClass with NamespaceName := moduleName.take i, ClassName := moduleName.drop (i + 1) }
    | none => { scriptClass with NamespaceName := moduleName, ClassName := moduleName }
  else { scriptClass with ClassName := moduleName }

/-! ## The script engine: public fields -/

/-- The values of `mono_type_get_type` that `GetHazelFieldType` tells apart, and
the others. -/
inductive MonoTypeEnum where
  | MONO_TYPE_R4
  | MONO_TYPE_I4
  | MONO_TYPE_U4
  | MONO_TYPE_STRING
  | MONO_TYPE_CLASS
  | MONO_TYPE_VALUETYPE
  | others (code : Nat)
  deriving DecidableEq, Repr

/-- A `MonoType`: what `mono_type_get_type` and `mono_type_get_name` return. -/
structure MonoType where
  type : MonoTypeEnum
  name : String
  deriving DecidableEq, Repr

/-- The enumerators of `FieldType` that the source names; its declaration is not
among the sources. -/
inductive FieldType where
  | None
  | Float
  | Int
  | UnsignedInt
  | String
  | Vec2
  | Vec3
  | Vec4
  | ClassReference
  deriving DecidableEq, Repr

/-- The function `GetHazelFieldType`. -/
def GetHazelFieldType (monoType : MonoType) : FieldType :=
  match monoType.type with
  | .MONO_TYPE_R4 => FieldType.Float
  | .MONO_TYPE_I4 => FieldType.Int
  | .MONO_TYPE_U4 => FieldType.UnsignedInt
  | .MONO_TYPE_STRING => FieldType.String
  | .MONO_TYPE_CLASS => FieldType.ClassReference
  | .MONO_TYPE_VALUETYPE =>
    if monoType.name = "Hazel.Vector2" then FieldType.Vec2
    else if monoType.name = "Hazel.Vector3" then FieldType.Vec3
    else if monoType.name = "Hazel.Vector4" then FieldType.Vec4
    else FieldType.None
  | .others _ => FieldType.None

/-- The function `GetFieldSize`. `HZ_CORE_ASSERT` is a macro whose definition is
not among the sources: `assertions` tells whether it is compiled in, in which
case a failed assertion stops the run (`none`); otherwise the function goes on
to `return 0`. -/
def GetFieldSize (assertions : Bool) (type : FieldType) : Option Nat :=
  match type with
  | FieldType.Float => some 4
  | FieldType.Int => some 4
  | FieldType.UnsignedInt => some 4
  | FieldType.Vec2 => some (4 * 2)
  | FieldType.Vec3 => some (4 * 3)
  | FieldType.Vec4 => some (4 * 4)
  | FieldType.ClassReference => some 4
  | _ => if assertions then none else some 0

/-- The function `PublicField::AllocateBuffer`: a buffer of the size of the type,
set to zero. -/
def AllocateBuffer (assertions : Bool) (type : FieldType) : Option (List Nat) :=
  match GetFieldSize assertions type with
  | none => none
  | some size => some (List.replicate size 0)

/-- A `PublicField`: its name, type name and type (the member `Type`), and the
bytes of `m_StoredValueBuffer`. The pointers to the entity instance and to the
Mono field are left out. -/
structure PublicField where
  Name : String
  TypeName : String
  Type_ : FieldType
  m_StoredValueBuffer : List Nat
  deriving DecidableEq, Repr

/-- The constructor `PublicField::PublicField(name, typeName, type)`. -/
def PublicField.create (assertions : Bool) (name typeName : String) (type : FieldType) :
    Option PublicField :=
  match AllocateBuffer assertions type with
  | none => none
  | some buffer => some ⟨name, typeName, type, buffer⟩

/-- A `MonoClassField`: what `mono_field_get_name`, `mono_field_get_flags` and
`mono_field_get_type` return for it. -/
structure MonoClassField where
  name : String
  flags : Nat
  type : MonoType
  deriving DecidableEq, Repr

/-- The lookup `find(name)` in a `std::unordered_map` from names to fields, whose
entries are the list. -/
def fieldFind (m : List (String × PublicField)) (name : String) : Option PublicField :=
  match m with
  | [] => none
  | (k, v) :: rest => if k = name then some v else fieldFind rest name

/-- The insertion `emplace(name, field)`: a name that the map has keeps its
entry. -/
def fieldEmplace (m : List (String × PublicField)) (name : String) (field : PublicField) :
    List (String × PublicField) :=
  match fieldFind m name with
  | some _ => m
  | none => m ++ [(name, field)]

/-- The loop "Save old fields". -/
def saveOldFields (fieldMap : List (String × PublicField)) : List (String × PublicField) :=
  fieldMap.foldl (fun oldFields e => fieldEmplace oldFields e.1 e.2) []

/-- The loop "Retrieve public fields" over the fields that `mono_class_get_fields`
yields, on the cleared `fieldMap`. A field moved out of `oldFields` is looked up
again only for a name that `fieldMap` already has, where `emplace` inserts
nothing; `oldFields` is therefore kept as it is. `MONO_FIELD_ATTR_PUBLIC` is a
constant of the Mono headers. -/
def retrieveFields (assertions : Bool) (MONO_FIELD_ATTR_PUBLIC : Nat)
    (oldFields : List (String × PublicField)) :
    List MonoClassField → List (String × PublicField) → Option (List (String × PublicField))
  | [], fieldMap => some fieldMap
  | iter :: rest, fieldMap =>
    if iter.flags &&& MONO_FIELD_ATTR_PUBLIC = 0 then
      retrieveFields assertions MONO_FIELD_ATTR_PUBLIC oldFields rest fieldMap
    else
      let hazelFieldType := GetHazelFieldType iter.type
      if hazelFieldType = FieldType.ClassReference then
        retrieveFields assertions MONO_FIELD_ATTR_PUBLIC oldFields rest fieldMap
      else
        match fieldFind oldFields iter.name with
        | some old =>
          retrieveFields assertions MONO_FIELD_ATTR_PUBLIC oldFields rest
            (fieldEmplace fieldMap iter.name old)
        | none =>
          match PublicField.create assertions iter.name iter.type.name hazelFieldType with
          | none => none
          | some field =>
            retrieveFields assertions MONO_FIELD_ATTR_PUBLIC oldFields rest
              (fieldEmplace fieldMap iter.name field)

/-- What the script engine takes from outside: whether assertions are compiled
in, the constant `MONO_FIELD_ATTR_PUBLIC`, and `mono_class_from_name` on the
image of the app assembly, which yields the fields of the class or no class. -/
structure ScriptServices where
  assertions : Bool
  MONO_FIELD_ATTR_PUBLIC : Nat
  mono_class_from_name : List Char → List Char → Option (List MonoClassField)

/-- The function `ScriptEngine::ModuleExists`. -/
def ModuleExists (env : ScriptServices) (moduleName : List Char) : Bool :=
  (env.mono_class_from_name (ModuleExistsNames moduleName).1
    (ModuleExistsNames moduleName).2).isSome

/-- The function `ScriptEngine::InitScriptEntity` for an entity whose script
component names `moduleName`: `scriptClass` is `s_EntityClassMap[moduleName]` and
`fieldMap` the field map of the module for the entity, before and after. The
run has no result when an assertion stops it or the class is null. -/
def InitScriptEntity (env : ScriptServices) (moduleName : List Char)
    (scriptClass : ScriptClassNames) (fieldMap : List (String × PublicField)) :
    Option (ScriptClassNames × List (String × PublicField)) :=
  if moduleName.isEmpty then some (scriptClass, fieldMap)
  else if !ModuleExists env moduleName then some (scriptClass, fieldMap)
  else
    let scriptClass := InitScriptEntityNames scriptClass moduleName
    match env.mono_class_from_name scriptClass.NamespaceName scriptClass.ClassName with
    | none => none
    | some fields =>
      let oldFields := saveOldFields fieldMap
      match retrieveFields env.assertions env.MONO_FIELD_ATTR_PUBLIC oldFields fields [] with
      | none => none
      | some fieldMap => some (scriptClass, fieldMap)

/-- The fields that the loop "Retrieve public fields" does not skip: those with a
bit of `MONO_FIELD_ATTR_PUBLIC` in their flags whose type is not a class
reference. -/
def retrievedFields (MONO_FIELD_ATTR_PUBLIC : Nat) (fields : List MonoClassField) :
    List MonoClassField :=
  fields.filter fun iter =>
    !(decide (iter.flags &&& MONO_FIELD_ATTR_PUBLIC = 0))
      && !(decide (GetHazelFieldType iter.type = FieldType.ClassReference))

/-- The entry that the loop makes for a field it does not skip, where the
constructor of `PublicField` returns: the entry of the name in `oldFields`, or a
new field with a buffer of zeros. -/
def retrievedEntry (assertions : Bool) (oldFields : List (String × PublicField))
    (iter : MonoClassField) : String × PublicField :=
  (iter.name,
    match fieldFind oldFields iter.name with
    | some old => old
    | none =>
      { Name := iter.name
        TypeName := iter.type.name
        Type_ := GetHazelFieldType iter.type
        m_StoredValueBuffer :=
          List.replicate ((GetFieldSize assertions (GetHazelFieldType iter.type)).getD 0) 0 })

/-! ## Sample data for the script engine -/

/-- A sample script class `Game.Player` with a public `float`, a private `int`, a
public reference to a class and a public `Hazel.Vector3`, under the flag values of
the Mono headers (public is 6, private is 1). -/
def samplePlayerFields : List MonoClassField :=
  [⟨"Speed", 6, ⟨.MONO_TYPE_R4, "System.Single"⟩⟩,
   ⟨"m_Lives", 1, ⟨.MONO_TYPE_I4, "System.Int32"⟩⟩,
   ⟨"Target", 6, ⟨.MONO_TYPE_CLASS, "Hazel.Entity"⟩⟩,
   ⟨"Home", 6, ⟨.MONO_TYPE_VALUETYPE, "Hazel.Vector3"⟩⟩]

/-- A sample script class `Game.Sign` with a public `string`. -/
def sampleSignFields : List MonoClassField :=
  [⟨"Text", 6, ⟨.MONO_TYPE_STRING, "System.String"⟩⟩]

/-- Sample script services: the app assembly has the classes `Game.Player` and
`Game.Sign`. -/
def sampleScripts (assertions : Bool) : ScriptServices :=
  { assertions := assertions
    MONO_FIELD_ATTR_PUBLIC := 6
    mono_class_from_name := fun ns cls =>
      if ns = "Game".toList ∧ cls = "Player".toList then some samplePlayerFields
      else if ns = "Game".toList ∧ cls = "Sign".toList then some sampleSignFields
      else none }

/-- A sample field map from an earlier initialisation: `Speed` with a stored
value, and `Jump`, which the class no longer has. -/
def sampleOldFieldMap : List (String × PublicField) :=
  [("Speed", ⟨"Speed", "System.Single", FieldType.Float, [0, 0, 128, 63]⟩),
   ("Jump", ⟨"Jump", "System.Single", FieldType.Float, [0, 0, 0, 64]⟩)]

/-- A sample hull with a polygon without vertices before a polygon with one
vertex. -/
def sampleDegenerate : PxConvexMesh Int :=
  { polygons := [⟨0, 0⟩, ⟨1, 0⟩]
    getVertices := fun i => ⟨i, 2 * i, 3 * i⟩
    getIndexBuffer := fun i => i }

/-- The sample services, creating the hull `sampleDegenerate` from every blob. -/
def sampleDegenerateServices : Services Int Nat :=
  { sampleServices with createConvexMesh := fun _ => sampleDegenerate }

/-- A sample scene query: 3 touches 10, 11, 12 for a box, 1 touch for a sphere,
no overlap for a capsule. -/
def sampleOverlap (geometry : PxGeometry Int) (_origin : Vec3 Int) : PxOverlapBuffer Nat :=
  match geometry with
  | .PxBoxGeometry _ _ _ => ⟨true, 3, fun i => 10 + i⟩
  | .PxCapsuleGeometry _ _ => ⟨false, 0, fun _ => 0⟩
  | .PxSphereGeometry _ => ⟨true, 1, fun i => 10 + i⟩

/-! ## Bytes, buffers and counted loops -/

theorem u32Bytes_length (o : ByteOrder) (n : Nat) : (u32Bytes o n).length = 4 := by
  cases o <;> rfl

theorem encodeRecords_nil (o : ByteOrder) : encodeRecords o [] = [] := rfl

theorem encodeRecords_cons (o : ByteOrder) (b : List Nat) (bs : List (List Nat)) :
    encodeRecords o (b :: bs) = u32Bytes o b.length ++ (b ++ encodeRecords o bs) := by
  simp [encodeRecords]

theorem encodeRecords_append (o : ByteOrder) (as bs : List (List Nat)) :
    encodeRecords o (as ++ bs) = encodeRecords o as ++ encodeRecords o bs := by
  simp [encodeRecords]

theorem encodeRecords_length (o : ByteOrder) (bs : List (List Nat)) :
    (encodeRecords o bs).length = (bs.map fun b => 4 + b.length).sum := by
  induction bs with
  | nil => rfl
  | cons b bs ih => simp [encodeRecords_cons, u32Bytes_length, ih]; omega

theorem encodeEntries_eq (o : ByteOrder) (es : List (String × ColliderData))
    (h : ∀ e ∈ es, e.2.Size = e.2.Data.length) :
    encodeEntries o es = encodeRecords o (es.map fun e => e.2.Data) := by
  induction es with
  | nil => rfl
  | cons e es ih =>
    have h1 := h e (List.mem_cons_self _ _)
    have h2 : ∀ e ∈ es, e.2.Size = e.2.Data.length := fun x hx => h x (List.mem_cons_of_mem _ hx)
    have ih2 := ih h2
    simp only [encodeEntries, encodeRecords] at ih2 ⊢
    simp [h1, ih2]

theorem Buffer.Read_at (o : ByteOrder) (pre rest : List Nat) (n : Nat) (h : n < U32) :
    Buffer.Read o ⟨pre ++ (u32Bytes o n ++ rest)⟩ pre.length = some n := by
  unfold U32 at h
  cases o <;> simp [Buffer.Read, u32Bytes, u32OfBytes] <;> omega

theorem Buffer.Read_none (o : ByteOrder) (b : Buffer) (offset : Nat) (h : b.Size < offset + 4) :
    b.Read o offset = none := by
  have hl : (b.Data.drop offset).length < 4 := by
    simp only [Buffer.Size] at h
    simp only [List.length_drop]
    omega
  unfold Buffer.Read
  split
  · rename_i b0 b1 b2 b3 t heq
    rw [heq] at hl
    simp only [List.length_cons] at hl
    omega
  · rfl

theorem Buffer.ReadBytes_at (pre b rest : List Nat) :
    Buffer.ReadBytes ⟨pre ++ (b ++ rest)⟩ b.length pre.length = some b := by
  simp [Buffer.ReadBytes, Buffer.Size]

theorem Buffer.Write_at (pre old post data : List Nat) (size : Nat)
    (hold : old.length = size) (hdata : data.length = size) :
    Buffer.Write ⟨pre ++ (old ++ post)⟩ data size pre.length = some ⟨pre ++ (data ++ post)⟩ := by
  subst hold
  simp [Buffer.Write, Buffer.Size, ← hdata]

theorem forLoop_eq_foldl {σ : Type} (bound : Nat) (body : Nat → σ → σ) (hb : bound < U32) :
    ∀ (fuel i : Nat) (s : σ), bound - i ≤ fuel →
      forLoop bound body fuel i s = (List.range' i (bound - i)).foldl (fun s j => body j s) s := by
  intro fuel
  induction fuel with
  | zero =>
    intro i s h
    have : bound - i = 0 := by omega
    simp [forLoop, this]
  | succ fuel ih =>
    intro i s h
    unfold forLoop
    by_cases hi : i < bound
    · have hmod : (i + 1) % U32 = i + 1 := Nat.mod_eq_of_lt (by omega)
      have hlen : bound - i = (bound - (i + 1)) + 1 := by omega
      rw [if_pos hi, hmod, ih (i + 1) (body i s) (by omega), hlen, List.range'_succ]
      rfl
    · have : bound - i = 0 := by omega
      simp [hi, this]

/-! ## The write loop and the read loop -/

theorem encodeEntries_cons (o : ByteOrder) (e : String × ColliderData)
    (es : List (String × ColliderData)) :
    encodeEntries o (e :: es) = u32Bytes o e.2.Size ++ (e.2.Data ++ encodeEntries o es) := by
  simp [encodeEntries]

theorem encodeEntries_length (o : ByteOrder) (es : List (String × ColliderData))
    (h : ∀ e ∈ es, e.2.Size = e.2.Data.length) :
    (encodeEntries o es).length = entriesSize es := by
  induction es with
  | nil => rfl
  | cons e es ih =>
    have h1 := h e (List.mem_cons_self _ _)
    have h2 := ih fun x hx => h x (List.mem_cons_of_mem _ hx)
    simp only [entriesSize] at h2
    simp only [encodeEntries_cons, entriesSize, List.length_append, u32Bytes_length, h2,
      List.map_cons, List.sum_cons, h1]
    omega

theorem writeLoop_fill (o : ByteOrder) :
    ∀ (es : List (String × ColliderData)) (pre old post : List Nat),
      (∀ e ∈ es, e.2.Size = e.2.Data.length) →
      old.length = (encodeEntries o es).length →
      pre.length + old.length < U32 →
      writeLoop o es ⟨pre ++ (old ++ post)⟩ pre.length
        = some (⟨pre ++ (encodeEntries o es ++ post)⟩, pre.length + old.length) := by
  intro es
  induction es with
  | nil =>
    intro pre old post _ hlen _
    have : old = [] := List.length_eq_zero.mp (by simpa [encodeEntries] using hlen)
    subst this
    simp [writeLoop, encodeEntries]
  | cons e es ih =>
    intro pre old post hsz hlen hlt
    obtain ⟨name, data⟩ := e
    have hd : data.Size = data.Data.length := hsz _ (List.mem_cons_self _ _)
    have hrest : ∀ e ∈ es, e.2.Size = e.2.Data.length :=
      fun x hx => hsz x (List.mem_cons_of_mem _ hx)
    simp only [encodeEntries_cons, List.length_append, u32Bytes_length] at hlen
    have hsplit : old = old.take 4 ++ ((old.drop 4).take data.Size
        ++ (old.drop 4).drop data.Size) := by
      rw [List.take_append_drop, List.take_append_drop]
    have h1 : (old.take 4).length = 4 := by simp; omega
    have h2 : ((old.drop 4).take data.Size).length = data.Size := by simp; omega
    have h3 : ((old.drop 4).drop data.Size).length = (encodeEntries o es).length := by
      simp; omega
    generalize old.take 4 = o1 at hsplit h1
    generalize (old.drop 4).take data.Size = o2 at hsplit h2
    generalize (old.drop 4).drop data.Size = o3 at hsplit h3
    subst hsplit
    simp only [List.length_append] at hlt
    have hw1 := Buffer.Write_at pre o1 (o2 ++ o3 ++ post) (u32Bytes o data.Size) 4 h1
      (u32Bytes_length o data.Size)
    have hoff : (pre.length + 4) % U32 = (pre ++ u32Bytes o data.Size).length := by
      rw [List.length_append, u32Bytes_length]
      exact Nat.mod_eq_of_lt (by omega)
    have hw2 := Buffer.Write_at (pre ++ u32Bytes o data.Size) o2 (o3 ++ post) data.Data
      data.Size h2 hd.symm
    have hoff2 : ((pre ++ u32Bytes o data.Size).length + data.Size) % U32
        = (pre ++ u32Bytes o data.Size ++ data.Data).length := by
      rw [List.length_append (pre ++ _), ← hd]
      apply Nat.mod_eq_of_lt
      rw [List.length_append, u32Bytes_length]
      omega
    have hrec := ih (pre ++ u32Bytes o data.Size ++ data.Data) o3 post hrest h3 (by
      simp only [List.length_append, u32Bytes_length]; omega)
    simp only [List.append_assoc] at hw1 hw2 hrec hoff hoff2 ⊢
    unfold writeLoop
    simp only [hw1, hoff, hw2, hoff2, hrec, encodeEntries_cons]
    simp only [List.length_append, u32Bytes_length, List.append_assoc]
    congr 2
    omega

theorem readLoop_records {F M : Type} [Mul F] (env : Services F M) (scale : Vec3 F) :
    ∀ (pairs : List (Submesh M × List Nat)) (pre post : List Nat) (acc : List (PxShape F)),
      pre.length + (encodeRecords env.byteOrder (pairs.map Prod.snd)).length < U32 →
      readLoop env scale ⟨pre ++ (encodeRecords env.byteOrder (pairs.map Prod.snd) ++ post)⟩
          (pairs.map Prod.fst) pre.length acc
        = some (acc ++ pairs.map (fun p => buildShape env scale p.1 p.2),
            pre.length + (encodeRecords env.byteOrder (pairs.map Prod.snd)).length) := by
  intro pairs
  induction pairs with
  | nil => intro pre post acc _; simp [readLoop, encodeRecords]
  | cons p ps ih =>
    intro pre post acc hlt
    obtain ⟨s, b⟩ := p
    simp only [List.map_cons, encodeRecords_cons, List.length_append, u32Bytes_length] at hlt ⊢
    have hr := Buffer.Read_at env.byteOrder pre
      (b ++ encodeRecords env.byteOrder (ps.map Prod.snd) ++ post) b.length (by omega)
    have hoff : (pre.length + 4) % U32 = (pre ++ u32Bytes env.byteOrder b.length).length := by
      rw [List.length_append, u32Bytes_length]
      exact Nat.mod_eq_of_lt (by omega)
    have hb := Buffer.ReadBytes_at (pre ++ u32Bytes env.byteOrder b.length) b
      (encodeRecords env.byteOrder (ps.map Prod.snd) ++ post)
    have hoff2 : ((pre ++ u32Bytes env.byteOrder b.length).length + b.length) % U32
        = (pre ++ u32Bytes env.byteOrder b.length ++ b).length := by
      rw [List.length_append (pre ++ _)]
      apply Nat.mod_eq_of_lt
      rw [List.length_append, u32Bytes_length]
      omega
    have hrec := ih (pre ++ u32Bytes env.byteOrder b.length ++ b) post
      (acc ++ [buildShape env scale s b]) (by
        simp only [List.length_append, u32Bytes_length]; omega)
    simp only [List.append_assoc] at hr hb hrec hoff hoff2 ⊢
    unfold readLoop
    simp only [hr, hoff, hb, hoff2, hrec]
    simp only [List.length_append, u32Bytes_length, List.append_assoc, List.singleton_append]
    congr 2
    omega

theorem readLoop_append {F M : Type} [Mul F] (env : Services F M) (scale : Vec3 F)
    (buf : Buffer) :
    ∀ (xs ys : List (Submesh M)) (offset : Nat) (acc : List (PxShape F)),
      readLoop env scale buf (xs ++ ys) offset acc
        = match readLoop env scale buf xs offset acc with
          | none => none
          | some (shapes, off) => readLoop env scale buf ys off shapes := by
  intro xs
  induction xs with
  | nil => intro ys offset acc; simp [readLoop]
  | cons x xs ih =>
    intro ys offset acc
    cases h1 : buf.Read env.byteOrder offset with
    | none => simp [readLoop, h1]
    | some dataSize =>
      cases h2 : buf.ReadBytes dataSize ((offset + 4) % U32) with
      | none => simp [readLoop, h1, h2]
      | some data =>
        simp only [List.cons_append, readLoop, h1, h2]
        exact ih ys _ _

/-! ## The cooking loop and the fresh-cook branch -/

theorem cookedOf_cons_none {M : Type} (cook : MeshDesc → Option (List Nat)) (s : Submesh M)
    (rest : List (Submesh M)) (h : cook (meshDesc s) = none) :
    cookedOf cook (s :: rest) = cookedOf cook rest := by
  simp [cookedOf, List.filterMap_cons, h]

theorem cookedOf_cons_some {M : Type} (cook : MeshDesc → Option (List Nat)) (s : Submesh M)
    (rest : List (Submesh M)) (b : List Nat) (h : cook (meshDesc s) = some b) :
    cookedOf cook (s :: rest) = (s, b) :: cookedOf cook rest := by
  simp [cookedOf, List.filterMap_cons, h]

theorem cookLoop_eq {F M : Type} [Mul F] (env : Services F M)
    (cook : MeshDesc → Option (List Nat)) (scale : Vec3 F) :
    ∀ (submeshes : List (Submesh M)) (st : CookState F),
      st.bufferSize + cookedSize cook submeshes < U32 →
      cookLoop env cook scale submeshes st =
        { shapes := st.shapes
            ++ (cookedOf cook submeshes).map (fun p => buildShape env scale p.1 p.2)
          colliderData := assignAll st.colliderData ((cookedOf cook submeshes).map entryOf)
          bufferSize := st.bufferSize + cookedSize cook submeshes } := by
  intro submeshes
  induction submeshes with
  | nil => intro st _; simp [cookLoop, cookedOf, cookedSize, assignAll]
  | cons s rest ih =>
    intro st hlt
    have hstep : cookLoop env cook scale (s :: rest) st
        = cookLoop env cook scale rest (cookStep env cook scale st s) := rfl
    rw [hstep]
    cases hc : cook (meshDesc s) with
    | none =>
      have hst : cookStep env cook scale st s = st := by simp [cookStep, hc]
      simp only [cookedSize, cookedOf_cons_none cook s rest hc] at hlt ⊢
      rw [hst]
      exact ih st hlt
    | some b =>
      simp only [cookedSize, cookedOf_cons_some cook s rest b hc, List.map_cons,
        List.sum_cons] at hlt ⊢
      have hb : b.length % U32 = b.length := Nat.mod_eq_of_lt (by omega)
      have h4 : (st.bufferSize + 4) % U32 = st.bufferSize + 4 := Nat.mod_eq_of_lt (by omega)
      have hst : cookStep env cook scale st s =
          { shapes := st.shapes ++ [buildShape env scale s b]
            colliderData := mapAssign st.colliderData s.MeshName ⟨b, b.length⟩
            bufferSize := st.bufferSize + 4 + b.length } := by
        simp only [cookStep, hc, hb, h4, List.take_length]
        congr 1
        exact Nat.mod_eq_of_lt (by omega)
      rw [hst, ih _ (by simp only [cookedSize]; omega)]
      simp only [cookedSize, assignAll, List.foldl_cons, entryOf, List.append_assoc,
        List.singleton_append]
      congr 1
      omega

theorem mapAssign_of_not_mem (m : List (String × ColliderData)) (name : String)
    (data : ColliderData) (h : name ∉ m.map Prod.fst) :
    mapAssign m name data = m ++ [(name, data)] := by
  induction m with
  | nil => rfl
  | cons e m ih =>
    obtain ⟨k, v⟩ := e
    simp only [List.map_cons, List.mem_cons, not_or] at h
    have hk : ¬ k = name := fun hk => h.1 hk.symm
    simp [mapAssign, hk, ih h.2]

theorem assignAll_of_nodup :
    ∀ (l m : List (String × ColliderData)), ((m ++ l).map Prod.fst).Nodup →
      assignAll m l = m ++ l := by
  intro l
  induction l with
  | nil => intro m _; simp [assignAll]
  | cons e l ih =>
    intro m h
    have hnot : e.1 ∉ m.map Prod.fst := by
      simp only [List.map_append, List.map_cons] at h
      have := (List.nodup_append.mp h).2.2
      intro hmem
      exact this hmem (List.mem_cons_self _ _)
    have h2 : ((m ++ [e] ++ l).map Prod.fst).Nodup := by simpa using h
    have := ih (m ++ [e]) h2
    simp only [assignAll, List.foldl_cons] at this ⊢
    rw [mapAssign_of_not_mem m e.1 e.2 hnot, this]
    simp

theorem mapAssign_size (m : List (String × ColliderData)) (name : String)
    (data : ColliderData) :
    entriesSize (mapAssign m name data) ≤ entriesSize m + (4 + data.Size) := by
  induction m with
  | nil => simp [mapAssign, entriesSize]
  | cons e m ih =>
    obtain ⟨k, v⟩ := e
    by_cases hk : k = name
    · simp only [mapAssign, hk, if_true, entriesSize, List.map_cons, List.sum_cons]
      omega
    · simp only [mapAssign, hk, if_false, entriesSize, List.map_cons, List.sum_cons] at ih ⊢
      omega

theorem mapAssign_mem (m : List (String × ColliderData)) (name : String)
    (data : ColliderData) :
    ∀ e ∈ mapAssign m name data, e ∈ m ∨ e = (name, data) := by
  induction m with
  | nil => intro e he; right; simpa [mapAssign] using he
  | cons x m ih =>
    obtain ⟨k, v⟩ := x
    intro e he
    by_cases hk : k = name
    · simp only [mapAssign, hk, if_true, List.mem_cons] at he
      rcases he with he | he
      · right; exact he
      · left; exact List.mem_cons_of_mem _ he
    · simp only [mapAssign, hk, if_false, List.mem_cons] at he
      rcases he with he | he
      · left; rw [he]; exact List.mem_cons_self _ _
      · rcases ih e he with h | h
        · left; exact List.mem_cons_of_mem _ h
        · right; exact h

theorem assignAll_size :
    ∀ (l m : List (String × ColliderData)),
      entriesSize (assignAll m l) ≤ entriesSize m + entriesSize l := by
  intro l
  induction l with
  | nil => intro m; simp [assignAll, entriesSize]
  | cons e l ih =>
    intro m
    have h1 := ih (mapAssign m e.1 e.2)
    have h2 := mapAssign_size m e.1 e.2
    simp only [assignAll, List.foldl_cons, entriesSize, List.map_cons, List.sum_cons] at h1 h2 ⊢
    omega

theorem assignAll_mem :
    ∀ (l m : List (String × ColliderData)), ∀ e ∈ assignAll m l, e ∈ m ∨ e ∈ l := by
  intro l
  induction l with
  | nil => intro m e he; left; simpa [assignAll] using he
  | cons x l ih =>
    intro m e he
    have he2 : e ∈ assignAll (mapAssign m x.1 x.2) l := by simpa [assignAll] using he
    rcases ih _ e he2 with h | h
    · rcases mapAssign_mem m x.1 x.2 e h with h | h
      · left; exact h
      · right; rw [h]; exact List.mem_cons_self _ _
    · right; exact List.mem_cons_of_mem _ h

theorem entriesSize_entryOf {M : Type} (ps : List (Submesh M × List Nat)) :
    entriesSize (ps.map entryOf) = (ps.map fun p => 4 + p.2.length).sum := by
  simp [entriesSize, entryOf, Function.comp_def]

/-- The fresh-cook branch returns, under any traversal order of the hash table
that visits each entry once, when the cooked records total fewer than 2^32 bytes:
the shapes are those of the cooked submeshes in iteration order, and the buffer
is the entries of `colliderData` as visited, followed by whatever the allocated
bytes beyond them held. -/
theorem freshCook_eq {F M : Type} [Mul F] (env : Services F M)
    (cook : MeshDesc → Option (List Nat)) (scale : Vec3 F) (submeshes : List (Submesh M))
    (hperm : ∀ m, (env.traverse m).Perm m)
    (hsize : cookedSize cook submeshes < U32) :
    freshCook env cook scale submeshes
      = some ((cookedOf cook submeshes).map (fun p => buildShape env scale p.1 p.2),
          ⟨encodeEntries env.byteOrder
              (env.traverse (assignAll [] ((cookedOf cook submeshes).map entryOf)))
            ++ ((List.range (cookedSize cook submeshes)).map env.heap).drop
              (entriesSize (env.traverse (assignAll [] ((cookedOf cook submeshes).map entryOf))))⟩) := by
  have hloop := cookLoop_eq env cook scale submeshes ⟨[], [], 0⟩ (by simpa using hsize)
  simp only [List.nil_append, Nat.zero_add] at hloop
  generalize hes : env.traverse (assignAll [] ((cookedOf cook submeshes).map entryOf)) = es
  have hp : es.Perm (assignAll [] ((cookedOf cook submeshes).map entryOf)) := hes ▸ hperm _
  have hmem : ∀ e ∈ es, e.2.Size = e.2.Data.length := by
    intro e he
    rcases assignAll_mem _ _ e (hp.mem_iff.mp he) with h | h
    · simp at h
    · obtain ⟨p, _, rfl⟩ := List.mem_map.mp h
      rfl
  have hsz : entriesSize es ≤ cookedSize cook submeshes := by
    have h1 : entriesSize es = entriesSize (assignAll [] ((cookedOf cook submeshes).map entryOf)) :=
      (hp.map _).sum_eq
    have h2 := assignAll_size ((cookedOf cook submeshes).map entryOf) []
    rw [entriesSize_entryOf] at h2
    simp only [entriesSize, List.map_nil, List.sum_nil, Nat.zero_add] at h1 h2
    simp only [entriesSize, cookedSize, h1]
    exact h2
  have hlen := encodeEntries_length env.byteOrder es hmem
  generalize hj : (List.range (cookedSize cook submeshes)).map env.heap = junk
  have hjl : junk.length = cookedSize cook submeshes := by simp [← hj]
  have hw := writeLoop_fill env.byteOrder es [] (junk.take (entriesSize es))
    (junk.drop (entriesSize es)) hmem (by simp [hlen]; omega) (by simp; omega)
  simp only [List.nil_append, List.take_append_drop, List.length_nil] at hw
  simp only [freshCook, hloop, Buffer.Allocate, hes, hj, hw]

/-! ## The polygon loop -/

theorem foldl_snoc_eq {α β : Type} (f : β → α) :
    ∀ (l : List β) (s : List α), l.foldl (fun s j => s ++ [f j]) s = s ++ l.map f := by
  intro l
  induction l with
  | nil => intro s; simp
  | cons x l ih => intro s; simp [ih]

theorem fanBound_lt (k : Nat) : fanBound k < U32 := Nat.mod_lt _ (by decide)

theorem fanBound_of_pos (k : Nat) (h1 : 1 ≤ k) (h2 : k < U32) : fanBound k = k - 1 := by
  unfold fanBound U32 at *
  omega

theorem fanLoop_eq (vI0 k : Nat) (h1 : 1 ≤ k) (h2 : k < U32) (ci : List Index) :
    fanLoop vI0 k ci = ci ++ fanTriangles vI0 k := by
  unfold fanLoop
  rw [forLoop_eq_foldl _ _ (fanBound_lt k) _ _ _ (by omega), fanBound_of_pos k h1 h2]
  have : k - 1 - 1 = k - 2 := by omega
  rw [this]
  exact foldl_snoc_eq _ _ _

theorem vertexLoop_foldl {F : Type} (mesh : PxConvexMesh F) (polygon : PxHullPolygon) :
    ∀ (l : List Nat) (cv : List (Vertex F)) (vc : Nat),
      l.foldl (fun s j => vertexBody mesh polygon j s) (cv, vc)
        = (cv ++ l.map (fun vI =>
            ⟨mesh.getVertices (mesh.getIndexBuffer ((polygon.mIndexBase + vI) % U32))⟩),
          (vc + l.length) % U32) ∨ ¬ vc < U32 := by
  intro l
  induction l with
  | nil =>
    intro cv vc
    by_cases h : vc < U32
    · left; simp [Nat.mod_eq_of_lt h]
    · right; exact h
  | cons x l ih =>
    intro cv vc
    by_cases h : vc < U32
    · left
      rcases ih (cv ++ [⟨mesh.getVertices (mesh.getIndexBuffer ((polygon.mIndexBase + x) % U32))⟩])
        ((vc + 1) % U32) with h2 | h2
      · simp only [List.foldl_cons, vertexBody, List.map_cons, List.length_cons] at h2 ⊢
        rw [h2]
        simp only [List.append_assoc, List.singleton_append, Prod.mk.injEq, true_and]
        unfold U32
        omega
      · exact absurd (Nat.mod_lt _ (by decide)) h2
    · right; exact h

theorem vertexLoop_eq {F : Type} (mesh : PxConvexMesh F) (polygon : PxHullPolygon)
    (cv : List (Vertex F)) (vc : Nat) (hk : polygon.mNbVerts < U32) (hvc : vc < U32) :
    forLoop polygon.mNbVerts (vertexBody mesh polygon) polygon.mNbVerts 0 (cv, vc)
      = (cv ++ polygonVertices mesh polygon, (vc + polygon.mNbVerts) % U32) := by
  rw [forLoop_eq_foldl _ _ hk _ _ _ (by omega)]
  rcases vertexLoop_foldl mesh polygon (List.range' 0 (polygon.mNbVerts - 0)) cv vc with h | h
  · simpa [polygonVertices] using h
  · exact absurd hvc h

theorem polygonVertices_length {F : Type} (mesh : PxConvexMesh F) (polygon : PxHullPolygon) :
    (polygonVertices mesh polygon).length = polygon.mNbVerts := by
  simp [polygonVertices]

theorem fanTriangles_length (vI0 k : Nat) : (fanTriangles vI0 k).length = k - 2 := by
  simp [fanTriangles]

theorem polygonStep_eq {F : Type} (mesh : PxConvexMesh F) (pose : PxTransform F)
    (st : HullState F) (polygon : PxHullPolygon) (hk : 1 ≤ polygon.mNbVerts)
    (hcount : st.vertCounter = st.collisionVertices.length)
    (hfit : st.collisionVertices.length + polygon.mNbVerts < U32) :
    polygonStep mesh pose st polygon =
      { collisionVertices := st.collisionVertices ++ polygonVertices mesh polygon
        collisionIndices := st.collisionIndices
          ++ fanTriangles st.collisionVertices.length polygon.mNbVerts
        vertCounter := st.collisionVertices.length + polygon.mNbVerts
        ProcessedMeshes := st.ProcessedMeshes ++
          [⟨st.collisionVertices ++ polygonVertices mesh polygon,
            st.collisionIndices ++ fanTriangles st.collisionVertices.length polygon.mNbVerts,
            ⟨pose, none⟩⟩] } := by
  unfold polygonStep
  simp only [hcount, vertexLoop_eq mesh polygon st.collisionVertices
    st.collisionVertices.length (by omega) (by omega),
    fanLoop_eq st.collisionVertices.length polygon.mNbVerts hk (by omega),
    Nat.mod_eq_of_lt hfit]

theorem polygonLoop_eq {F : Type} (mesh : PxConvexMesh F) (pose : PxTransform F) :
    ∀ (ps : List PxHullPolygon) (st : HullState F),
      (∀ p ∈ ps, 1 ≤ p.mNbVerts) →
      st.vertCounter = st.collisionVertices.length →
      st.collisionVertices.length + (ps.map fun p => p.mNbVerts).sum < U32 →
      (ps.foldl (polygonStep mesh pose) st).ProcessedMeshes
        = st.ProcessedMeshes
          ++ hullMeshes mesh pose ps st.collisionVertices st.collisionIndices := by
  intro ps
  induction ps with
  | nil => intro st _ _ _; simp [hullMeshes]
  | cons p ps ih =>
    intro st hk hcount hfit
    simp only [List.map_cons, List.sum_cons] at hfit
    have hstep := polygonStep_eq mesh pose st p (hk p (List.mem_cons_self _ _)) hcount
      (by omega)
    simp only [List.foldl_cons, hstep]
    rw [ih _ (fun q hq => hk q (List.mem_cons_of_mem _ hq))
      (by simp [polygonVertices_length])
      (by simp only [List.length_append, polygonVertices_length]; omega)]
    simp [hullMeshes]

/-- The mesh at position `i` of `hullMeshes`: all vertices up to and including
polygon `i`, as many triangles as the polygons up to `i` have, each index below
the number of vertices. -/
theorem hullMeshes_get {F : Type} (mesh : PxConvexMesh F) (pose : PxTransform F) :
    ∀ (ps : List PxHullPolygon) (cv : List (Vertex F)) (ci : List Index) (i : Nat) (m : Mesh F),
      (∀ t ∈ ci, t.V1 < cv.length ∧ t.V2 < cv.length ∧ t.V3 < cv.length) →
      cv.length + (ps.map fun p => p.mNbVerts).sum < U32 →
      (hullMeshes mesh pose ps cv ci)[i]? = some m →
      m.Vertices = cv ++ ((ps.take (i + 1)).map (polygonVertices mesh)).flatten
      ∧ m.Indices.length = ci.length + ((ps.take (i + 1)).map fun p => p.mNbVerts - 2).sum
      ∧ (∀ t ∈ m.Indices, t.V1 < m.Vertices.length ∧ t.V2 < m.Vertices.length
          ∧ t.V3 < m.Vertices.length)
      ∧ m.Transform = ⟨pose, none⟩ := by
  intro ps
  induction ps with
  | nil => intro cv ci i m _ _ h; simp [hullMeshes] at h
  | cons p ps ih =>
    intro cv ci i m hci hfit h
    simp only [List.map_cons, List.sum_cons] at hfit
    have hin : ∀ t ∈ ci ++ fanTriangles cv.length p.mNbVerts,
        t.V1 < (cv ++ polygonVertices mesh p).length
        ∧ t.V2 < (cv ++ polygonVertices mesh p).length
        ∧ t.V3 < (cv ++ polygonVertices mesh p).length := by
      intro t ht
      simp only [List.length_append, polygonVertices_length]
      rcases List.mem_append.mp ht with ht | ht
      · have := hci t ht
        omega
      · simp only [fanTriangles, List.mem_map, List.mem_range'_1] at ht
        obtain ⟨vI, hvI, rfl⟩ := ht
        have e1 : (cv.length + vI + 1) % U32 = cv.length + vI + 1 :=
          Nat.mod_eq_of_lt (by omega)
        have e2 : (cv.length + vI) % U32 = cv.length + vI := Nat.mod_eq_of_lt (by omega)
        simp only [e1, e2]
        omega
    cases i with
    | zero =>
      simp only [hullMeshes, List.getElem?_cons_zero, Option.some.injEq] at h
      subst h
      refine ⟨by simp, by simp [fanTriangles_length], hin, rfl⟩
    | succ i =>
      simp only [hullMeshes, List.getElem?_cons_succ] at h
      obtain ⟨h1, h2, h3, h4⟩ := ih _ _ i m hin
        (by simp only [List.length_append, polygonVertices_length]; omega) h
      refine ⟨by simp [h1], ?_, h3, h4⟩
      simp only [h2, List.length_append, fanTriangles_length, List.take_succ_cons, List.map_cons,
        List.sum_cons]
      omega

theorem hullMeshes_length {F : Type} (mesh : PxConvexMesh F) (pose : PxTransform F) :
    ∀ (ps : List PxHullPolygon) (cv : List (Vertex F)) (ci : List Index),
      (hullMeshes mesh pose ps cv ci).length = ps.length := by
  intro ps
  induction ps with
  | nil => intro _ _; rfl
  | cons p ps ih => intro cv ci; simp [hullMeshes, ih]

/-! ## Results of the two entry points -/

theorem shapesOf_CreateConvexMesh {F M : Type} [Mul F] (env : Services F M)
    (collider : MeshColliderComponent F M) (scale : Vec3 F) (invalidateOld : Bool)
    (cache : Option Buffer) :
    shapesOf (CreateConvexMesh env collider scale invalidateOld cache)
      = (cookOrLoad env env.cookConvexMesh scale collider.Submeshes invalidateOld cache).map
          Prod.fst := by
  unfold CreateConvexMesh shapesOf
  cases cookOrLoad env env.cookConvexMesh scale collider.Submeshes invalidateOld cache <;> rfl

theorem shapesOf_CreateTriangleMesh {F M : Type} [Mul F] (env : Services F M)
    (collider : MeshColliderComponent F M) (scale : Vec3 F) (invalidateOld : Bool)
    (cache : Option Buffer) :
    shapesOf (CreateTriangleMesh env collider scale invalidateOld cache)
      = (cookOrLoad env env.cookTriangleMesh scale collider.Submeshes invalidateOld cache).map
          Prod.fst := by
  unfold CreateTriangleMesh shapesOf
  cases cookOrLoad env env.cookTriangleMesh scale collider.Submeshes invalidateOld cache <;> rfl

theorem cacheOf_CreateConvexMesh {F M : Type} [Mul F] (env : Services F M)
    (collider : MeshColliderComponent F M) (scale : Vec3 F) (invalidateOld : Bool)
    (cache : Option Buffer) :
    cacheOf (CreateConvexMesh env collider scale invalidateOld cache)
      = (cookOrLoad env env.cookConvexMesh scale collider.Submeshes invalidateOld cache).bind
          Prod.snd := by
  unfold CreateConvexMesh cacheOf
  cases cookOrLoad env env.cookConvexMesh scale collider.Submeshes invalidateOld cache <;> rfl

theorem cacheOf_CreateTriangleMesh {F M : Type} [Mul F] (env : Services F M)
    (collider : MeshColliderComponent F M) (scale : Vec3 F) (invalidateOld : Bool)
    (cache : Option Buffer) :
    cacheOf (CreateTriangleMesh env collider scale invalidateOld cache)
      = (cookOrLoad env env.cookTriangleMesh scale collider.Submeshes invalidateOld cache).bind
          Prod.snd := by
  unfold CreateTriangleMesh cacheOf
  cases cookOrLoad env env.cookTriangleMesh scale collider.Submeshes invalidateOld cache <;> rfl

theorem cookOrLoad_fresh {F M : Type} [Mul F] (env : Services F M)
    (cook : MeshDesc → Option (List Nat)) (scale : Vec3 F) (submeshes : List (Submesh M))
    (invalidateOld : Bool) (cache : Option Buffer) (h : invalidateOld = true ∨ cache = none) :
    cookOrLoad env cook scale submeshes invalidateOld cache
      = (freshCook env cook scale submeshes).map fun r => (r.1, some r.2) := by
  have hc : (if invalidateOld = true then none else cache) = none := by
    rcases h with h | h <;> simp [h]
  unfold cookOrLoad
  simp only [hc]
  cases freshCook env cook scale submeshes <;> rfl

theorem cookOrLoad_hit {F M : Type} [Mul F] (env : Services F M)
    (cook : MeshDesc → Option (List Nat)) (scale : Vec3 F) (submeshes : List (Submesh M))
    (colliderBuffer : Buffer) :
    cookOrLoad env cook scale submeshes false (some colliderBuffer)
      = (cachedLoad env scale colliderBuffer submeshes).map fun r => (r, some colliderBuffer) := by
  unfold cookOrLoad
  simp only [Bool.false_eq_true, if_false]
  cases cachedLoad env scale colliderBuffer submeshes <;> rfl

/-- The fresh-cook branch for submeshes whose cooked ones have different names:
the buffer is the format of the Cache File for the cooked blobs in the order
in which the hash table is visited, and nothing else. -/
theorem freshCook_distinct {F M : Type} [Mul F] (env : Services F M)
    (cook : MeshDesc → Option (List Nat)) (scale : Vec3 F) (submeshes : List (Submesh M))
    (hperm : ∀ m, (env.traverse m).Perm m)
    (hnames : ((cookedOf cook submeshes).map fun p => p.1.MeshName).Nodup)
    (hsize : cookedSize cook submeshes < U32) :
    ∃ es : List (String × ColliderData),
      es.Perm ((cookedOf cook submeshes).map entryOf)
      ∧ freshCook env cook scale submeshes
        = some ((cookedOf cook submeshes).map (fun p => buildShape env scale p.1 p.2),
            ⟨encodeRecords env.byteOrder (es.map fun e => e.2.Data)⟩) := by
  have hall : assignAll [] ((cookedOf cook submeshes).map entryOf)
      = (cookedOf cook submeshes).map entryOf := by
    have := assignAll_of_nodup ((cookedOf cook submeshes).map entryOf) [] (by
      simpa [entryOf, Function.comp_def] using hnames)
    simpa using this
  refine ⟨env.traverse ((cookedOf cook submeshes).map entryOf), hperm _, ?_⟩
  have hp := hperm ((cookedOf cook submeshes).map entryOf)
  have hmem : ∀ e ∈ env.traverse ((cookedOf cook submeshes).map entryOf),
      e.2.Size = e.2.Data.length := by
    intro e he
    obtain ⟨p, _, rfl⟩ := List.mem_map.mp (hp.mem_iff.mp he)
    rfl
  have hsz : entriesSize (env.traverse ((cookedOf cook submeshes).map entryOf))
      = cookedSize cook submeshes := by
    have h1 : entriesSize (env.traverse ((cookedOf cook submeshes).map entryOf))
        = entriesSize ((cookedOf cook submeshes).map entryOf) := (hp.map _).sum_eq
    rw [h1, entriesSize_entryOf]
    rfl
  rw [freshCook_eq env cook scale submeshes hperm hsize, hall, hsz,
    encodeEntries_eq env.byteOrder _ hmem]
  have hdrop : ((List.range (cookedSize cook submeshes)).map env.heap).drop
      (cookedSize cook submeshes) = [] := by
    apply List.drop_eq_nil_of_le
    simp
  rw [hdrop, List.append_nil]

/-! ## The claims -/

/-- C1 (the code departs from it): the records are written in the order in which the
hash table keyed by `MeshName` is visited, one record per name. For the sample mesh
with two submeshes named "Cube", which cook to the blobs `[7]` and `[9]`, the
buffer handed to `SerializeMesh` starts with the record of `[9]`, the blob of the
second submesh, and holds no second record: the five bytes after it are the
ones `Allocate` left there. Convex and triangle mode agree. -/
theorem C1_same_names_first_record_is_second_blob :
    cookedOf sampleServices.cookConvexMesh sampleTwins.Submeshes
        = [(sampleSubmesh 7 1 "Cube", [7]), (sampleSubmesh 9 1 "Cube", [9])]
    ∧ cacheOf (CreateConvexMesh sampleServices sampleTwins sampleScale false none)
        = some ⟨[1, 0, 0, 0, 9, 255, 255, 255, 255, 255]⟩
    ∧ cacheOf (CreateTriangleMesh sampleServices sampleTwins sampleScale false none)
        = some ⟨[1, 0, 0, 0, 9, 255, 255, 255, 255, 255]⟩ := by
  decide

/-- C2: decoding undoes encoding. For submeshes paired with blobs `b_1..b_n`
whose records total fewer than 2^32 bytes, the write loop over the entries of
`b_1..b_n`, in that order, on a buffer allocated for them, fills the buffer and
ends at its length; the read loop over the `n` submeshes on that buffer builds
the `n` shapes from `b_1..b_n` in the same order and ends with the offset equal
to the buffer length. -/
theorem C2_read_loop_undoes_write_loop {F M : Type} [Mul F] (env : Services F M)
    (scale : Vec3 F) (recs : List (Submesh M × List Nat))
    (hsize : (recs.map fun p => 4 + p.2.length).sum < U32) :
    ∃ buf : Buffer,
      writeLoop env.byteOrder (recs.map entryOf)
          (Buffer.Allocate env.heap ((recs.map fun p => 4 + p.2.length).sum)) 0
        = some (buf, buf.Size)
      ∧ buf.Size = (recs.map fun p => 4 + p.2.length).sum
      ∧ ∃ shapes : List (PxShape F),
          readLoop env scale buf (recs.map Prod.fst) 0 [] = some (shapes, buf.Size)
          ∧ shapes.map (fun s => s.cooked) = recs.map Prod.snd
          ∧ shapes = recs.map fun p => buildShape env scale p.1 p.2 := by
  have hmem : ∀ e ∈ recs.map entryOf, e.2.Size = e.2.Data.length := by
    intro e he
    obtain ⟨p, _, rfl⟩ := List.mem_map.mp he
    rfl
  have hdata : (recs.map entryOf).map (fun e => e.2.Data) = recs.map Prod.snd := by
    simp [entryOf, Function.comp_def]
  have henc := encodeEntries_eq env.byteOrder (recs.map entryOf) hmem
  rw [hdata] at henc
  have hlen : (encodeRecords env.byteOrder (recs.map Prod.snd)).length
      = (recs.map fun p => 4 + p.2.length).sum := by
    rw [encodeRecords_length]
    simp [Function.comp_def]
  have hw := writeLoop_fill env.byteOrder (recs.map entryOf) []
    ((List.range ((recs.map fun p => 4 + p.2.length).sum)).map env.heap) [] hmem
    (by rw [henc, hlen]; simp) (by simpa using hsize)
  simp only [List.nil_append, List.append_nil, List.length_nil, Nat.zero_add, List.length_map,
    List.length_range, henc] at hw
  have hr := readLoop_records env scale recs [] [] [] (by simpa [hlen] using hsize)
  simp only [List.nil_append, List.append_nil, List.length_nil, Nat.zero_add, hlen] at hr
  refine ⟨⟨encodeRecords env.byteOrder (recs.map Prod.snd)⟩, ?_, ?_, ?_⟩
  · simpa [Buffer.Allocate, Buffer.Size, hlen] using hw
  · simp [Buffer.Size, hlen]
  · exact ⟨_, by simpa [Buffer.Size, hlen] using hr, by simp [buildShape, Function.comp_def], rfl⟩

/-- Witness of C2 on two records, of two bytes and of none. -/
theorem C2_read_loop_undoes_write_loop_witness :
    ∃ buf : Buffer,
      writeLoop sampleServices.byteOrder
          ([(sampleSubmesh 7 1 "Cube", [7, 8]), (sampleSubmesh 9 1 "Ball", [])].map entryOf)
          (Buffer.Allocate sampleServices.heap
            (([(sampleSubmesh 7 1 "Cube", [7, 8]), (sampleSubmesh 9 1 "Ball", [])].map
              fun p => 4 + p.2.length).sum)) 0
        = some (buf, buf.Size)
      ∧ buf.Size = ([(sampleSubmesh 7 1 "Cube", [7, 8]), (sampleSubmesh 9 1 "Ball", [])].map
          fun p => 4 + p.2.length).sum
      ∧ ∃ shapes : List (PxShape Int),
          readLoop sampleServices sampleScale buf
              ([(sampleSubmesh 7 1 "Cube", [7, 8]), (sampleSubmesh 9 1 "Ball", [])].map Prod.fst)
              0 []
            = some (shapes, buf.Size)
          ∧ shapes.map (fun s => s.cooked)
            = [(sampleSubmesh 7 1 "Cube", [7, 8]), (sampleSubmesh 9 1 "Ball", [])].map Prod.snd
          ∧ shapes = [(sampleSubmesh 7 1 "Cube", [7, 8]), (sampleSubmesh 9 1 "Ball", [])].map
              fun p => buildShape sampleServices sampleScale p.1 p.2 :=
  C2_read_loop_undoes_write_loop sampleServices sampleScale
    [(sampleSubmesh 7 1 "Cube", [7, 8]), (sampleSubmesh 9 1 "Ball", [])] (by decide)

/-- C3 (the code departs from it): for the sample mesh with two submeshes named
"Cube", both of which cook, the fresh-cook call returns 2 shapes and leaves a
cache file with one record; the cache-hit call on that file, with fresh memory
holding bytes 255, reads the length 4294967295 for the second submesh and returns
no shapes at all. Convex and triangle mode agree. -/
theorem C3_same_names_round_trip_fails :
    (shapesOf (CreateConvexMesh sampleServices sampleTwins sampleScale false none)).map
        List.length = some 2
    ∧ shapesOf (CreateConvexMesh sampleServices sampleTwins sampleScale false
        (cacheOf (CreateConvexMesh sampleServices sampleTwins sampleScale false none))) = none
    ∧ (shapesOf (CreateTriangleMesh sampleServices sampleTwins sampleScale false none)).map
        List.length = some 2
    ∧ shapesOf (CreateTriangleMesh sampleServices sampleTwins sampleScale false
        (cacheOf (CreateTriangleMesh sampleServices sampleTwins sampleScale false none))) = none := by
  decide

/-- C4: in the convex-mode reconstruction, for a polygon with `k ≥ 3` vertices
the triangle loop appends exactly `k - 2` triangles, and each of them has as its
corner `V1` the index of the polygon's first emitted vertex: the position in
`collisionVertices` at which the vertex loop put the polygon's first vertex. The
running counter equals the number of vertices emitted so far, and the vertex
indices stay below 2^32. -/
theorem C4_fan_emits_k_minus_two_triangles_at_anchor {F : Type} (mesh : PxConvexMesh F)
    (pose : PxTransform F) (st : HullState F) (polygon : PxHullPolygon)
    (hk : 3 ≤ polygon.mNbVerts)
    (hcount : st.vertCounter = st.collisionVertices.length)
    (hfit : st.collisionVertices.length + polygon.mNbVerts < U32) :
    ∃ ts : List Index,
      (polygonStep mesh pose st polygon).collisionIndices = st.collisionIndices ++ ts
      ∧ ts.length = polygon.mNbVerts - 2
      ∧ (∀ t ∈ ts, t.V1 = st.collisionVertices.length)
      ∧ (polygonStep mesh pose st polygon).collisionVertices[st.collisionVertices.length]?
          = some ⟨mesh.getVertices (mesh.getIndexBuffer (polygon.mIndexBase % U32))⟩ := by
  rw [polygonStep_eq mesh pose st polygon (by omega) hcount hfit]
  refine ⟨fanTriangles st.collisionVertices.length polygon.mNbVerts, rfl,
    fanTriangles_length _ _, ?_, ?_⟩
  · intro t ht
    simp only [fanTriangles, List.mem_map] at ht
    obtain ⟨vI, _, rfl⟩ := ht
    rfl
  · have hpos : polygon.mNbVerts = (polygon.mNbVerts - 1) + 1 := by omega
    simp only [polygonVertices]
    rw [hpos, List.range'_succ, List.getElem?_append_right (Nat.le_refl _)]
    simp

/-- Witness of C4: the first polygon of the sample tetrahedron, from the initial
state of the polygon loop. -/
theorem C4_fan_emits_k_minus_two_triangles_at_anchor_witness :
    ∃ ts : List Index,
      (polygonStep sampleHull ⟨⟨0, 0, 0⟩, ⟨0, 0, 0⟩⟩ ⟨[], [], 0, []⟩ ⟨3, 0⟩).collisionIndices
        = [] ++ ts
      ∧ ts.length = 3 - 2
      ∧ (∀ t ∈ ts, t.V1 = 0)
      ∧ (polygonStep sampleHull ⟨⟨0, 0, 0⟩, ⟨0, 0, 0⟩⟩ ⟨[], [], 0, []⟩ ⟨3, 0⟩).collisionVertices[0]?
          = some ⟨sampleHull.getVertices (sampleHull.getIndexBuffer (0 % U32))⟩ :=
  C4_fan_emits_k_minus_two_triangles_at_anchor sampleHull ⟨⟨0, 0, 0⟩, ⟨0, 0, 0⟩⟩
    ⟨[], [], 0, []⟩ ⟨3, 0⟩ (by decide) rfl (by decide)

/-- C5 as stated fails: for a triangle (`k = 3`) whose first vertex has index 0
the fan loop emits the corners (0, 2, 1), not (0, 1, 2); for a quadrilateral it
emits (0, 2, 1) and (0, 3, 2), not (0, 1, 2) and (0, 2, 3). -/
theorem C5_fan_order_counterexample :
    fanLoop 0 3 [] = [⟨0, 2, 1⟩]
    ∧ fanLoop 0 3 [] ≠ [⟨0, 1, 2⟩]
    ∧ fanLoop 0 4 [] = [⟨0, 2, 1⟩, ⟨0, 3, 2⟩]
    ∧ fanLoop 0 4 [] ≠ [⟨0, 1, 2⟩, ⟨0, 2, 3⟩] := by
  decide

/-- C5, amended: for a polygon with `k ≥ 3` vertices whose first emitted vertex
has index `a`, the `i`-th triangle appended by the fan loop (`i` in `1..k-2`) has
the corners `(V1, V2, V3) = (a, a + i + 1, a + i)`: anchor, vertex `i + 1`,
vertex `i`, which is the polygon's order reversed. -/
theorem C5_fan_triangle_is_anchor_next_current {F : Type} (mesh : PxConvexMesh F)
    (pose : PxTransform F) (st : HullState F) (polygon : PxHullPolygon)
    (hk : 3 ≤ polygon.mNbVerts)
    (hcount : st.vertCounter = st.collisionVertices.length)
    (hfit : st.collisionVertices.length + polygon.mNbVerts < U32)
    (i : Nat) (h1 : 1 ≤ i) (h2 : i ≤ polygon.mNbVerts - 2) :
    (polygonStep mesh pose st polygon).collisionIndices[st.collisionIndices.length + (i - 1)]?
      = some { V1 := st.collisionVertices.length
               V2 := st.collisionVertices.length + i + 1
               V3 := st.collisionVertices.length + i } := by
  rw [polygonStep_eq mesh pose st polygon (by omega) hcount hfit]
  simp only [fanTriangles]
  rw [List.getElem?_append_right (by omega)]
  have hi : st.collisionIndices.length + (i - 1) - st.collisionIndices.length = i - 1 := by
    omega
  have hlt : i - 1 < polygon.mNbVerts - 2 := by omega
  have e1 : (st.collisionVertices.length + (1 + (i - 1)) + 1) % U32
      = st.collisionVertices.length + i + 1 := by
    rw [Nat.mod_eq_of_lt (by omega)]; omega
  have e2 : (st.collisionVertices.length + (1 + (i - 1))) % U32
      = st.collisionVertices.length + i := by
    rw [Nat.mod_eq_of_lt (by omega)]; omega
  rw [hi, List.getElem?_map, List.getElem?_range' _ _ hlt]
  simp only [Nat.one_mul, Option.map_some', e1, e2]

/-- Witness of C5, amended: the second triangle of a pentagon that follows four
vertices. -/
theorem C5_fan_triangle_is_anchor_next_current_witness :
    (polygonStep sampleHull ⟨⟨0, 0, 0⟩, ⟨0, 0, 0⟩⟩
        ⟨[⟨⟨0, 0, 0⟩⟩, ⟨⟨0, 0, 0⟩⟩, ⟨⟨0, 0, 0⟩⟩, ⟨⟨0, 0, 0⟩⟩], [⟨0, 2, 1⟩, ⟨0, 3, 2⟩], 4, []⟩
        ⟨5, 0⟩).collisionIndices[2 + (2 - 1)]?
      = some { V1 := 4, V2 := 4 + 2 + 1, V3 := 4 + 2 } :=
  C5_fan_triangle_is_anchor_next_current sampleHull ⟨⟨0, 0, 0⟩, ⟨0, 0, 0⟩⟩
    ⟨[⟨⟨0, 0, 0⟩⟩, ⟨⟨0, 0, 0⟩⟩, ⟨⟨0, 0, 0⟩⟩, ⟨⟨0, 0, 0⟩⟩], [⟨0, 2, 1⟩, ⟨0, 3, 2⟩], 4, []⟩
    ⟨5, 0⟩ (by decide) rfl (by decide) 2 (by decide) (by decide)

/-- C6 as stated fails: for a shape whose hull is the sample tetrahedron, the mesh
created for the second polygon, a triangle, holds 6 vertices and 2 triangles, and
the second triangle has the corners 3, 5 and 4, outside `0..2`. -/
theorem C6_polygon_mesh_counterexample :
    ((reconstructConvexShape sampleServices []
        ⟨[7], ⟨1, 1, 1⟩, ⟨⟨0, 0, 0⟩, ⟨0, 0, 0⟩⟩⟩)[1]?).map
        (fun m => (m.Vertices.length, m.Indices))
      = some (6, [⟨0, 2, 1⟩, ⟨3, 5, 4⟩])
    ∧ (sampleServices.createConvexMesh [7]).polygons[1]? = some ⟨3, 3⟩ := by
  decide

/-- C6, amended: the mesh appended for a polygon holds what the shape has
accumulated so far. For a shape whose polygons have at least 1 vertex each and
fewer than 2^32 vertices in all, the polygon loop appends one mesh per polygon,
and the mesh created for polygon `i` (counted from 0) holds the vertices of the
polygons `0..i` of the shape, in order, and as many triangles as these polygons
have (`k - 2` each); every triangle index is below the number of vertices that
the mesh holds; its transform is the local pose of the shape. The mesh of the
first polygon of a shape is the one that holds that polygon alone. -/
theorem C6_polygon_mesh_is_cumulative {F M : Type} (env : Services F M)
    (processed : List (Mesh F)) (shape : PxShape F)
    (hk : ∀ p ∈ (env.createConvexMesh shape.cooked).polygons, 1 ≤ p.mNbVerts)
    (hfit : ((env.createConvexMesh shape.cooked).polygons.map fun p => p.mNbVerts).sum < U32) :
    ∃ meshes : List (Mesh F),
      reconstructConvexShape env processed shape = processed ++ meshes
      ∧ meshes.length = (env.createConvexMesh shape.cooked).polygons.length
      ∧ ∀ (i : Nat) (m : Mesh F), meshes[i]? = some m →
          m.Vertices = (((env.createConvexMesh shape.cooked).polygons.take (i + 1)).map
            (polygonVertices (env.createConvexMesh shape.cooked))).flatten
          ∧ m.Vertices.length
            = (((env.createConvexMesh shape.cooked).polygons.take (i + 1)).map
                fun p => p.mNbVerts).sum
          ∧ m.Indices.length
            = (((env.createConvexMesh shape.cooked).polygons.take (i + 1)).map
                fun p => p.mNbVerts - 2).sum
          ∧ (∀ t ∈ m.Indices, t.V1 < m.Vertices.length ∧ t.V2 < m.Vertices.length
              ∧ t.V3 < m.Vertices.length)
          ∧ m.Transform = ⟨shape.localPose, none⟩ := by
  refine ⟨hullMeshes (env.createConvexMesh shape.cooked) shape.localPose
    (env.createConvexMesh shape.cooked).polygons [] [], ?_, hullMeshes_length _ _ _ _ _, ?_⟩
  · unfold reconstructConvexShape
    exact polygonLoop_eq _ _ _ _ hk rfl (by simpa using hfit)
  · intro i m hm
    obtain ⟨h1, h2, h3, h4⟩ := hullMeshes_get _ _ _ [] [] i m (by simp) (by simpa using hfit) hm
    refine ⟨by simpa using h1, ?_, by simpa using h2, h3, h4⟩
    rw [h1]
    simp [List.length_flatten, polygonVertices_length, Function.comp_def]

/-- Witness of C6, amended: a shape whose hull is the sample tetrahedron. -/
theorem C6_polygon_mesh_is_cumulative_witness :
    ∃ meshes : List (Mesh Int),
      reconstructConvexShape sampleServices [] ⟨[7], ⟨1, 1, 1⟩, ⟨⟨0, 0, 0⟩, ⟨0, 0, 0⟩⟩⟩
        = [] ++ meshes
      ∧ meshes.length = (sampleServices.createConvexMesh [7]).polygons.length
      ∧ ∀ (i : Nat) (m : Mesh Int), meshes[i]? = some m →
          m.Vertices = (((sampleServices.createConvexMesh [7]).polygons.take (i + 1)).map
            (polygonVertices (sampleServices.createConvexMesh [7]))).flatten
          ∧ m.Vertices.length
            = (((sampleServices.createConvexMesh [7]).polygons.take (i + 1)).map
                fun p => p.mNbVerts).sum
          ∧ m.Indices.length
            = (((sampleServices.createConvexMesh [7]).polygons.take (i + 1)).map
                fun p => p.mNbVerts - 2).sum
          ∧ (∀ t ∈ m.Indices, t.V1 < m.Vertices.length ∧ t.V2 < m.Vertices.length
              ∧ t.V3 < m.Vertices.length)
          ∧ m.Transform = ⟨⟨⟨0, 0, 0⟩, ⟨0, 0, 0⟩⟩, none⟩ :=
  C6_polygon_mesh_is_cumulative sampleServices []
    ⟨[7], ⟨1, 1, 1⟩, ⟨⟨0, 0, 0⟩, ⟨0, 0, 0⟩⟩⟩ (by decide) (by decide)

theorem shapesOf_createMesh {F M : Type} [Mul F] (env : Services F M) (isConvex : Bool)
    (collider : MeshColliderComponent F M) (scale : Vec3 F) (invalidateOld : Bool)
    (cache : Option Buffer) :
    shapesOf (createMesh env isConvex collider scale invalidateOld cache)
      = (cookOrLoad env (cookFor env isConvex) scale collider.Submeshes invalidateOld cache).map
          Prod.fst := by
  cases isConvex
  · simpa [createMesh, cookFor] using shapesOf_CreateTriangleMesh env collider scale _ cache
  · simpa [createMesh, cookFor] using shapesOf_CreateConvexMesh env collider scale _ cache

theorem cacheOf_createMesh {F M : Type} [Mul F] (env : Services F M) (isConvex : Bool)
    (collider : MeshColliderComponent F M) (scale : Vec3 F) (invalidateOld : Bool)
    (cache : Option Buffer) :
    cacheOf (createMesh env isConvex collider scale invalidateOld cache)
      = (cookOrLoad env (cookFor env isConvex) scale collider.Submeshes invalidateOld cache).bind
          Prod.snd := by
  cases isConvex
  · simpa [createMesh, cookFor] using cacheOf_CreateTriangleMesh env collider scale _ cache
  · simpa [createMesh, cookFor] using cacheOf_CreateConvexMesh env collider scale _ cache

theorem createMesh_eq_none {F M : Type} [Mul F] (env : Services F M) (isConvex : Bool)
    (collider : MeshColliderComponent F M) (scale : Vec3 F) (invalidateOld : Bool)
    (cache : Option Buffer)
    (h : cookOrLoad env (cookFor env isConvex) scale collider.Submeshes invalidateOld cache
      = none) :
    createMesh env isConvex collider scale invalidateOld cache = none := by
  cases isConvex
  · simp only [cookFor, Bool.false_eq_true, if_false] at h
    simp [createMesh, CreateTriangleMesh, h]
  · simp only [cookFor, if_true] at h
    simp [createMesh, CreateConvexMesh, h]

theorem cookedOf_length_of_all {M : Type} (cook : MeshDesc → Option (List Nat)) :
    ∀ (submeshes : List (Submesh M)), (∀ s ∈ submeshes, (cook (meshDesc s)).isSome = true) →
      (cookedOf cook submeshes).length = submeshes.length := by
  intro submeshes
  induction submeshes with
  | nil => intro _; rfl
  | cons s rest ih =>
    intro h
    have hs := h s (List.mem_cons_self _ _)
    obtain ⟨b, hb⟩ := Option.isSome_iff_exists.mp hs
    rw [cookedOf_cons_some cook s rest b hb]
    simp [ih fun x hx => h x (List.mem_cons_of_mem _ hx)]

/-- The read loop on a buffer that starts with the format of the Cache File for
`blobs`, when there are as many submeshes as blobs. -/
theorem readLoop_encoded {F M : Type} [Mul F] (env : Services F M) (scale : Vec3 F)
    (blobs : List (List Nat)) (post : List Nat) (submeshes : List (Submesh M))
    (hlen : submeshes.length = blobs.length)
    (hsize : (encodeRecords env.byteOrder blobs).length < U32) :
    readLoop env scale ⟨encodeRecords env.byteOrder blobs ++ post⟩ submeshes 0 []
      = some (List.zipWith (buildShape env scale) submeshes blobs,
          (encodeRecords env.byteOrder blobs).length) := by
  have h1 : (submeshes.zip blobs).map Prod.fst = submeshes :=
    List.map_fst_zip _ _ (le_of_eq hlen)
  have h2 : (submeshes.zip blobs).map Prod.snd = blobs :=
    List.map_snd_zip _ _ (le_of_eq hlen.symm)
  have hr := readLoop_records env scale (submeshes.zip blobs) [] post [] (by
    rw [h2]; simpa using hsize)
  rw [h1, h2] at hr
  simp only [List.nil_append, List.length_nil, Nat.zero_add] at hr
  rw [hr, ← List.map_uncurry_zip_eq_zipWith]
  rfl

/-- C7 as stated fails: the sample mesh with one submesh, whose cooking fails,
gets an empty buffer, which no single record encodes; the cache-hit call on it
returns no blob. -/
theorem C7_failed_cook_counterexample :
    sampleEmpty.Submeshes.length = 1
    ∧ cacheOf (CreateConvexMesh sampleServices sampleEmpty sampleScale false none) = some ⟨[]⟩
    ∧ cacheOf (CreateTriangleMesh sampleServices sampleEmpty sampleScale false none) = some ⟨[]⟩
    ∧ (∀ b : List Nat, encodeRecords sampleServices.byteOrder [b] ≠ [])
    ∧ shapesOf (CreateConvexMesh sampleServices sampleEmpty sampleScale false (some ⟨[]⟩))
        = none := by
  refine ⟨by decide, by decide, by decide, ?_, by decide⟩
  intro b h
  have := congrArg List.length h
  simp [encodeRecords_cons, u32Bytes_length] at this

/-- C7, amended: the buffer holds one record per submesh that cooked. On the
fresh-cook path, in either mode, for every mesh whose successfully cooked
submeshes have pairwise different names and records that total fewer than 2^32
bytes, under any order in which the hash table visits each entry once, the
buffer handed to `SerializeMesh` consists of exactly as many length-prefixed
records as submeshes cooked successfully: these are the cooked blobs, in the
order visited. That is `N` records when all `N` submeshes cook, and loading the
buffer back for as many submeshes yields exactly these blobs. -/
theorem C7_one_record_per_cooked_submesh {F M : Type} [Mul F] (env : Services F M)
    (isConvex : Bool) (collider : MeshColliderComponent F M) (scale : Vec3 F)
    (invalidateOld : Bool) (cache : Option Buffer)
    (hfresh : invalidateOld = true ∨ cache = none)
    (hperm : ∀ m, (env.traverse m).Perm m)
    (hnames : ((cookedOf (cookFor env isConvex) collider.Submeshes).map
      fun p => p.1.MeshName).Nodup)
    (hsize : cookedSize (cookFor env isConvex) collider.Submeshes < U32) :
    ∃ blobs : List (List Nat),
      blobs.Perm ((cookedOf (cookFor env isConvex) collider.Submeshes).map Prod.snd)
      ∧ blobs.length = (cookedOf (cookFor env isConvex) collider.Submeshes).length
      ∧ ((∀ s ∈ collider.Submeshes, (cookFor env isConvex (meshDesc s)).isSome = true) →
          blobs.length = collider.Submeshes.length)
      ∧ cacheOf (createMesh env isConvex collider scale invalidateOld cache)
          = some ⟨encodeRecords env.byteOrder blobs⟩
      ∧ ∀ subs : List (Submesh M), subs.length = blobs.length →
          (cachedLoad env scale ⟨encodeRecords env.byteOrder blobs⟩ subs).map
            (List.map fun s => s.cooked) = some blobs := by
  obtain ⟨es, hes, hfc⟩ := freshCook_distinct env (cookFor env isConvex) scale
    collider.Submeshes hperm hnames hsize
  have hblobs : (es.map fun e => e.2.Data).Perm
      ((cookedOf (cookFor env isConvex) collider.Submeshes).map Prod.snd) := by
    have := hes.map (fun e => e.2.Data)
    simpa [entryOf, Function.comp_def] using this
  have hl : (es.map fun e => e.2.Data).length
      = (cookedOf (cookFor env isConvex) collider.Submeshes).length := by
    simpa using hblobs.length_eq
  have hencl : (encodeRecords env.byteOrder (es.map fun e => e.2.Data)).length < U32 := by
    rw [encodeRecords_length]
    have : ((es.map fun e => e.2.Data).map fun b => 4 + b.length).sum
        = cookedSize (cookFor env isConvex) collider.Submeshes := by
      have := (hblobs.map fun b => 4 + b.length).sum_eq
      simpa [cookedSize, Function.comp_def] using this
    omega
  refine ⟨es.map fun e => e.2.Data, hblobs, hl, ?_, ?_, ?_⟩
  · intro hall
    rw [hl, cookedOf_length_of_all _ _ hall]
  · rw [cacheOf_createMesh, cookOrLoad_fresh _ _ _ _ _ _ hfresh, hfc]
    rfl
  · intro subs hsubs
    have hr := readLoop_encoded env scale (es.map fun e => e.2.Data) [] subs hsubs hencl
    simp only [List.append_nil] at hr
    simp only [cachedLoad, hr, Option.map_some', Option.some.injEq]
    rw [List.map_zipWith]
    have : List.zipWith (fun (s : Submesh M) (b : List Nat) => (buildShape env scale s b).cooked)
        subs (es.map fun e => e.2.Data)
        = List.zipWith (fun _ b => b) subs (es.map fun e => e.2.Data) := rfl
    rw [this, ← List.map_uncurry_zip_eq_zipWith]
    have h2 : Function.uncurry (fun (_ : Submesh M) (b : List Nat) => b) = Prod.snd := by
      funext p; rfl
    rw [h2, List.map_snd_zip _ _ (le_of_eq hsubs.symm)]

/-- Witness of C7, amended: the sample mesh whose first submesh fails to cook
and whose second cooks, in convex mode. -/
theorem C7_one_record_per_cooked_submesh_witness :
    ∃ blobs : List (List Nat),
      blobs.Perm ((cookedOf (cookFor sampleServices true) samplePair.Submeshes).map Prod.snd)
      ∧ blobs.length = (cookedOf (cookFor sampleServices true) samplePair.Submeshes).length
      ∧ ((∀ s ∈ samplePair.Submeshes, (cookFor sampleServices true (meshDesc s)).isSome = true) →
          blobs.length = samplePair.Submeshes.length)
      ∧ cacheOf (createMesh sampleServices true samplePair sampleScale false none)
          = some ⟨encodeRecords sampleServices.byteOrder blobs⟩
      ∧ ∀ subs : List (Submesh Nat), subs.length = blobs.length →
          (cachedLoad sampleServices sampleScale
              ⟨encodeRecords sampleServices.byteOrder blobs⟩ subs).map
            (List.map fun s => s.cooked) = some blobs :=
  C7_one_record_per_cooked_submesh sampleServices true samplePair sampleScale false none
    (Or.inr rfl) (fun m => List.Perm.refl m) (by decide) (by decide)

theorem Buffer.Read_some_le (o : ByteOrder) (b : Buffer) (offset dataSize : Nat)
    (h : b.Read o offset = some dataSize) : offset + 4 ≤ b.Size := by
  by_contra hlt
  rw [Buffer.Read_none o b offset (by omega)] at h
  exact Option.noConfusion h

/-- The read loop fails at a submesh at whose offset fewer than 4 bytes remain,
or whose length prefix claims more bytes than remain after it. -/
theorem readLoop_truncated {F M : Type} [Mul F] (env : Services F M) (scale : Vec3 F)
    (buf : Buffer) (submesh : Submesh M) (rest : List (Submesh M)) (offset : Nat)
    (shapes : List (PxShape F)) (hbuf : buf.Size < U32)
    (htrunc : buf.Size < offset + 4
      ∨ ∃ dataSize, buf.Read env.byteOrder offset = some dataSize
          ∧ buf.Size < offset + 4 + dataSize) :
    readLoop env scale buf (submesh :: rest) offset shapes = none := by
  rcases htrunc with h | ⟨dataSize, hr, h⟩
  · simp [readLoop, Buffer.Read_none env.byteOrder buf offset h]
  · have hle := Buffer.Read_some_le _ _ _ _ hr
    have hoff : (offset + 4) % U32 = offset + 4 := Nat.mod_eq_of_lt (by omega)
    have hb : buf.ReadBytes dataSize (offset + 4) = none := by
      simp only [Buffer.ReadBytes]
      rw [if_neg (by omega)]
    simp [readLoop, hr, hoff, hb]

/-- C8 as stated fails: on a cache file of two records, `[7]` and `[9]`, the
cache-hit call for the sample mesh with one submesh does not fail: it returns
the shape built from the first record. Convex and triangle mode agree. -/
theorem C8_excess_record_counterexample :
    encodeRecords sampleServices.byteOrder [[7], [9]] = [1, 0, 0, 0, 7, 1, 0, 0, 0, 9]
    ∧ sampleSingle.Submeshes.length = 1
    ∧ shapesOf (CreateConvexMesh sampleServices sampleSingle sampleScale false
        (some ⟨[1, 0, 0, 0, 7, 1, 0, 0, 0, 9]⟩))
      = some [buildShape sampleServices sampleScale (sampleSubmesh 7 1 "Cube") [7]]
    ∧ shapesOf (CreateTriangleMesh sampleServices sampleSingle sampleScale false
        (some ⟨[1, 0, 0, 0, 7, 1, 0, 0, 0, 9]⟩))
      = some [buildShape sampleServices sampleScale (sampleSubmesh 7 1 "Cube") [7]] := by
  decide

/-- C8, amended: the records are paired with the submeshes by position, without a
check of their number. On the cache-hit path, in either mode, for a buffer of
fewer than 2^32 bytes that holds the records of `blobs`: when it holds fewer
records than the mesh has submeshes, the call fails; when it holds as many or
more, the call returns one shape per submesh, the `i`-th built from the `i`-th
record and the `i`-th submesh, and does not read the records beyond. -/
theorem C8_records_paired_by_position {F M : Type} [Mul F] (env : Services F M)
    (isConvex : Bool) (collider : MeshColliderComponent F M) (scale : Vec3 F)
    (blobs : List (List Nat))
    (hsize : (encodeRecords env.byteOrder blobs).length < U32) :
    (blobs.length < collider.Submeshes.length →
      createMesh env isConvex collider scale false (some ⟨encodeRecords env.byteOrder blobs⟩)
        = none)
    ∧ (collider.Submeshes.length ≤ blobs.length →
      shapesOf (createMesh env isConvex collider scale false
          (some ⟨encodeRecords env.byteOrder blobs⟩))
        = some (List.zipWith (buildShape env scale) collider.Submeshes blobs)
      ∧ (List.zipWith (buildShape env scale) collider.Submeshes blobs).length
        = collider.Submeshes.length) := by
  constructor
  · intro hlt
    apply createMesh_eq_none
    rw [cookOrLoad_hit]
    have hsplit : collider.Submeshes
        = collider.Submeshes.take blobs.length ++ collider.Submeshes.drop blobs.length :=
      (List.take_append_drop _ _).symm
    have htake : (collider.Submeshes.take blobs.length).length = blobs.length := by
      simp; omega
    obtain ⟨s, rest, hdrop⟩ : ∃ s rest, collider.Submeshes.drop blobs.length = s :: rest := by
      cases hd : collider.Submeshes.drop blobs.length with
      | nil =>
        have := congrArg List.length hd
        simp at this
        omega
      | cons s rest => exact ⟨s, rest, rfl⟩
    have hr := readLoop_encoded env scale blobs [] (collider.Submeshes.take blobs.length)
      htake hsize
    simp only [List.append_nil] at hr
    have hfail := readLoop_truncated env scale ⟨encodeRecords env.byteOrder blobs⟩ s rest
      (encodeRecords env.byteOrder blobs).length
      (List.zipWith (buildShape env scale) (collider.Submeshes.take blobs.length) blobs)
      (by simpa [Buffer.Size] using hsize) (Or.inl (by simp [Buffer.Size]))
    simp only [cachedLoad]
    rw [hsplit, readLoop_append, hr, hdrop]
    simp only [hfail, Option.map_none']
  · intro hle
    have hsplit : blobs = blobs.take collider.Submeshes.length
        ++ blobs.drop collider.Submeshes.length := (List.take_append_drop _ _).symm
    have htake : collider.Submeshes.length = (blobs.take collider.Submeshes.length).length := by
      simp; omega
    have henc : encodeRecords env.byteOrder blobs
        = encodeRecords env.byteOrder (blobs.take collider.Submeshes.length)
          ++ encodeRecords env.byteOrder (blobs.drop collider.Submeshes.length) := by
      rw [← encodeRecords_append, List.take_append_drop]
    have hr := readLoop_encoded env scale (blobs.take collider.Submeshes.length)
      (encodeRecords env.byteOrder (blobs.drop collider.Submeshes.length)) collider.Submeshes
      htake (by
        have := congrArg List.length henc
        simp only [List.length_append] at this
        omega)
    rw [← henc] at hr
    have hzip : List.zipWith (buildShape env scale) collider.Submeshes
        (blobs.take collider.Submeshes.length)
        = List.zipWith (buildShape env scale) collider.Submeshes blobs := by
      have h := List.zipWith_eq_zipWith_take_min (f := buildShape env scale)
        collider.Submeshes blobs
      rw [Nat.min_eq_left hle, List.take_length] at h
      exact h.symm
    refine ⟨?_, by simp; omega⟩
    rw [shapesOf_createMesh, cookOrLoad_hit]
    simp only [cachedLoad, hr, Option.map_some', hzip]

/-- Witness of C8, amended: the sample mesh with one submesh on a cache file of
two records, in triangle mode. -/
theorem C8_records_paired_by_position_witness :
    ([[7], [9]].length < sampleSingle.Submeshes.length →
      createMesh sampleServices false sampleSingle sampleScale false
          (some ⟨encodeRecords sampleServices.byteOrder [[7], [9]]⟩)
        = none)
    ∧ (sampleSingle.Submeshes.length ≤ [[7], [9]].length →
      shapesOf (createMesh sampleServices false sampleSingle sampleScale false
          (some ⟨encodeRecords sampleServices.byteOrder [[7], [9]]⟩))
        = some (List.zipWith (buildShape sampleServices sampleScale) sampleSingle.Submeshes
            [[7], [9]])
      ∧ (List.zipWith (buildShape sampleServices sampleScale) sampleSingle.Submeshes
          [[7], [9]]).length
        = sampleSingle.Submeshes.length) :=
  C8_records_paired_by_position sampleServices false sampleSingle sampleScale [[7], [9]]
    (by decide)

/-- C9: on the cache-hit path, in either mode, for a buffer of fewer than 2^32
bytes: if the read loop, having read the records of the first `i` submeshes,
arrives for a further submesh at an offset at which fewer than 4 bytes remain
for the length prefix, or at which the prefix claims more bytes than remain
after it, the call fails: it returns no shapes and creates no mesh. -/
theorem C9_truncated_record_fails_the_load {F M : Type} [Mul F] (env : Services F M)
    (isConvex : Bool) (collider : MeshColliderComponent F M) (scale : Vec3 F)
    (buf : Buffer) (i : Nat) (shapes : List (PxShape F)) (offset : Nat)
    (hbuf : buf.Size < U32)
    (hi : i < collider.Submeshes.length)
    (hread : readLoop env scale buf (collider.Submeshes.take i) 0 [] = some (shapes, offset))
    (htrunc : buf.Size < offset + 4
      ∨ ∃ dataSize, buf.Read env.byteOrder offset = some dataSize
          ∧ buf.Size < offset + 4 + dataSize) :
    createMesh env isConvex collider scale false (some buf) = none := by
  apply createMesh_eq_none
  rw [cookOrLoad_hit]
  obtain ⟨s, rest, hdrop⟩ : ∃ s rest, collider.Submeshes.drop i = s :: rest := by
    cases hd : collider.Submeshes.drop i with
    | nil =>
      have := congrArg List.length hd
      simp at this
      omega
    | cons s rest => exact ⟨s, rest, rfl⟩
  have hsplit : collider.Submeshes = collider.Submeshes.take i ++ collider.Submeshes.drop i :=
    (List.take_append_drop _ _).symm
  simp only [cachedLoad]
  rw [hsplit, readLoop_append, hread, hdrop]
  simp only [readLoop_truncated env scale buf s rest offset shapes hbuf htrunc,
    Option.map_none']

/-- Witness of C9: the sample mesh with two submeshes on a cache file whose
second record claims 5 bytes where 1 remains, in convex mode. -/
theorem C9_truncated_record_fails_the_load_witness :
    createMesh sampleServices true sampleTwins sampleScale false
      (some ⟨[1, 0, 0, 0, 7, 5, 0, 0, 0, 9]⟩) = none :=
  C9_truncated_record_fails_the_load sampleServices true sampleTwins sampleScale
    ⟨[1, 0, 0, 0, 7, 5, 0, 0, 0, 9]⟩ 1
    [buildShape sampleServices sampleScale (sampleSubmesh 7 1 "Cube") [7]] 5
    (by decide) (by decide) (by decide) (Or.inr ⟨5, by decide, by decide⟩)

/-- C10: cooking failure is per submesh. On the fresh-cook path, in either mode,
for every mesh and every outcome of the cooking service whose records total
fewer than 2^32 bytes, under any order in which the hash table visits each entry
once, the call returns, and the shapes returned are, in submesh iteration order,
one shape for each submesh whose cooking succeeded, built from that submesh and
its cooked bytes, and none for a submesh whose cooking failed: a failure does not
stop the submeshes after it from being processed. -/
theorem C10_one_shape_per_cooked_submesh {F M : Type} [Mul F] (env : Services F M)
    (isConvex : Bool) (collider : MeshColliderComponent F M) (scale : Vec3 F)
    (invalidateOld : Bool) (cache : Option Buffer)
    (hfresh : invalidateOld = true ∨ cache = none)
    (hperm : ∀ m, (env.traverse m).Perm m)
    (hsize : cookedSize (cookFor env isConvex) collider.Submeshes < U32) :
    shapesOf (createMesh env isConvex collider scale invalidateOld cache)
      = some (collider.Submeshes.filterMap fun s =>
          (cookFor env isConvex (meshDesc s)).map fun b => buildShape env scale s b) := by
  rw [shapesOf_createMesh, cookOrLoad_fresh _ _ _ _ _ _ hfresh,
    freshCook_eq env _ scale collider.Submeshes hperm hsize]
  simp only [Option.map_some', Option.some.injEq, cookedOf, List.map_filterMap]
  congr 1
  funext s
  cases cookFor env isConvex (meshDesc s) <;> rfl

/-- Witness of C10: the sample mesh whose first submesh fails to cook and whose
second cooks, in convex mode. -/
theorem C10_one_shape_per_cooked_submesh_witness :
    shapesOf (createMesh sampleServices true samplePair sampleScale false none)
      = some (samplePair.Submeshes.filterMap fun s =>
          (cookFor sampleServices true (meshDesc s)).map
            fun b => buildShape sampleServices sampleScale s b) :=
  C10_one_shape_per_cooked_submesh sampleServices true samplePair sampleScale false none
    (Or.inr rfl) (fun m => List.Perm.refl m) (by decide)

/-! ## The round trip when the names differ -/

theorem cookedOf_fst_of_all {M : Type} (cook : MeshDesc → Option (List Nat)) :
    ∀ (submeshes : List (Submesh M)), (∀ s ∈ submeshes, (cook (meshDesc s)).isSome = true) →
      (cookedOf cook submeshes).map Prod.fst = submeshes := by
  intro submeshes
  induction submeshes with
  | nil => intro _; rfl
  | cons s rest ih =>
    intro h
    obtain ⟨b, hb⟩ := Option.isSome_iff_exists.mp (h s (List.mem_cons_self _ _))
    rw [cookedOf_cons_some cook s rest b hb]
    simp [ih fun x hx => h x (List.mem_cons_of_mem _ hx)]

theorem zipWith_buildShape_pose {F M : Type} [Mul F] (env : Services F M) (scale : Vec3 F) :
    ∀ (submeshes : List (Submesh M)) (blobs : List (List Nat)),
      submeshes.length = blobs.length →
      (List.zipWith (buildShape env scale) submeshes blobs).map (fun s => (s.localPose, s.scale))
        = submeshes.map fun s => ((buildShape env scale s []).localPose,
            (buildShape env scale s []).scale) := by
  intro submeshes
  induction submeshes with
  | nil => intro blobs _; simp
  | cons s rest ih =>
    intro blobs h
    cases blobs with
    | nil => simp at h
    | cons b bs =>
      simp only [List.length_cons, Nat.add_right_cancel_iff] at h
      simp only [List.zipWith_cons_cons, List.map_cons, ih bs h]
      rfl

/-- Round trip for a mesh whose submeshes all cook and have pairwise different
names, in either mode: the fresh-cook call and the cache-hit call on the file it
leaves both return one shape per submesh, with the same local poses and the same
geometry scales, position by position. -/
theorem roundTrip_of_distinct_names {F M : Type} [Mul F] (env : Services F M)
    (isConvex : Bool) (collider : MeshColliderComponent F M) (scale : Vec3 F)
    (hperm : ∀ m, (env.traverse m).Perm m)
    (hall : ∀ s ∈ collider.Submeshes, (cookFor env isConvex (meshDesc s)).isSome = true)
    (hnames : (collider.Submeshes.map fun s => s.MeshName).Nodup)
    (hsize : cookedSize (cookFor env isConvex) collider.Submeshes < U32) :
    ∃ first second : List (PxShape F),
      shapesOf (createMesh env isConvex collider scale false none) = some first
      ∧ shapesOf (createMesh env isConvex collider scale false
          (cacheOf (createMesh env isConvex collider scale false none))) = some second
      ∧ first.length = collider.Submeshes.length
      ∧ second.length = collider.Submeshes.length
      ∧ first.map (fun s => (s.localPose, s.scale))
        = second.map (fun s => (s.localPose, s.scale)) := by
  have hfst := cookedOf_fst_of_all (cookFor env isConvex) collider.Submeshes hall
  have hnames2 : ((cookedOf (cookFor env isConvex) collider.Submeshes).map
      fun p => p.1.MeshName).Nodup := by
    have : ((cookedOf (cookFor env isConvex) collider.Submeshes).map fun p => p.1.MeshName)
        = ((cookedOf (cookFor env isConvex) collider.Submeshes).map Prod.fst).map
            fun s => s.MeshName := by
      simp [Function.comp_def]
    rw [this, hfst]
    exact hnames
  obtain ⟨es, hes, hfc⟩ := freshCook_distinct env (cookFor env isConvex) scale
    collider.Submeshes hperm hnames2 hsize
  have hl : (es.map fun e => e.2.Data).length = collider.Submeshes.length := by
    have := hes.length_eq
    simp only [List.length_map] at this ⊢
    rw [this, cookedOf_length_of_all _ _ hall]
  have hencl : (encodeRecords env.byteOrder (es.map fun e => e.2.Data)).length < U32 := by
    rw [encodeRecords_length]
    have h1 : ((es.map fun e => e.2.Data).map fun b => 4 + b.length).sum
        = entriesSize es := by
      have hm : ∀ e ∈ es, e.2.Size = e.2.Data.length := by
        intro e he
        obtain ⟨p, _, rfl⟩ := List.mem_map.mp (hes.mem_iff.mp he)
        rfl
      rw [← encodeRecords_length env.byteOrder, ← encodeEntries_eq env.byteOrder es hm,
        encodeEntries_length env.byteOrder es hm]
    have h2 : entriesSize es = cookedSize (cookFor env isConvex) collider.Submeshes := by
      have : entriesSize es
          = entriesSize ((cookedOf (cookFor env isConvex) collider.Submeshes).map entryOf) :=
        (hes.map _).sum_eq
      rw [this, entriesSize_entryOf]
      rfl
    omega
  have hcache : cacheOf (createMesh env isConvex collider scale false none)
      = some ⟨encodeRecords env.byteOrder (es.map fun e => e.2.Data)⟩ := by
    rw [cacheOf_createMesh, cookOrLoad_fresh _ _ _ _ _ _ (Or.inr rfl), hfc]
    rfl
  have hr := readLoop_encoded env scale (es.map fun e => e.2.Data) [] collider.Submeshes
    hl.symm hencl
  simp only [List.append_nil] at hr
  refine ⟨(cookedOf (cookFor env isConvex) collider.Submeshes).map
      (fun p => buildShape env scale p.1 p.2),
    List.zipWith (buildShape env scale) collider.Submeshes (es.map fun e => e.2.Data),
    ?_, ?_, ?_, ?_, ?_⟩
  · rw [shapesOf_createMesh, cookOrLoad_fresh _ _ _ _ _ _ (Or.inr rfl), hfc]
    rfl
  · rw [hcache, shapesOf_createMesh, cookOrLoad_hit]
    simp only [cachedLoad, hr, Option.map_some']
  · rw [List.length_map, cookedOf_length_of_all _ _ hall]
  · simp only [List.length_zipWith, hl, Nat.min_self]
  · rw [zipWith_buildShape_pose env scale _ _ hl.symm]
    conv_rhs => rw [← hfst]
    simp only [List.map_map]
    rfl

/-! ## Scale and pose of the shapes -/

theorem cookLoop_general {F M : Type} [Mul F] (env : Services F M)
    (cook : MeshDesc → Option (List Nat)) (scale : Vec3 F) :
    ∀ (submeshes : List (Submesh M)) (st : CookState F),
      cookLoop env cook scale submeshes st =
        { shapes := st.shapes ++ (cookedOf cook submeshes).map
            (fun p => buildShape env scale p.1 (p.2.take (p.2.length % U32)))
          colliderData := (cookedOf cook submeshes).foldl
            (fun m p => mapAssign m p.1.MeshName
              ⟨p.2.take (p.2.length % U32), p.2.length % U32⟩) st.colliderData
          bufferSize := (cookedOf cook submeshes).foldl
            (fun n p => ((n + 4) % U32 + p.2.length % U32) % U32) st.bufferSize } := by
  intro submeshes
  induction submeshes with
  | nil => intro st; simp [cookLoop, cookedOf]
  | cons s rest ih =>
    intro st
    have hstep : cookLoop env cook scale (s :: rest) st
        = cookLoop env cook scale rest (cookStep env cook scale st s) := rfl
    rw [hstep, ih]
    cases hc : cook (meshDesc s) with
    | none =>
      have hst : cookStep env cook scale st s = st := by simp [cookStep, hc]
      rw [hst, cookedOf_cons_none cook s rest hc]
    | some b =>
      rw [cookedOf_cons_some cook s rest b hc]
      simp [cookStep, hc]

/-- The fresh-cook branch in general: whether it returns, and the buffer, are
decided by the write loop on data that does not depend on the world scale. -/
theorem freshCook_general {F M : Type} [Mul F] (env : Services F M)
    (cook : MeshDesc → Option (List Nat)) (scale : Vec3 F) (submeshes : List (Submesh M)) :
    freshCook env cook scale submeshes
      = (writeLoop env.byteOrder
          (env.traverse ((cookedOf cook submeshes).foldl
            (fun m p => mapAssign m p.1.MeshName
              ⟨p.2.take (p.2.length % U32), p.2.length % U32⟩) []))
          (Buffer.Allocate env.heap ((cookedOf cook submeshes).foldl
            (fun n p => ((n + 4) % U32 + p.2.length % U32) % U32) 0)) 0).map
        fun r => ((cookedOf cook submeshes).map
          (fun p => buildShape env scale p.1 (p.2.take (p.2.length % U32))), r.1) := by
  unfold freshCook
  rw [cookLoop_general]
  simp only [List.nil_append]
  cases writeLoop env.byteOrder
      (env.traverse ((cookedOf cook submeshes).foldl
        (fun m p => mapAssign m p.1.MeshName
          ⟨p.2.take (p.2.length % U32), p.2.length % U32⟩) []))
      (Buffer.Allocate env.heap ((cookedOf cook submeshes).foldl
        (fun n p => ((n + 4) % U32 + p.2.length % U32) % U32) 0)) 0 with
  | none => rfl
  | some r => rfl

theorem cookedOf_fst_sublist {M : Type} (cook : MeshDesc → Option (List Nat)) :
    ∀ (submeshes : List (Submesh M)),
      ((cookedOf cook submeshes).map Prod.fst).Sublist submeshes := by
  intro submeshes
  induction submeshes with
  | nil => exact List.Sublist.slnil
  | cons s rest ih =>
    cases hc : cook (meshDesc s) with
    | none =>
      rw [cookedOf_cons_none cook s rest hc]
      exact List.Sublist.cons _ ih
    | some b =>
      rw [cookedOf_cons_some cook s rest b hc]
      exact List.Sublist.cons₂ _ ih

/-- What the read loop appends is one shape per submesh, in order; a function of
the shapes that does not look at the cooked bytes sees the submeshes only. -/
theorem readLoop_map {F M α : Type} [Mul F] (env : Services F M) (scale : Vec3 F)
    (buf : Buffer) (g : PxShape F → α) (h : Submesh M → α)
    (hg : ∀ s data, g (buildShape env scale s data) = h s) :
    ∀ (submeshes : List (Submesh M)) (offset : Nat) (acc shapes : List (PxShape F))
      (last : Nat),
      readLoop env scale buf submeshes offset acc = some (shapes, last) →
      shapes.map g = acc.map g ++ submeshes.map h := by
  intro submeshes
  induction submeshes with
  | nil =>
    intro offset acc shapes last hr
    simp only [readLoop, Option.some.injEq, Prod.mk.injEq] at hr
    simp [hr.1]
  | cons s rest ih =>
    intro offset acc shapes last hr
    cases h1 : buf.Read env.byteOrder offset with
    | none => simp [readLoop, h1] at hr
    | some dataSize =>
      cases h2 : buf.ReadBytes dataSize ((offset + 4) % U32) with
      | none => simp [readLoop, h1, h2] at hr
      | some data =>
        simp only [readLoop, h1, h2] at hr
        rw [ih _ _ _ _ hr]
        simp [hg]

/-- Whether the read loop returns, and the poses of the shapes it returns, do not
depend on the world scale. -/
theorem readLoop_pose_scale_free {F M : Type} [Mul F] (env : Services F M)
    (scale scale2 : Vec3 F) (buf : Buffer) :
    ∀ (submeshes : List (Submesh M)) (offset : Nat) (acc acc2 : List (PxShape F)),
      acc.map (fun sh => sh.localPose) = acc2.map (fun sh => sh.localPose) →
      (readLoop env scale buf submeshes offset acc).map
          (fun r => r.1.map fun sh => sh.localPose)
        = (readLoop env scale2 buf submeshes offset acc2).map
          (fun r => r.1.map fun sh => sh.localPose) := by
  intro submeshes
  induction submeshes with
  | nil => intro offset acc acc2 hacc; simp [readLoop, hacc]
  | cons s rest ih =>
    intro offset acc acc2 hacc
    cases h1 : buf.Read env.byteOrder offset with
    | none => simp [readLoop, h1]
    | some dataSize =>
      cases h2 : buf.ReadBytes dataSize ((offset + 4) % U32) with
      | none => simp [readLoop, h1, h2]
      | some data =>
        simp only [readLoop, h1, h2]
        apply ih
        simp [hacc, buildShape]

/-- Whether a call returns, and the poses of the shapes it returns, do not depend
on the world scale. -/
theorem cookOrLoad_pose_scale_free {F M : Type} [Mul F] (env : Services F M)
    (cook : MeshDesc → Option (List Nat)) (scale scale2 : Vec3 F)
    (submeshes : List (Submesh M)) (invalidateOld : Bool) (cache : Option Buffer) :
    (cookOrLoad env cook scale submeshes invalidateOld cache).map
        (fun r => r.1.map fun sh => sh.localPose)
      = (cookOrLoad env cook scale2 submeshes invalidateOld cache).map
        (fun r => r.1.map fun sh => sh.localPose) := by
  by_cases hf : invalidateOld = true ∨ cache = none
  · rw [cookOrLoad_fresh _ _ _ _ _ _ hf, cookOrLoad_fresh _ _ _ _ _ _ hf,
      freshCook_general env cook scale, freshCook_general env cook scale2]
    simp only [Option.map_map]
    congr 1
    funext r
    simp [Function.comp_def, buildShape]
  · have hinv : invalidateOld = false := by
      cases invalidateOld
      · rfl
      · exact absurd (Or.inl rfl) hf
    obtain ⟨buf, hbuf⟩ : ∃ buf, cache = some buf := by
      cases cache with
      | none => exact absurd (Or.inr rfl) hf
      | some buf => exact ⟨buf, rfl⟩
    subst hinv hbuf
    rw [cookOrLoad_hit, cookOrLoad_hit]
    simp only [cachedLoad, Option.map_map]
    have := readLoop_pose_scale_free env scale scale2 buf submeshes 0 [] [] rfl
    simpa [Function.comp_def] using this

/-- C11 (the code departs from it): a submesh whose cooking fails gets no record,
and the cache-hit path still reads one record per submesh, by position. For the
sample mesh whose first submesh, "Cube", fails to cook and whose second, "Ball",
cooks to the blob `[9]`, the cache file holds the one record of `[9]`; the
cache-hit call builds the shape with the transform of "Cube" from `[9]`, the
blob cooked from "Ball", and then finds no record for "Ball". With a hash table
that is visited in the reverse of the order of insertion, the sample mesh whose
submeshes "Cube" and "Ball" cook to `[7]` and `[9]` loads "Cube" from `[9]` and
"Ball" from `[7]`. -/
theorem C11_shape_built_from_the_blob_of_another_submesh :
    cookedOf sampleServices.cookConvexMesh samplePair.Submeshes
        = [(sampleSubmesh 9 1 "Ball", [9])]
    ∧ cacheOf (CreateConvexMesh sampleServices samplePair sampleScale false none)
        = some ⟨[1, 0, 0, 0, 9]⟩
    ∧ readLoop sampleServices sampleScale ⟨[1, 0, 0, 0, 9]⟩ (samplePair.Submeshes.take 1) 0 []
        = some ([buildShape sampleServices sampleScale (sampleSubmesh 7 0 "Cube") [9]], 5)
    ∧ shapesOf (CreateConvexMesh sampleServices samplePair sampleScale false
        (some ⟨[1, 0, 0, 0, 9]⟩)) = none
    ∧ cookedOf sampleReversed.cookConvexMesh sampleDuo.Submeshes
        = [(sampleSubmesh 7 1 "Cube", [7]), (sampleSubmesh 9 1 "Ball", [9])]
    ∧ shapesOf (CreateConvexMesh sampleReversed sampleDuo sampleScale false
        (cacheOf (CreateConvexMesh sampleReversed sampleDuo sampleScale false none)))
        = some [buildShape sampleReversed sampleScale (sampleSubmesh 7 1 "Cube") [9],
            buildShape sampleReversed sampleScale (sampleSubmesh 9 1 "Ball") [7]] := by
  decide

/-- C12: invalidate-then-cook. For every prior cache file, a call of either
function with `invalidateOld = true` takes the fresh-cook path: the shapes it
returns and the buffer it serializes are those of the fresh-cook branch, which
does not see the prior file, so two runs that differ only in the prior cache
file have the same outcome, the same shapes and the same buffer. -/
theorem C12_invalidate_then_cook_ignores_the_prior_cache {F M : Type} [Mul F]
    (env : Services F M) (isConvex : Bool) (collider : MeshColliderComponent F M)
    (scale : Vec3 F) (cache cache2 : Option Buffer) :
    shapesOf (createMesh env isConvex collider scale true cache)
      = (freshCook env (cookFor env isConvex) scale collider.Submeshes).map Prod.fst
    ∧ cacheOf (createMesh env isConvex collider scale true cache)
      = (freshCook env (cookFor env isConvex) scale collider.Submeshes).map Prod.snd
    ∧ createMesh env isConvex collider scale true cache
      = createMesh env isConvex collider scale true cache2 := by
  refine ⟨?_, ?_, ?_⟩
  · rw [shapesOf_createMesh, cookOrLoad_fresh _ _ _ _ _ _ (Or.inl rfl)]
    cases freshCook env (cookFor env isConvex) scale collider.Submeshes <;> rfl
  · rw [cacheOf_createMesh, cookOrLoad_fresh _ _ _ _ _ _ (Or.inl rfl)]
    cases freshCook env (cookFor env isConvex) scale collider.Submeshes <;> rfl
  · have hc : ∀ c : Option Buffer,
        cookOrLoad env (cookFor env isConvex) scale collider.Submeshes true c
          = (freshCook env (cookFor env isConvex) scale collider.Submeshes).map
              fun r => (r.1, some r.2) :=
      fun c => cookOrLoad_fresh _ _ _ _ _ _ (Or.inl rfl)
    cases isConvex
    · simp only [cookFor, Bool.false_eq_true, if_false] at hc
      simp only [createMesh, CreateTriangleMesh, Bool.false_eq_true, if_false, hc cache,
        hc cache2]
    · simp only [cookFor, if_true] at hc
      simp only [createMesh, CreateConvexMesh, if_true, hc cache, hc cache2]

/-- C13: on the fresh-cook and on the cache-hit path, in either mode, when a call
returns, the shapes it returns are, in order, those of the submeshes for which
it builds a shape; the geometry scale of each is the component-wise product of
the decomposed scale of its submesh and the world scale, and its local pose is
made of the decomposed translation and rotation of its submesh. The same call
with any other world scale returns shapes with the same poses. -/
theorem C13_scale_is_product_and_pose_is_scale_free {F M : Type} [Mul F]
    (env : Services F M) (isConvex : Bool) (collider : MeshColliderComponent F M)
    (scale : Vec3 F) (invalidateOld : Bool) (cache : Option Buffer)
    (shapes : List (PxShape F))
    (h : shapesOf (createMesh env isConvex collider scale invalidateOld cache) = some shapes) :
    shapes.map (fun sh => (sh.scale, sh.localPose))
      = (shapedSubmeshes env isConvex collider invalidateOld cache).map (fun s =>
          (({ x := (env.DecomposeTransform s.Transform).scale.x * scale.x
              y := (env.DecomposeTransform s.Transform).scale.y * scale.y
              z := (env.DecomposeTransform s.Transform).scale.z * scale.z } : Vec3 F),
           ({ translation := (env.DecomposeTransform s.Transform).translation
              rotation := (env.DecomposeTransform s.Transform).rotation } : PxTransform F)))
    ∧ ∀ scale2 : Vec3 F,
        (shapesOf (createMesh env isConvex collider scale2 invalidateOld cache)).map
            (List.map fun sh => sh.localPose)
          = some (shapes.map fun sh => sh.localPose) := by
  constructor
  · rw [shapesOf_createMesh] at h
    by_cases hf : invalidateOld = true ∨ cache = none
    · have hs : shapedSubmeshes env isConvex collider invalidateOld cache
          = (cookedOf (cookFor env isConvex) collider.Submeshes).map Prod.fst := by
        rcases hf with hf | hf <;> simp [shapedSubmeshes, hf]
      rw [cookOrLoad_fresh _ _ _ _ _ _ hf, freshCook_general] at h
      cases hw : writeLoop env.byteOrder
          (env.traverse ((cookedOf (cookFor env isConvex) collider.Submeshes).foldl
            (fun m p => mapAssign m p.1.MeshName
              ⟨p.2.take (p.2.length % U32), p.2.length % U32⟩) []))
          (Buffer.Allocate env.heap ((cookedOf (cookFor env isConvex) collider.Submeshes).foldl
            (fun n p => ((n + 4) % U32 + p.2.length % U32) % U32) 0)) 0 with
      | none =>
        rw [hw] at h
        exact Option.noConfusion h
      | some r =>
        rw [hw] at h
        simp only [Option.map_some', Option.some.injEq] at h
        rw [← h, hs]
        simp only [List.map_map]
        rfl
    · have hinv : invalidateOld = false := by
        cases invalidateOld
        · rfl
        · exact absurd (Or.inl rfl) hf
      obtain ⟨buf, hbuf⟩ : ∃ buf, cache = some buf := by
        cases cache with
        | none => exact absurd (Or.inr rfl) hf
        | some buf => exact ⟨buf, rfl⟩
      subst hinv hbuf
      rw [cookOrLoad_hit] at h
      simp only [cachedLoad, Option.map_map] at h
      cases hr : readLoop env scale buf collider.Submeshes 0 [] with
      | none => simp [hr] at h
      | some r =>
        simp only [hr, Option.map_some', Function.comp_apply, Option.some.injEq] at h
        have := readLoop_map env scale buf (fun sh => (sh.scale, sh.localPose))
          (fun s =>
            (({ x := (env.DecomposeTransform s.Transform).scale.x * scale.x
                y := (env.DecomposeTransform s.Transform).scale.y * scale.y
                z := (env.DecomposeTransform s.Transform).scale.z * scale.z } : Vec3 F),
             ({ translation := (env.DecomposeTransform s.Transform).translation
                rotation := (env.DecomposeTransform s.Transform).rotation } : PxTransform F)))
          (fun _ _ => rfl) collider.Submeshes 0 [] r.1 r.2 hr
        rw [← h, this]
        simp [shapedSubmeshes]
  · intro scale2
    have hp := cookOrLoad_pose_scale_free env (cookFor env isConvex) scale2 scale
      collider.Submeshes invalidateOld cache
    rw [shapesOf_createMesh] at h ⊢
    cases hc : cookOrLoad env (cookFor env isConvex) scale collider.Submeshes invalidateOld
        cache with
    | none =>
      rw [hc] at h
      exact Option.noConfusion h
    | some r =>
      rw [hc] at h hp
      simp only [Option.map_some', Option.some.injEq] at h hp
      rw [Option.map_map]
      rw [← h]
      exact hp

/-- Witness of C13: the sample mesh with one submesh, fresh-cooked in convex
mode. -/
theorem C13_scale_is_product_and_pose_is_scale_free_witness :
    [buildShape sampleServices sampleScale (sampleSubmesh 7 1 "Cube") [7]].map
        (fun sh => (sh.scale, sh.localPose))
      = (shapedSubmeshes sampleServices true sampleSingle false none).map (fun s =>
          (({ x := (sampleServices.DecomposeTransform s.Transform).scale.x * sampleScale.x
              y := (sampleServices.DecomposeTransform s.Transform).scale.y * sampleScale.y
              z := (sampleServices.DecomposeTransform s.Transform).scale.z * sampleScale.z }
              : Vec3 Int),
           ({ translation := (sampleServices.DecomposeTransform s.Transform).translation
              rotation := (sampleServices.DecomposeTransform s.Transform).rotation }
              : PxTransform Int)))
    ∧ ∀ scale2 : Vec3 Int,
        (shapesOf (createMesh sampleServices true sampleSingle scale2 false none)).map
            (List.map fun sh => sh.localPose)
          = some ([buildShape sampleServices sampleScale (sampleSubmesh 7 1 "Cube") [7]].map
              fun sh => sh.localPose) :=
  C13_scale_is_product_and_pose_is_scale_free sampleServices true sampleSingle sampleScale
    false none [buildShape sampleServices sampleScale (sampleSubmesh 7 1 "Cube") [7]]
    (by decide)

/-! ## The Processed Meshes after a call -/

theorem createMesh_some {F M : Type} [Mul F] (env : Services F M) (isConvex : Bool)
    (collider : MeshColliderComponent F M) (scale : Vec3 F) (invalidateOld : Bool)
    (cache : Option Buffer) (out : Outcome F M)
    (h : createMesh env isConvex collider scale invalidateOld cache = some out) :
    out.collider.ProcessedMeshes = out.shapes.foldl (reconstructShape env isConvex) []
    ∧ out.collider.Submeshes = collider.Submeshes
    ∧ cookOrLoad env (cookFor env isConvex) scale collider.Submeshes invalidateOld cache
        = some (out.shapes, out.cache) := by
  cases isConvex
  · simp only [createMesh, CreateTriangleMesh, Bool.false_eq_true, if_false] at h
    simp only [cookFor, reconstructShape, Bool.false_eq_true, if_false]
    cases hc : cookOrLoad env env.cookTriangleMesh scale collider.Submeshes invalidateOld
        cache with
    | none => rw [hc] at h; exact Option.noConfusion h
    | some r =>
      rw [hc] at h
      simp only [List.length_nil, Nat.le_refl, if_true, Option.some.injEq] at h
      subst h
      exact ⟨rfl, rfl, rfl⟩
  · simp only [createMesh, CreateConvexMesh, if_true] at h
    simp only [cookFor, reconstructShape, if_true]
    cases hc : cookOrLoad env env.cookConvexMesh scale collider.Submeshes invalidateOld
        cache with
    | none => rw [hc] at h; exact Option.noConfusion h
    | some r =>
      rw [hc] at h
      simp only [List.length_nil, Nat.le_refl, if_true, Option.some.injEq] at h
      subst h
      exact ⟨rfl, rfl, rfl⟩

theorem processedOf_createMesh {F M : Type} [Mul F] (env : Services F M) (isConvex : Bool)
    (collider : MeshColliderComponent F M) (scale : Vec3 F) (invalidateOld : Bool)
    (cache : Option Buffer) :
    processedOf (createMesh env isConvex collider scale invalidateOld cache)
      = (cookOrLoad env (cookFor env isConvex) scale collider.Submeshes invalidateOld cache).map
          fun r => r.1.foldl (reconstructShape env isConvex) [] := by
  cases isConvex
  · simp only [createMesh, CreateTriangleMesh, Bool.false_eq_true, if_false, cookFor,
      reconstructShape, processedOf]
    cases cookOrLoad env env.cookTriangleMesh scale collider.Submeshes invalidateOld cache
      <;> rfl
  · simp only [createMesh, CreateConvexMesh, if_true, cookFor, reconstructShape, processedOf]
    cases cookOrLoad env env.cookConvexMesh scale collider.Submeshes invalidateOld cache
      <;> rfl

theorem polygonLoop_length {F : Type} (mesh : PxConvexMesh F) (pose : PxTransform F) :
    ∀ (ps : List PxHullPolygon) (st : HullState F),
      (ps.foldl (polygonStep mesh pose) st).ProcessedMeshes.length
        = st.ProcessedMeshes.length + ps.length := by
  intro ps
  induction ps with
  | nil => intro st; rfl
  | cons p ps ih =>
    intro st
    rw [List.foldl_cons, ih]
    simp only [polygonStep, List.length_append, List.length_cons, List.length_nil]
    omega

theorem reconstructConvex_length {F M : Type} (env : Services F M) :
    ∀ (shapes : List (PxShape F)) (processed : List (Mesh F)),
      (shapes.foldl (reconstructConvexShape env) processed).length
        = processed.length
          + (shapes.map fun sh => (env.createConvexMesh sh.cooked).polygons.length).sum := by
  intro shapes
  induction shapes with
  | nil => intro processed; rfl
  | cons sh shapes ih =>
    intro processed
    rw [List.foldl_cons, ih]
    simp only [reconstructConvexShape, polygonLoop_length, List.map_cons, List.sum_cons]
    omega

theorem reconstructTriangle_length {F M : Type} (env : Services F M) :
    ∀ (shapes : List (PxShape F)) (processed : List (Mesh F)),
      (shapes.foldl (reconstructTriangleShape env) processed).length
        = processed.length + shapes.length := by
  intro shapes
  induction shapes with
  | nil => intro processed; rfl
  | cons sh shapes ih =>
    intro processed
    rw [List.foldl_cons, ih]
    simp only [reconstructTriangleShape, List.length_append, List.length_cons, List.length_nil]
    omega

/-- C14 as stated fails: the sample collider holds one Processed Mesh when the
functions are called; after the call in triangle mode the list holds the mesh
reconstructed from the shape returned and not the mesh it held, and after the
call in convex mode it holds 4 meshes. -/
theorem C14_held_meshes_are_replaced_counterexample :
    sampleStale.ProcessedMeshes = [sampleOldMesh]
    ∧ processedOf (CreateTriangleMesh sampleServices sampleStale sampleScale false none)
        = some [{ Vertices := [⟨⟨0, 0, 0⟩⟩, ⟨⟨1, 0, 0⟩⟩, ⟨⟨2, 0, 0⟩⟩]
                  Indices := [⟨0, 1, 2⟩]
                  Transform := ⟨⟨⟨7, 0, 0⟩, ⟨0, 7, 0⟩⟩, some ⟨2, 4, 6⟩⟩ }]
    ∧ processedOf (CreateTriangleMesh sampleServices sampleStale sampleScale false none)
        ≠ some [sampleOldMesh]
    ∧ (processedOf (CreateConvexMesh sampleServices sampleStale sampleScale false none)).map
        List.length = some 4 := by
  decide

/-- C14, amended: both functions clear `collider.ProcessedMeshes` on entry, so
the guard on its size holds in every call and the reconstruction runs in every
call that gets to it. Whatever the list holds when the function is called, when
the call returns the list holds the meshes reconstructed from the shapes that
the call returns, the same as for a collider whose list was empty, and none of
the entries it held before. -/
theorem C14_every_call_rebuilds_the_processed_meshes {F M : Type} [Mul F]
    (env : Services F M) (isConvex : Bool) (submeshes : List (Submesh M))
    (processed : List (Mesh F)) (scale : Vec3 F) (invalidateOld : Bool)
    (cache : Option Buffer) :
    processedOf (createMesh env isConvex ⟨submeshes, processed⟩ scale invalidateOld cache)
      = (shapesOf (createMesh env isConvex ⟨submeshes, []⟩ scale invalidateOld cache)).map
          (fun shapes => shapes.foldl (reconstructShape env isConvex) [])
    ∧ processedOf (createMesh env isConvex ⟨submeshes, processed⟩ scale invalidateOld cache)
      = processedOf (createMesh env isConvex ⟨submeshes, []⟩ scale invalidateOld cache) := by
  constructor
  · rw [processedOf_createMesh, shapesOf_createMesh, Option.map_map]
    rfl
  · rw [processedOf_createMesh, processedOf_createMesh]

/-- C15: two calls in a row, of either function, on the same collider. When both
calls return and the shapes of the second call are built from the same cooked
blobs as those of the first, in any order, `collider.ProcessedMeshes` holds
after the second call exactly as many entries as after the first: the second
call clears the list and rebuilds it, which adds no entry to the count. -/
theorem C15_second_call_leaves_as_many_processed_meshes {F M : Type} [Mul F]
    (env : Services F M) (isConvex : Bool) (collider : MeshColliderComponent F M)
    (scale : Vec3 F) (invalidateOld invalidateOld2 : Bool) (cache : Option Buffer)
    (out out2 : Outcome F M)
    (h1 : createMesh env isConvex collider scale invalidateOld cache = some out)
    (h2 : createMesh env isConvex out.collider scale invalidateOld2 out.cache = some out2)
    (hsame : (out2.shapes.map fun sh => sh.cooked).Perm (out.shapes.map fun sh => sh.cooked)) :
    out2.collider.ProcessedMeshes.length = out.collider.ProcessedMeshes.length := by
  rw [(createMesh_some _ _ _ _ _ _ _ h1).1, (createMesh_some _ _ _ _ _ _ _ h2).1]
  cases isConvex
  · simp only [reconstructShape, Bool.false_eq_true, if_false, reconstructTriangle_length]
    have := hsame.length_eq
    simp only [List.length_map] at this
    omega
  · simp only [reconstructShape, if_true, reconstructConvex_length]
    have := (hsame.map fun b => (env.createConvexMesh b).polygons.length).sum_eq
    simp only [List.map_map, Function.comp_def] at this
    omega

/-- Witness of C15: the sample mesh with two submeshes in triangle mode, under a
hash table visited in reverse order: fresh-cooked by the first call, loaded from
the cache file by the second, which builds its shapes from the same two blobs
in the other order. -/
theorem C15_second_call_leaves_as_many_processed_meshes_witness :
    createMesh sampleReversed false sampleDuo sampleScale false none = some sampleDuoFirst
    ∧ createMesh sampleReversed false sampleDuoFirst.collider sampleScale false
        sampleDuoFirst.cache = some sampleDuoSecond
    ∧ sampleDuoSecond.collider.ProcessedMeshes.length
      = sampleDuoFirst.collider.ProcessedMeshes.length :=
  ⟨rfl, rfl,
    C15_second_call_leaves_as_many_processed_meshes sampleReversed false sampleDuo sampleScale
      false false none sampleDuoFirst sampleDuoSecond rfl rfl (by decide)⟩

/-- The entries of `colliderData` as the write loop visits them: each has the
size of its data, and together they take no more bytes than `bufferSize` counts. -/
theorem traversed_entries {F M : Type} (env : Services F M)
    (cook : MeshDesc → Option (List Nat)) (submeshes : List (Submesh M))
    (hperm : ∀ m, (env.traverse m).Perm m) :
    (∀ e ∈ env.traverse (assignAll [] ((cookedOf cook submeshes).map entryOf)),
        e.2.Size = e.2.Data.length)
    ∧ entriesSize (env.traverse (assignAll [] ((cookedOf cook submeshes).map entryOf)))
        ≤ cookedSize cook submeshes := by
  have hp := hperm (assignAll [] ((cookedOf cook submeshes).map entryOf))
  constructor
  · intro e he
    rcases assignAll_mem _ _ e (hp.mem_iff.mp he) with h | h
    · simp at h
    · obtain ⟨p, _, rfl⟩ := List.mem_map.mp h
      rfl
  · have h1 : entriesSize (env.traverse (assignAll [] ((cookedOf cook submeshes).map entryOf)))
        = entriesSize (assignAll [] ((cookedOf cook submeshes).map entryOf)) :=
      (hp.map _).sum_eq
    have h2 := assignAll_size ((cookedOf cook submeshes).map entryOf) []
    rw [entriesSize_entryOf] at h2
    simp only [entriesSize, List.map_nil, List.sum_nil, Nat.zero_add] at h1 h2
    simp only [entriesSize, cookedSize, h1]
    exact h2

/-- C16: on the fresh-cook path, in either mode, for every mesh, names repeated
or not, under any order in which the hash table visits each entry once: when the
sum, over the submeshes that cook, of 4 plus the blob size is below 2^32, the
call returns and the buffer handed to `SerializeMesh` has that sum as its length.
For a mesh of two submeshes that cook to blobs of sizes `sA` and `sB` the length
is `4 + sA + 4 + sB`. -/
theorem C16_buffer_length_is_sum_of_four_plus_size {F M : Type} [Mul F]
    (env : Services F M) (isConvex : Bool) (collider : MeshColliderComponent F M)
    (scale : Vec3 F) (invalidateOld : Bool) (cache : Option Buffer)
    (hfresh : invalidateOld = true ∨ cache = none)
    (hperm : ∀ m, (env.traverse m).Perm m)
    (hsize : cookedSize (cookFor env isConvex) collider.Submeshes < U32) :
    ∃ buf : Buffer,
      cacheOf (createMesh env isConvex collider scale invalidateOld cache) = some buf
      ∧ buf.Size = ((cookedOf (cookFor env isConvex) collider.Submeshes).map
          fun p => 4 + p.2.length).sum
      ∧ ∀ (a b : Submesh M) (blobA blobB : List Nat), collider.Submeshes = [a, b] →
          cookFor env isConvex (meshDesc a) = some blobA →
          cookFor env isConvex (meshDesc b) = some blobB →
          buf.Size = 4 + blobA.length + 4 + blobB.length := by
  obtain ⟨hmem, hle⟩ := traversed_entries env (cookFor env isConvex) collider.Submeshes hperm
  have hlen := encodeEntries_length env.byteOrder _ hmem
  have hsz : (encodeEntries env.byteOrder
        (env.traverse (assignAll [] ((cookedOf (cookFor env isConvex)
          collider.Submeshes).map entryOf)))
      ++ ((List.range (cookedSize (cookFor env isConvex) collider.Submeshes)).map
          env.heap).drop
        (entriesSize (env.traverse (assignAll [] ((cookedOf (cookFor env isConvex)
          collider.Submeshes).map entryOf))))).length
      = cookedSize (cookFor env isConvex) collider.Submeshes := by
    simp only [List.length_append, hlen, List.length_drop, List.length_map, List.length_range]
    omega
  refine ⟨_, ?_, hsz, ?_⟩
  · rw [cacheOf_createMesh, cookOrLoad_fresh _ _ _ _ _ _ hfresh,
      freshCook_eq env _ scale collider.Submeshes hperm hsize]
    rfl
  · intro a b blobA blobB hsub hA hB
    show (_ : List Nat).length = _
    rw [hsz, hsub, cookedSize, cookedOf_cons_some _ a [b] blobA hA,
      cookedOf_cons_some _ b [] blobB hB]
    simp [cookedOf]
    omega

/-- Witness of C16: the sample mesh whose two submeshes have the same name and
cook to blobs of one byte each, in convex mode: the buffer has 10 bytes. -/
theorem C16_buffer_length_is_sum_of_four_plus_size_witness :
    ∃ buf : Buffer,
      cacheOf (createMesh sampleServices true sampleTwins sampleScale false none) = some buf
      ∧ buf.Size = ((cookedOf (cookFor sampleServices true) sampleTwins.Submeshes).map
          fun p => 4 + p.2.length).sum
      ∧ ∀ (a b : Submesh Nat) (blobA blobB : List Nat), sampleTwins.Submeshes = [a, b] →
          cookFor sampleServices true (meshDesc a) = some blobA →
          cookFor sampleServices true (meshDesc b) = some blobB →
          buf.Size = 4 + blobA.length + 4 + blobB.length :=
  C16_buffer_length_is_sum_of_four_plus_size sampleServices true sampleTwins sampleScale
    false none (Or.inr rfl) (fun m => List.Perm.refl m) (by decide)

/-- C19: after `CreateConvexMesh` returns, `collider.ProcessedMeshes` holds as
many entries as the convex hulls of the shapes returned have polygons in all:
one Processed Mesh per polygon of each shape. -/
theorem C19_one_processed_mesh_per_polygon {F M : Type} [Mul F] (env : Services F M)
    (collider : MeshColliderComponent F M) (scale : Vec3 F) (invalidateOld : Bool)
    (cache : Option Buffer) (out : Outcome F M)
    (h : CreateConvexMesh env collider scale invalidateOld cache = some out) :
    out.collider.ProcessedMeshes.length
      = (out.shapes.map fun sh => (env.createConvexMesh sh.cooked).polygons.length).sum := by
  have h2 : createMesh env true collider scale invalidateOld cache = some out := by
    simpa [createMesh] using h
  rw [(createMesh_some _ _ _ _ _ _ _ h2).1]
  simp only [reconstructShape, if_true, reconstructConvex_length, List.length_nil,
    Nat.zero_add]

/-- Witness of C19: the fresh-cook call for the sample mesh with two submeshes,
whose hulls are tetrahedra: 8 Processed Meshes for 2 shapes. -/
theorem C19_one_processed_mesh_per_polygon_witness :
    (([buildShape sampleServices sampleScale (sampleSubmesh 7 1 "Cube") [7],
        buildShape sampleServices sampleScale (sampleSubmesh 9 1 "Ball") [9]].foldl
        (reconstructConvexShape sampleServices) []).length
      = ([buildShape sampleServices sampleScale (sampleSubmesh 7 1 "Cube") [7],
          buildShape sampleServices sampleScale (sampleSubmesh 9 1 "Ball") [9]].map
          fun sh => (sampleServices.createConvexMesh sh.cooked).polygons.length).sum)
    ∧ ([buildShape sampleServices sampleScale (sampleSubmesh 7 1 "Cube") [7],
          buildShape sampleServices sampleScale (sampleSubmesh 9 1 "Ball") [9]].map
          fun sh => (sampleServices.createConvexMesh sh.cooked).polygons.length).sum = 8 :=
  ⟨C19_one_processed_mesh_per_polygon sampleServices sampleDuo sampleScale false none
    { shapes := [buildShape sampleServices sampleScale (sampleSubmesh 7 1 "Cube") [7],
        buildShape sampleServices sampleScale (sampleSubmesh 9 1 "Ball") [9]]
      collider :=
        { Submeshes := sampleDuo.Submeshes
          ProcessedMeshes :=
            [buildShape sampleServices sampleScale (sampleSubmesh 7 1 "Cube") [7],
              buildShape sampleServices sampleScale (sampleSubmesh 9 1 "Ball") [9]].foldl
              (reconstructConvexShape sampleServices) [] }
      cache := some ⟨[1, 0, 0, 0, 7, 1, 0, 0, 0, 9]⟩ }
    rfl, by decide⟩

/-! ## The triangle-mode reconstruction -/

theorem reconstructTriangleShape_eq {F M : Type} (env : Services F M)
    (processed : List (Mesh F)) (shape : PxShape F)
    (hv : (env.createTriangleMesh shape.cooked).getNbVertices < U32)
    (ht : (env.createTriangleMesh shape.cooked).getNbTriangles < U32) :
    reconstructTriangleShape env processed shape
      = processed ++ [{ Vertices := triangleVertices (env.createTriangleMesh shape.cooked)
                        Indices := triangleIndices (env.createTriangleMesh shape.cooked)
                        Transform := ⟨shape.localPose, some shape.scale⟩ }] := by
  unfold reconstructTriangleShape
  simp only
  rw [forLoop_eq_foldl _ _ hv _ 0 _ (by omega), forLoop_eq_foldl _ _ ht _ 0 _ (by omega),
    foldl_snoc_eq, foldl_snoc_eq]
  simp only [List.nil_append, triangleVertices, triangleIndices, Nat.sub_zero]

/-- The triangle-mode reconstruction of a cooked mesh that stores 16-bit indices:
the vertices are the cooked vertices in order, and triangle `t` has the cooked
indices `3t`, `3t + 1` and `3t + 2` as its corners. -/
theorem reconstructTriangleShape_of_16_bit {F M : Type} (env : Services F M)
    (processed : List (Mesh F)) (shape : PxShape F) (indices : List Nat)
    (hv : (env.createTriangleMesh shape.cooked).getNbVertices < U32)
    (ht : 3 * (env.createTriangleMesh shape.cooked).getNbTriangles < U32)
    (hview : (env.createTriangleMesh shape.cooked).getTriangles = u16ViewOf16 indices) :
    ∃ m : Mesh F,
      reconstructTriangleShape env processed shape = processed ++ [m]
      ∧ m.Vertices = (List.range' 0 (env.createTriangleMesh shape.cooked).getNbVertices).map
          (fun v => ⟨(env.createTriangleMesh shape.cooked).getVertices v⟩)
      ∧ m.Indices.length = (env.createTriangleMesh shape.cooked).getNbTriangles
      ∧ ∀ t, t < (env.createTriangleMesh shape.cooked).getNbTriangles →
          m.Indices[t]? = some { V1 := indices.getD (3 * t) 0
                                 V2 := indices.getD (3 * t + 1) 0
                                 V3 := indices.getD (3 * t + 2) 0 } := by
  refine ⟨_, reconstructTriangleShape_eq env processed shape hv (by omega), rfl, ?_, ?_⟩
  · simp [triangleIndices]
  · intro t htlt
    have e0 : (3 * t + 0) % U32 = 3 * t := Nat.mod_eq_of_lt (by omega)
    have e1 : (3 * t + 1) % U32 = 3 * t + 1 := Nat.mod_eq_of_lt (by omega)
    have e2 : (3 * t + 2) % U32 = 3 * t + 2 := Nat.mod_eq_of_lt (by omega)
    simp only [triangleIndices, List.getElem?_map, List.getElem?_range' _ _ htlt,
      Option.map_some', Nat.one_mul, Nat.zero_add, e0, e1, e2, hview, u16ViewOf16]

theorem reconstructTriangle_transforms {F M : Type} (env : Services F M) :
    ∀ (shapes : List (PxShape F)) (processed : List (Mesh F)),
      (shapes.foldl (reconstructTriangleShape env) processed).map (fun m => m.Transform)
        = processed.map (fun m => m.Transform)
          ++ shapes.map (fun sh => ⟨sh.localPose, some sh.scale⟩) := by
  intro shapes
  induction shapes with
  | nil => intro processed; simp
  | cons sh shapes ih =>
    intro processed
    rw [List.foldl_cons, ih]
    simp [reconstructTriangleShape]

/-- C17 (the code departs from it): the index loop reads the cooked indices
through a cast to `const PxU16*`, whichever width the mesh stores. For the sample
cooked mesh of 70001 vertices, which stores its one triangle with the 32-bit
indices 0, 1 and 70000, on a little-endian machine, the mesh appended has the
70001 vertices and one triangle with the corners 0, 0 and 1: the two halves of
the first index and the low half of the second. -/
theorem C17_wide_indices_are_read_as_halves :
    sampleWide.createTriangleMesh [7] = sampleWideMesh
    ∧ sampleWideMesh.getTriangles = u16ViewOf32 .little [0, 1, 70000]
    ∧ (reconstructTriangleShape sampleWide []
        (buildShape sampleWide sampleScale (sampleSubmesh 7 1 "Cube") [7])).map
        (fun m => (m.Vertices.length, m.Indices))
      = [(70001, [⟨0, 0, 1⟩])] := by
  refine ⟨rfl, rfl, ?_⟩
  rw [reconstructTriangleShape_eq sampleWide [] _ (by decide) (by decide)]
  simp only [List.nil_append, List.map_cons, List.map_nil, triangleVertices, List.length_map,
    List.length_range']
  have hi : triangleIndices (sampleWide.createTriangleMesh
      (buildShape sampleWide sampleScale (sampleSubmesh 7 1 "Cube") [7]).cooked)
      = [⟨0, 0, 1⟩] := by decide
  rw [hi]
  rfl

/-- C18: in triangle mode, when the call returns, the transform of the Processed
Mesh built for each shape is the matrix product
`FromPhysXTransform(localPose) * glm::scale(glm::mat4(1.0f), scale)` of the
shape's local pose and the scale of its geometry, position by position; where
applying a product of matrices to a vector applies the right factor first, the
transform applies the scale first and the pose after it. -/
theorem C18_triangle_transform_is_pose_times_scale {F M Mat : Type} [Mul F]
    (env : Services F M) (ops : MatrixOps F Mat) (collider : MeshColliderComponent F M)
    (scale : Vec3 F) (invalidateOld : Bool) (cache : Option Buffer) (out : Outcome F M)
    (h : CreateTriangleMesh env collider scale invalidateOld cache = some out) :
    out.collider.ProcessedMeshes.map (fun m => m.Transform.matrix ops)
      = out.shapes.map (fun sh =>
          ops.mul (ops.FromPhysXTransform sh.localPose) (ops.scale sh.scale))
    ∧ ∀ (V : Type) (apply : Mat → V → V),
        (∀ a b v, apply (ops.mul a b) v = apply a (apply b v)) →
        out.collider.ProcessedMeshes.map (fun m => apply (m.Transform.matrix ops))
          = out.shapes.map (fun sh => fun v =>
              apply (ops.FromPhysXTransform sh.localPose) (apply (ops.scale sh.scale) v)) := by
  have h2 : createMesh env false collider scale invalidateOld cache = some out := by
    simpa [createMesh] using h
  have ht := reconstructTriangle_transforms env out.shapes []
  have hpm := (createMesh_some _ _ _ _ _ _ _ h2).1
  simp only [reconstructShape, Bool.false_eq_true, if_false] at hpm
  rw [← hpm] at ht
  simp only [List.map_nil, List.nil_append] at ht
  have hm : out.collider.ProcessedMeshes.map (fun m => m.Transform.matrix ops)
      = out.shapes.map (fun sh =>
          ops.mul (ops.FromPhysXTransform sh.localPose) (ops.scale sh.scale)) := by
    have := congrArg (List.map (MeshTransform.matrix ops)) ht
    simpa [List.map_map, Function.comp_def, MeshTransform.matrix] using this
  refine ⟨hm, ?_⟩
  intro V apply happ
  have := congrArg (List.map apply) hm
  simp only [List.map_map, Function.comp_def] at this
  rw [this]
  apply List.map_congr_left
  intro sh _
  funext v
  exact happ _ _ v

/-- Witness of C18: the fresh-cook call in triangle mode for the sample mesh with
one submesh, with the sample matrices. -/
theorem C18_triangle_transform_is_pose_times_scale_witness :
    (reconstructTriangleShape sampleServices []
        (buildShape sampleServices sampleScale (sampleSubmesh 7 1 "Cube") [7])).map
        (fun m => m.Transform.matrix sampleOps)
      = [buildShape sampleServices sampleScale (sampleSubmesh 7 1 "Cube") [7]].map (fun sh =>
          sampleOps.mul (sampleOps.FromPhysXTransform sh.localPose) (sampleOps.scale sh.scale))
    ∧ ∀ (V : Type) (apply : (Int → Int) → V → V),
        (∀ a b v, apply (sampleOps.mul a b) v = apply a (apply b v)) →
        (reconstructTriangleShape sampleServices []
            (buildShape sampleServices sampleScale (sampleSubmesh 7 1 "Cube") [7])).map
            (fun m => apply (m.Transform.matrix sampleOps))
          = [buildShape sampleServices sampleScale (sampleSubmesh 7 1 "Cube") [7]].map
              (fun sh => fun v => apply (sampleOps.FromPhysXTransform sh.localPose)
                (apply (sampleOps.scale sh.scale) v)) :=
  C18_triangle_transform_is_pose_times_scale sampleServices sampleOps sampleSingle sampleScale
    false none
    { shapes := [buildShape sampleServices sampleScale (sampleSubmesh 7 1 "Cube") [7]]
      collider :=
        { Submeshes := sampleSingle.Submeshes
          ProcessedMeshes := reconstructTriangleShape sampleServices []
            (buildShape sampleServices sampleScale (sampleSubmesh 7 1 "Cube") [7]) }
      cache := some ⟨[1, 0, 0, 0, 7]⟩ }
    rfl

/-! ## The actor -/

/-- The shapes that `AddMeshCollider` leaves on the actor: those it held, followed
by the shapes of the call. -/
theorem AddMeshCollider_appends {F M : Type} [Mul F] (env : Services F M)
    (invalidateOld IsConvex IsTrigger : Bool) (actor actor2 : PhysicsActor F)
    (collider : MeshColliderComponent F M) (size : Vec3 F) (cache : Option Buffer)
    (out : Outcome F M)
    (h : AddMeshCollider env invalidateOld IsConvex IsTrigger actor collider size cache
      = some (actor2, out)) :
    actor2.shapes = actor.shapes
      ++ out.shapes.map (fun sh => ⟨sh, !IsTrigger, IsTrigger⟩) := by
  have hfold : ∀ (shapes : List (PxShape F)) (a : PhysicsActor F),
      (shapes.foldl (fun a shape => a.AddCollisionShape ⟨shape, !IsTrigger, IsTrigger⟩)
        a).shapes = a.shapes ++ shapes.map (fun sh => ⟨sh, !IsTrigger, IsTrigger⟩) := by
    intro shapes
    induction shapes with
    | nil => intro a; simp
    | cons sh shapes ih =>
      intro a
      rw [List.foldl_cons, ih]
      simp [PhysicsActor.AddCollisionShape]
  unfold AddMeshCollider at h
  simp only at h
  split at h
  · exact Option.noConfusion h
  · rename_i o ho
    simp only [Option.some.injEq, Prod.mk.injEq] at h
    rw [← h.1, ← h.2]
    exact hfold _ _

/-- C20 (the code departs from it): `AddMeshCollider` removes nothing from the
actor. For an actor that holds the shape attached by an earlier call, the call
for the sample mesh with one submesh, on its cache file, leaves the actor with
two shapes, the prior one first; this is so in convex and in triangle mode, and
for either value of the default argument `invalidateOld`. -/
theorem C20_recook_keeps_the_prior_shapes :
    (AddMeshCollider sampleServices false true false ⟨[]⟩ sampleSingle sampleScale none).map
        (fun r => (r.1.shapes, r.2.cache))
      = some ([⟨buildShape sampleServices sampleScale (sampleSubmesh 7 1 "Cube") [7],
          true, false⟩], some ⟨[1, 0, 0, 0, 7]⟩)
    ∧ ∀ invalidateOld IsConvex : Bool,
        (AddMeshCollider sampleServices invalidateOld IsConvex false
            ⟨[⟨buildShape sampleServices sampleScale (sampleSubmesh 7 1 "Cube") [7],
              true, false⟩]⟩
            sampleSingle sampleScale (some ⟨[1, 0, 0, 0, 7]⟩)).map (fun r => r.1.shapes)
          = some [⟨buildShape sampleServices sampleScale (sampleSubmesh 7 1 "Cube") [7],
              true, false⟩,
            ⟨buildShape sampleServices sampleScale (sampleSubmesh 7 1 "Cube") [7],
              true, false⟩] := by
  decide

/-! ## Two calls in a row when the names differ -/

theorem createMesh_of_cookOrLoad {F M : Type} [Mul F] (env : Services F M) (isConvex : Bool)
    (collider : MeshColliderComponent F M) (scale : Vec3 F) (invalidateOld : Bool)
    (cache : Option Buffer) (shapes : List (PxShape F)) (cache2 : Option Buffer)
    (h : cookOrLoad env (cookFor env isConvex) scale collider.Submeshes invalidateOld cache
      = some (shapes, cache2)) :
    createMesh env isConvex collider scale invalidateOld cache
      = some { shapes := shapes
               collider := { Submeshes := collider.Submeshes
                             ProcessedMeshes := shapes.foldl (reconstructShape env isConvex) [] }
               cache := cache2 } := by
  cases isConvex
  · simp only [cookFor, Bool.false_eq_true, if_false] at h
    simp [createMesh, CreateTriangleMesh, h, reconstructShape]
  · simp only [cookFor, if_true] at h
    simp [createMesh, CreateConvexMesh, h, reconstructShape]

/-- For a mesh whose submeshes all cook and have pairwise different names, in
either mode: the fresh-cook call returns, the cache-hit call that follows it on
the same collider returns, and the second builds its shapes from the blobs of
the first, in the order in which the hash table was visited. -/
theorem secondCall_same_blobs_of_distinct_names {F M : Type} [Mul F] (env : Services F M)
    (isConvex : Bool) (collider : MeshColliderComponent F M) (scale : Vec3 F)
    (hperm : ∀ m, (env.traverse m).Perm m)
    (hall : ∀ s ∈ collider.Submeshes, (cookFor env isConvex (meshDesc s)).isSome = true)
    (hnames : (collider.Submeshes.map fun s => s.MeshName).Nodup)
    (hsize : cookedSize (cookFor env isConvex) collider.Submeshes < U32) :
    ∃ out out2 : Outcome F M,
      createMesh env isConvex collider scale false none = some out
      ∧ createMesh env isConvex out.collider scale false out.cache = some out2
      ∧ (out2.shapes.map fun sh => sh.cooked).Perm (out.shapes.map fun sh => sh.cooked) := by
  have hfst := cookedOf_fst_of_all (cookFor env isConvex) collider.Submeshes hall
  have hnames2 : ((cookedOf (cookFor env isConvex) collider.Submeshes).map
      fun p => p.1.MeshName).Nodup := by
    have : ((cookedOf (cookFor env isConvex) collider.Submeshes).map fun p => p.1.MeshName)
        = ((cookedOf (cookFor env isConvex) collider.Submeshes).map Prod.fst).map
            fun s => s.MeshName := by
      simp [Function.comp_def]
    rw [this, hfst]
    exact hnames
  obtain ⟨es, hes, hfc⟩ := freshCook_distinct env (cookFor env isConvex) scale
    collider.Submeshes hperm hnames2 hsize
  have hblobs : (es.map fun e => e.2.Data).Perm
      ((cookedOf (cookFor env isConvex) collider.Submeshes).map Prod.snd) := by
    have := hes.map (fun e => e.2.Data)
    simpa [entryOf, Function.comp_def] using this
  have hl : collider.Submeshes.length = (es.map fun e => e.2.Data).length := by
    rw [hblobs.length_eq, List.length_map, cookedOf_length_of_all _ _ hall]
  have hencl : (encodeRecords env.byteOrder (es.map fun e => e.2.Data)).length < U32 := by
    rw [encodeRecords_length]
    have := (hblobs.map fun b => 4 + b.length).sum_eq
    simp only [List.map_map, Function.comp_def] at this
    simp only [cookedSize] at hsize
    simp only [List.map_map, Function.comp_def]
    omega
  have h1 := createMesh_of_cookOrLoad env isConvex collider scale false none
    ((cookedOf (cookFor env isConvex) collider.Submeshes).map
      (fun p => buildShape env scale p.1 p.2))
    (some ⟨encodeRecords env.byteOrder (es.map fun e => e.2.Data)⟩) (by
      rw [cookOrLoad_fresh _ _ _ _ _ _ (Or.inr rfl), hfc]
      rfl)
  have hr := readLoop_encoded env scale (es.map fun e => e.2.Data) [] collider.Submeshes
    hl hencl
  simp only [List.append_nil] at hr
  have h2 := createMesh_of_cookOrLoad env isConvex
    { Submeshes := collider.Submeshes
      ProcessedMeshes := ((cookedOf (cookFor env isConvex) collider.Submeshes).map
        (fun p => buildShape env scale p.1 p.2)).foldl (reconstructShape env isConvex) [] }
    scale false (some ⟨encodeRecords env.byteOrder (es.map fun e => e.2.Data)⟩)
    (List.zipWith (buildShape env scale) collider.Submeshes (es.map fun e => e.2.Data))
    (some ⟨encodeRecords env.byteOrder (es.map fun e => e.2.Data)⟩) (by
      rw [cookOrLoad_hit]
      simp only [cachedLoad, hr, Option.map_some'])
  refine ⟨_, _, h1, h2, ?_⟩
  have hc1 : (List.zipWith (buildShape env scale) collider.Submeshes
      (es.map fun e => e.2.Data)).map (fun sh => sh.cooked) = es.map fun e => e.2.Data := by
    rw [List.map_zipWith]
    have : List.zipWith (fun (s : Submesh M) (b : List Nat) => (buildShape env scale s b).cooked)
        collider.Submeshes (es.map fun e => e.2.Data)
        = List.zipWith (fun _ b => b) collider.Submeshes (es.map fun e => e.2.Data) := rfl
    rw [this, ← List.map_uncurry_zip_eq_zipWith]
    have h3 : Function.uncurry (fun (_ : Submesh M) (b : List Nat) => b) = Prod.snd := by
      funext p; rfl
    rw [h3, List.map_snd_zip _ _ (le_of_eq hl.symm)]
  have hc2 : ((cookedOf (cookFor env isConvex) collider.Submeshes).map
      (fun p => buildShape env scale p.1 p.2)).map (fun sh => sh.cooked)
      = (cookedOf (cookFor env isConvex) collider.Submeshes).map Prod.snd := by
    simp [buildShape, Function.comp_def]
  show (List.map _ (List.zipWith _ _ _)).Perm (List.map _ (List.map _ _))
  rw [hc1, hc2]
  exact hblobs

/-! ## The fan loop for every vertex count -/

theorem fanLoop_general (vI0 k : Nat) (ci : List Index) :
    fanLoop vI0 k ci = ci ++ (List.range' 1 (fanBound k - 1)).map fun vI =>
      { V1 := vI0, V2 := (vI0 + vI + 1) % U32, V3 := (vI0 + vI) % U32 } := by
  unfold fanLoop
  rw [forLoop_eq_foldl _ _ (fanBound_lt k) _ _ _ (by omega)]
  exact foldl_snoc_eq _ _ _

theorem reconstructConvexShape_two {F M : Type} (env : Services F M)
    (processed : List (Mesh F)) (shape : PxShape F) (p q : PxHullPolygon)
    (h : (env.createConvexMesh shape.cooked).polygons = [p, q]) :
    reconstructConvexShape env processed shape
      = processed ++
        [⟨(forLoop p.mNbVerts (vertexBody (env.createConvexMesh shape.cooked) p) p.mNbVerts 0
            ([], 0)).1,
          fanLoop 0 p.mNbVerts [], ⟨shape.localPose, none⟩⟩,
         ⟨(forLoop q.mNbVerts (vertexBody (env.createConvexMesh shape.cooked) q) q.mNbVerts 0
            (forLoop p.mNbVerts (vertexBody (env.createConvexMesh shape.cooked) p) p.mNbVerts 0
              ([], 0))).1,
          fanLoop (forLoop p.mNbVerts (vertexBody (env.createConvexMesh shape.cooked) p)
              p.mNbVerts 0 ([], 0)).2 q.mNbVerts (fanLoop 0 p.mNbVerts []),
          ⟨shape.localPose, none⟩⟩] := by
  unfold reconstructConvexShape
  simp only [h, List.foldl_cons, List.foldl_nil, polygonStep, List.append_assoc,
    List.singleton_append]

/-- Where the polygon loop is run to its end on a hull that has a polygon without
vertices before a polygon with one vertex, the fan loop of the first polygon, with
the bound `uint32_t(0) - 1`, has put 4294967294 triangles into the index list,
and the Processed Mesh of the second polygon holds 1 vertex and that index list,
with the triangle (0, 2, 1) in it. -/
theorem reconstructConvexShape_after_empty_polygon :
    ∃ m : Mesh Int,
      (reconstructConvexShape sampleDegenerateServices []
        ⟨[7], ⟨1, 1, 1⟩, ⟨⟨0, 0, 0⟩, ⟨0, 0, 0⟩⟩⟩)[1]? = some m
      ∧ m.Vertices.length = 1
      ∧ m.Indices.length = 4294967294
      ∧ (⟨0, 2, 1⟩ : Index) ∈ m.Indices := by
  have hb0 : fanBound 0 = 4294967295 := by decide
  have hb1 : fanBound 1 = 0 := by decide
  rw [reconstructConvexShape_two sampleDegenerateServices [] _ ⟨0, 0⟩ ⟨1, 0⟩ rfl]
  simp only [List.nil_append, List.getElem?_cons_succ, List.getElem?_cons_zero,
    Option.some.injEq, exists_eq_left']
  refine ⟨by decide, ?_, ?_⟩
  · rw [fanLoop_general, fanLoop_general 0 0, hb0, hb1]
    simp
  · rw [fanLoop_general, fanLoop_general 0 0, hb0]
    refine List.mem_append.2 (Or.inl (List.mem_append.2 (Or.inr ?_)))
    exact List.mem_map.2 ⟨1, List.mem_range'_1.2 ⟨Nat.le_refl 1, by omega⟩, by decide⟩

/-- For every polygon vertex count `k` in `1..65535` the fan loop appends
`max(k - 2, 0)` triangles, one in each run. -/
theorem fanLoop_runs (vI0 k : Nat) (collisionIndices : List Index)
    (h1 : 1 ≤ k) (hk : k < 65536) :
    (fanLoop vI0 k collisionIndices).length = collisionIndices.length + max (k - 2) 0 := by
  rw [fanLoop_general]
  simp only [List.length_append, List.length_map, List.length_range']
  rw [fanBound_of_pos k h1 (by unfold U32; omega)]
  omega

/-- C23 (the code departs from it): for a polygon with 0 vertices the bound
`uint32_t(0) - 1` is 4294967295 modulo 2^32, and the fan loop runs 4294967294
times, appending a triangle each time, where `max(0 - 2, 0)` is 0. Polygons with
1, 2 and 3 vertices get 0, 0 and 1 triangles. -/
theorem C23_fan_loop_of_an_empty_polygon :
    fanBound 0 = 4294967295
    ∧ (fanLoop 0 0 []).length = 4294967294
    ∧ fanLoop 0 1 [] = []
    ∧ fanLoop 0 2 [] = []
    ∧ fanLoop 0 3 [] = [⟨0, 2, 1⟩] := by
  have hb : fanBound 0 = 4294967295 := by decide
  refine ⟨hb, ?_, by decide, by decide, by decide⟩
  rw [fanLoop_general, hb]
  simp

/-- C24 (the code departs from it): for the sample mesh whose two submeshes are
both named "Cube" and both cook, `bufferSize` counts 10 bytes for 2 cooked
submeshes, `colliderData` keeps 1 entry, and the write loop writes 1 record and
ends at offset 5: the last 5 bytes of the buffer are never written, they hold
what `Allocate` left there, bytes 255 with the sample services and bytes 0 where
fresh memory holds zeros. -/
theorem C24_same_names_leave_bytes_unwritten :
    (cookedOf sampleServices.cookConvexMesh sampleTwins.Submeshes).length = 2
    ∧ (cookLoop sampleServices sampleServices.cookConvexMesh sampleScale sampleTwins.Submeshes
        ⟨[], [], 0⟩).bufferSize = 10
    ∧ (cookLoop sampleServices sampleServices.cookConvexMesh sampleScale sampleTwins.Submeshes
        ⟨[], [], 0⟩).colliderData = [("Cube", ⟨[9], 1⟩)]
    ∧ writeLoop sampleServices.byteOrder [("Cube", ⟨[9], 1⟩)]
        (Buffer.Allocate sampleServices.heap 10) 0
      = some (⟨[1, 0, 0, 0, 9, 255, 255, 255, 255, 255]⟩, 5)
    ∧ writeLoop sampleServices.byteOrder [("Cube", ⟨[9], 1⟩)]
        (Buffer.Allocate (fun _ => 0) 10) 0
      = some (⟨[1, 0, 0, 0, 9, 0, 0, 0, 0, 0]⟩, 5)
    ∧ cacheOf (CreateConvexMesh sampleServices sampleTwins sampleScale false none)
      = some ⟨[1, 0, 0, 0, 9, 255, 255, 255, 255, 255]⟩
    ∧ cacheOf (CreateTriangleMesh sampleServices sampleTwins sampleScale false none)
      = some ⟨[1, 0, 0, 0, 9, 255, 255, 255, 255, 255]⟩ := by
  decide

/-- C25 (the code departs from it): `currentParams` refers to the parameters that
the cooking object holds, so the last `setParams(currentParams)` assigns them to
themselves: when `CreateConvexMesh` returns, the cooking object holds the
parameters it was given at the start of the call, with `planeTolerance` 0.0,
`meshPreprocessParams` `eWELD_VERTICES` and `meshWeldTolerance` 0.01, whatever it
held before. For a cooking object with other values in these members (here 7, 0
and 0, with 0 and 1 standing for the two literals) the parameters are not those
in force on entry. -/
theorem C25_cooking_parameters_stay_modified :
    (∀ (F R : Type) (zero hundredth : F) (cooking : PxCooking F R),
      cookingParamsAfter zero hundredth cooking
        = { mParams := { planeTolerance := zero
                         meshPreprocessParams := eWELD_VERTICES
                         meshWeldTolerance := hundredth
                         others := cooking.mParams.others } })
    ∧ cookingParamsAfter (0 : Int) 1 ⟨⟨7, 0, 0, ()⟩⟩ = ⟨⟨0, 1, 1, ()⟩⟩
    ∧ cookingParamsAfter (0 : Int) 1 ⟨⟨7, 0, 0, ()⟩⟩ ≠ ⟨⟨7, 0, 0, ()⟩⟩ := by
  refine ⟨fun F R zero hundredth cooking => rfl, by decide, by decide⟩

/-- C26: the cooking request built for a submesh, in either mode, stays inside the
buffers of the mesh. For a submesh with `BaseVertex + VertexCount` at most the
number of vertices and `BaseIndex + IndexCount`, counted in single indices, at
most 3 times the number of `Index` triples: the points start at `BaseVertex` and
are `VertexCount` many, within the vertex array; the triangles start at triple
`BaseIndex / 3` and are `IndexCount / 3` many, within the `Index` array. -/
theorem C26_cooking_request_stays_inside_the_buffers {M : Type} (submesh : Submesh M)
    (nbVertices nbIndexTriples : Nat)
    (hv : submesh.BaseVertex + submesh.VertexCount ≤ nbVertices)
    (hi : submesh.BaseIndex + submesh.IndexCount ≤ 3 * nbIndexTriples) :
    (meshDesc submesh).pointsData = submesh.BaseVertex
    ∧ (meshDesc submesh).pointsCount = submesh.VertexCount
    ∧ (meshDesc submesh).pointsData + (meshDesc submesh).pointsCount ≤ nbVertices
    ∧ (meshDesc submesh).indicesData = submesh.BaseIndex / 3
    ∧ (meshDesc submesh).indicesCount = submesh.IndexCount / 3
    ∧ (meshDesc submesh).indicesData + (meshDesc submesh).indicesCount ≤ nbIndexTriples := by
  refine ⟨rfl, rfl, hv, rfl, rfl, ?_⟩
  simp only [meshDesc]
  omega

/-- Witness of C26: a submesh over the vertices 4..9 and the single indices
7..14 of a mesh with 10 vertices and 5 triples. -/
theorem C26_cooking_request_stays_inside_the_buffers_witness :
    (meshDesc (⟨4, 6, 7, 8, 0, "Cube"⟩ : Submesh Nat)).pointsData = 4
    ∧ (meshDesc (⟨4, 6, 7, 8, 0, "Cube"⟩ : Submesh Nat)).pointsCount = 6
    ∧ (meshDesc (⟨4, 6, 7, 8, 0, "Cube"⟩ : Submesh Nat)).pointsData
        + (meshDesc (⟨4, 6, 7, 8, 0, "Cube"⟩ : Submesh Nat)).pointsCount ≤ 10
    ∧ (meshDesc (⟨4, 6, 7, 8, 0, "Cube"⟩ : Submesh Nat)).indicesData = 7 / 3
    ∧ (meshDesc (⟨4, 6, 7, 8, 0, "Cube"⟩ : Submesh Nat)).indicesCount = 8 / 3
    ∧ (meshDesc (⟨4, 6, 7, 8, 0, "Cube"⟩ : Submesh Nat)).indicesData
        + (meshDesc (⟨4, 6, 7, 8, 0, "Cube"⟩ : Submesh Nat)).indicesCount ≤ 5 :=
  C26_cooking_request_stays_inside_the_buffers (⟨4, 6, 7, 8, 0, "Cube"⟩ : Submesh Nat) 10 5
    (by decide) (by decide)

/-! ## Overlap queries -/

theorem copyTouches_spec {H : Type} (OVERLAP_MAX_COLLIDERS : Nat) (buf : PxOverlapBuffer H)
    (buffer : List H) (count : Nat) (hlen : buffer.length = OVERLAP_MAX_COLLIDERS) :
    (copyTouches OVERLAP_MAX_COLLIDERS buf buffer count).1 = buf.result
    ∧ ((copyTouches OVERLAP_MAX_COLLIDERS buf buffer count).1 = true →
        (copyTouches OVERLAP_MAX_COLLIDERS buf buffer count).2.2
          = min buf.nbTouches OVERLAP_MAX_COLLIDERS
        ∧ (copyTouches OVERLAP_MAX_COLLIDERS buf buffer count).2.1.length
          = OVERLAP_MAX_COLLIDERS
        ∧ (copyTouches OVERLAP_MAX_COLLIDERS buf buffer count).2.1.take
            (copyTouches OVERLAP_MAX_COLLIDERS buf buffer count).2.2
          = (List.range (copyTouches OVERLAP_MAX_COLLIDERS buf buffer count).2.2).map
              buf.touches
        ∧ (copyTouches OVERLAP_MAX_COLLIDERS buf buffer count).2.1.drop
            (copyTouches OVERLAP_MAX_COLLIDERS buf buffer count).2.2
          = buffer.drop (copyTouches OVERLAP_MAX_COLLIDERS buf buffer count).2.2)
    ∧ ((copyTouches OVERLAP_MAX_COLLIDERS buf buffer count).1 = false →
        (copyTouches OVERLAP_MAX_COLLIDERS buf buffer count).2.2 = count
        ∧ (copyTouches OVERLAP_MAX_COLLIDERS buf buffer count).2.1 = buffer) := by
  unfold copyTouches
  cases hr : buf.result with
  | false => simp
  | true =>
    simp only [if_true, true_and, forall_const, false_implies, and_true,
      Bool.true_eq_false]
    have hmin : (if buf.nbTouches ≥ OVERLAP_MAX_COLLIDERS then OVERLAP_MAX_COLLIDERS
        else buf.nbTouches) = min buf.nbTouches OVERLAP_MAX_COLLIDERS := by
      split <;> omega
    rw [hmin]
    have hl : ((List.range (min buf.nbTouches OVERLAP_MAX_COLLIDERS)).map buf.touches).length
        = min buf.nbTouches OVERLAP_MAX_COLLIDERS := by simp
    refine ⟨rfl, ?_, ?_, ?_⟩
    · rw [List.length_append, hl, List.length_drop, hlen]
      omega
    · exact List.take_left' hl
    · exact List.drop_left' hl

/-- C27: for `OverlapBox`, `OverlapCapsule` and `OverlapSphere`, called with an
output buffer of `OVERLAP_MAX_COLLIDERS` hits: the function returns the result of
the scene query; whenever it returns true, `*count` is
`min(nbTouches, OVERLAP_MAX_COLLIDERS)`, the buffer still has
`OVERLAP_MAX_COLLIDERS` places, its first `*count` places hold the first `*count`
touches of the query and the places after them are as before; whenever it returns
false, `*count` and the buffer are left unchanged. -/
theorem C27_overlap_reports_no_more_hits_than_the_buffer_holds {F H : Type}
    (OVERLAP_MAX_COLLIDERS : Nat) (overlap : PxGeometry F → Vec3 F → PxOverlapBuffer H)
    (origin halfSize : Vec3 F) (radius halfHeight : F) (buffer : List H) (count : Nat)
    (hlen : buffer.length = OVERLAP_MAX_COLLIDERS) :
    ∀ q ∈ [(OverlapBox OVERLAP_MAX_COLLIDERS overlap origin halfSize buffer count,
              overlap (PxGeometry.PxBoxGeometry halfSize.x halfSize.y halfSize.z) origin),
           (OverlapCapsule OVERLAP_MAX_COLLIDERS overlap origin radius halfHeight buffer count,
              overlap (PxGeometry.PxCapsuleGeometry radius halfHeight) origin),
           (OverlapSphere OVERLAP_MAX_COLLIDERS overlap origin radius buffer count,
              overlap (PxGeometry.PxSphereGeometry radius) origin)],
      q.1.1 = q.2.result
      ∧ (q.1.1 = true →
          q.1.2.2 = min q.2.nbTouches OVERLAP_MAX_COLLIDERS
          ∧ q.1.2.1.length = OVERLAP_MAX_COLLIDERS
          ∧ q.1.2.1.take q.1.2.2 = (List.range q.1.2.2).map q.2.touches
          ∧ q.1.2.1.drop q.1.2.2 = buffer.drop q.1.2.2)
      ∧ (q.1.1 = false → q.1.2.2 = count ∧ q.1.2.1 = buffer) := by
  intro q hq
  simp only [List.mem_cons, List.mem_singleton, List.not_mem_nil, or_false] at hq
  rcases hq with rfl | rfl | rfl
  · exact copyTouches_spec OVERLAP_MAX_COLLIDERS _ buffer count hlen
  · exact copyTouches_spec OVERLAP_MAX_COLLIDERS _ buffer count hlen
  · exact copyTouches_spec OVERLAP_MAX_COLLIDERS _ buffer count hlen

/-- Witness of C27: a buffer of 2 hits and a scene that reports 3 touches for a
box, 1 touch for a sphere and nothing for a capsule. -/
theorem C27_overlap_reports_no_more_hits_than_the_buffer_holds_witness :
    OverlapBox 2 sampleOverlap ⟨0, 0, 0⟩ ⟨1, 1, 1⟩ [7, 8] 5 = (true, [10, 11], 2)
    ∧ OverlapCapsule 2 sampleOverlap ⟨0, 0, 0⟩ 1 1 [7, 8] 5 = (false, [7, 8], 5)
    ∧ OverlapSphere 2 sampleOverlap ⟨0, 0, 0⟩ 1 [7, 8] 5 = (true, [10, 8], 1)
    ∧ ∀ q ∈ [(OverlapBox 2 sampleOverlap ⟨0, 0, 0⟩ ⟨1, 1, 1⟩ [7, 8] 5,
              sampleOverlap (PxGeometry.PxBoxGeometry 1 1 1) ⟨0, 0, 0⟩),
           (OverlapCapsule 2 sampleOverlap ⟨0, 0, 0⟩ 1 1 [7, 8] 5,
              sampleOverlap (PxGeometry.PxCapsuleGeometry 1 1) ⟨0, 0, 0⟩),
           (OverlapSphere 2 sampleOverlap ⟨0, 0, 0⟩ 1 [7, 8] 5,
              sampleOverlap (PxGeometry.PxSphereGeometry 1) ⟨0, 0, 0⟩)],
      q.1.1 = q.2.result
      ∧ (q.1.1 = true →
          q.1.2.2 = min q.2.nbTouches 2
          ∧ q.1.2.1.length = 2
          ∧ q.1.2.1.take q.1.2.2 = (List.range q.1.2.2).map q.2.touches
          ∧ q.1.2.1.drop q.1.2.2 = [7, 8].drop q.1.2.2)
      ∧ (q.1.1 = false → q.1.2.2 = 5 ∧ q.1.2.1 = [7, 8]) :=
  ⟨by decide, by decide, by decide,
    C27_overlap_reports_no_more_hits_than_the_buffer_holds 2 sampleOverlap ⟨0, 0, 0⟩ ⟨1, 1, 1⟩
      1 1 [7, 8] 5 (by decide)⟩

/-! ## Module names -/

theorem StdString.find_isSome (s : List Char) (c : Char) :
    (StdString.find s c).isSome = true ↔ c ∈ s := by
  induction s with
  | nil => simp [StdString.find]
  | cons x xs ih =>
    unfold StdString.find
    by_cases hx : x = c
    · simp [hx]
    · have hne : ¬ c = x := fun h => hx h.symm
      simp only [hx, if_false, Option.isSome_map', ih, List.mem_cons, hne, false_or]

theorem StdString.find_last_of_some (c : Char) :
    ∀ (s : List Char) (i : Nat), StdString.find_last_of s c = some i →
      s.take i ++ c :: s.drop (i + 1) = s ∧ c ∉ s.drop (i + 1) := by
  intro s
  induction s with
  | nil => intro i h; simp [StdString.find_last_of] at h
  | cons x xs ih =>
    intro i h
    unfold StdString.find_last_of at h
    cases hl : StdString.find_last_of xs c with
    | some j =>
      rw [hl] at h
      simp only [Option.some.injEq] at h
      subst h
      obtain ⟨h1, h2⟩ := ih j hl
      refine ⟨?_, by simpa using h2⟩
      simp only [List.take_succ_cons, List.drop_succ_cons, List.cons_append]
      rw [h1]
    | none =>
      rw [hl] at h
      by_cases hx : x = c
      · simp only [hx, if_true, Option.some.injEq] at h
        subst h
        subst hx
        have hnot : x ∉ xs := by
          intro hm
          have : ∀ (t : List Char), x ∈ t → StdString.find_last_of t x ≠ none := by
            intro t
            induction t with
            | nil => intro hm; simp at hm
            | cons y ys iht =>
              intro hm hn
              unfold StdString.find_last_of at hn
              cases hys : StdString.find_last_of ys x with
              | some k => rw [hys] at hn; simp at hn
              | none =>
                rw [hys] at hn
                by_cases hy : y = x
                · simp [hy] at hn
                · have hin : x ∈ ys := by
                    rcases List.mem_cons.1 hm with h | h
                    · exact absurd h.symm hy
                    · exact h
                  exact iht hin hys
          exact this xs hm hl
        exact ⟨by simp, by simpa using hnot⟩
      · simp [hx] at h

theorem StdString.find_last_of_of_mem (c : Char) :
    ∀ (s : List Char), c ∈ s → ∃ i, StdString.find_last_of s c = some i := by
  intro s
  induction s with
  | nil => intro h; simp at h
  | cons x xs ih =>
    intro h
    unfold StdString.find_last_of
    cases hl : StdString.find_last_of xs c with
    | some j => exact ⟨j + 1, rfl⟩
    | none =>
      by_cases hx : x = c
      · exact ⟨0, by simp [hx]⟩
      · rcases List.mem_cons.1 h with h | h
        · exact absurd h.symm hx
        · obtain ⟨i, hi⟩ := ih h
          rw [hi] at hl
          simp at hl

theorem InitScriptEntityNames_eq (scriptClass : ScriptClassNames) (moduleName : List Char)
    (h : '.' ∈ moduleName ∨ scriptClass.NamespaceName = []) :
    InitScriptEntityNames scriptClass moduleName
      = { FullName := moduleName
          ClassName := (ModuleExistsNames moduleName).2
          NamespaceName := (ModuleExistsNames moduleName).1 } := by
  unfold InitScriptEntityNames ModuleExistsNames
  by_cases hd : '.' ∈ moduleName
  · have hs := (StdString.find_isSome moduleName '.').2 hd
    obtain ⟨i, hi⟩ := StdString.find_last_of_of_mem '.' moduleName hd
    simp only [hs, if_true, hi]
  · have hs : (StdString.find moduleName '.').isSome = false := by
      cases hf : (StdString.find moduleName '.').isSome with
      | false => rfl
      | true => exact absurd ((StdString.find_isSome moduleName '.').1 hf) hd
    have hn : scriptClass.NamespaceName = [] := by
      rcases h with h | h
      · exact absurd h hd
      · exact h
    simp only [hs, Bool.false_eq_true, if_false]
    cases scriptClass
    simp only at hn
    subst hn
    rfl

/-- C28: `GetCoreClass` and `ModuleExists` split a name into the same namespace
and class; `InitScriptEntity`, which stores the names in the entry of the name in
the class map, an entry that is empty before the first call and that only
`InitScriptEntity` writes, stores the same namespace and class after every number
of calls. For every name that contains a dot, namespace + "." + class is the name
and the class contains no dot; for every name without a dot the namespace is
empty and the class is the name. -/
theorem C28_module_name_is_split_at_its_last_dot (name : List Char) :
    GetCoreClassNames name = ModuleExistsNames name
    ∧ (∀ n : Nat,
        Nat.iterate (fun scriptClass => InitScriptEntityNames scriptClass name) (n + 1)
            ⟨[], [], []⟩
          = { FullName := name
              ClassName := (ModuleExistsNames name).2
              NamespaceName := (ModuleExistsNames name).1 })
    ∧ ('.' ∈ name →
        (ModuleExistsNames name).1 ++ '.' :: (ModuleExistsNames name).2 = name
        ∧ '.' ∉ (ModuleExistsNames name).2)
    ∧ ('.' ∉ name → ModuleExistsNames name = ([], name)) := by
  refine ⟨rfl, ?_, ?_, ?_⟩
  · intro n
    induction n with
    | zero => exact InitScriptEntityNames_eq _ name (Or.inr rfl)
    | succ n ih =>
      rw [Function.iterate_succ_apply', ih]
      by_cases hd : '.' ∈ name
      · exact InitScriptEntityNames_eq _ name (Or.inl hd)
      · refine InitScriptEntityNames_eq _ name (Or.inr ?_)
        have hs : (StdString.find name '.').isSome = false := by
          cases hf : (StdString.find name '.').isSome with
          | false => rfl
          | true => exact absurd ((StdString.find_isSome name '.').1 hf) hd
        simp [ModuleExistsNames, hs]
  · intro hd
    have hs := (StdString.find_isSome name '.').2 hd
    obtain ⟨i, hi⟩ := StdString.find_last_of_of_mem '.' name hd
    have hsp := StdString.find_last_of_some '.' name i hi
    simp only [ModuleExistsNames, hs, if_true, hi]
    exact hsp
  · intro hd
    have hs : (StdString.find name '.').isSome = false := by
      cases hf : (StdString.find name '.').isSome with
      | false => rfl
      | true => exact absurd ((StdString.find_isSome name '.').1 hf) hd
    simp [ModuleExistsNames, hs]

/-! ## Public fields of a script class -/

theorem fieldFind_append (m : List (String × PublicField)) (k : String) (v : PublicField)
    (name : String) :
    fieldFind (m ++ [(k, v)]) name
      = match fieldFind m name with
        | some old => some old
        | none => if k = name then some v else none := by
  induction m with
  | nil => simp [fieldFind]
  | cons e rest ih =>
    obtain ⟨k', v'⟩ := e
    simp only [List.cons_append, fieldFind]
    by_cases hk : k' = name
    · simp [hk]
    · simp only [hk, if_false]
      exact ih

theorem fieldFind_emplace (m : List (String × PublicField)) (k : String) (v : PublicField)
    (name : String) :
    fieldFind (fieldEmplace m k v) name
      = match fieldFind m name with
        | some old => some old
        | none => if k = name then some v else none := by
  unfold fieldEmplace
  cases hk : fieldFind m k with
  | none => exact fieldFind_append m k v name
  | some old =>
    simp only
    cases hn : fieldFind m name with
    | some o => rfl
    | none =>
      by_cases hkn : k = name
      · rw [hkn, hn] at hk
        exact absurd hk (by simp)
      · simp [hkn, hn]

theorem fieldFind_foldl_emplace (name : String) :
    ∀ (l acc : List (String × PublicField)),
      fieldFind (l.foldl (fun oldFields e => fieldEmplace oldFields e.1 e.2) acc) name
        = match fieldFind acc name with
          | some old => some old
          | none => fieldFind l name := by
  intro l
  induction l with
  | nil => intro acc; cases h : fieldFind acc name <;> simp [fieldFind, h]
  | cons e rest ih =>
    intro acc
    obtain ⟨k, v⟩ := e
    rw [List.foldl_cons, ih, fieldFind_emplace]
    cases h : fieldFind acc name with
    | some o => rfl
    | none =>
      simp only [fieldFind]
      by_cases hk : k = name
      · simp [hk]
      · simp [hk]

/-- The loop "Save old fields" keeps, for every name, the field that `find` gives
in the field map. -/
theorem fieldFind_saveOldFields (fieldMap : List (String × PublicField)) (name : String) :
    fieldFind (saveOldFields fieldMap) name = fieldFind fieldMap name := by
  unfold saveOldFields
  rw [fieldFind_foldl_emplace]
  rfl

theorem GetFieldSize_sized (assertions : Bool) (type : FieldType)
    (hs : type ≠ FieldType.String) (hn : type ≠ FieldType.None) :
    ∃ size, GetFieldSize assertions type = some size ∧ 0 < size := by
  cases type <;> first | exact absurd rfl hs | exact absurd rfl hn | exact ⟨_, rfl, by decide⟩

theorem retrieveFields_eq (assertions : Bool) (MONO_FIELD_ATTR_PUBLIC : Nat)
    (oldFields : List (String × PublicField)) :
    ∀ (fields : List MonoClassField) (fieldMap : List (String × PublicField)),
      (fields.map fun iter => iter.name).Nodup →
      (∀ iter ∈ fields, fieldFind fieldMap iter.name = none) →
      (∀ iter ∈ retrievedFields MONO_FIELD_ATTR_PUBLIC fields,
        fieldFind oldFields iter.name = none →
          (GetFieldSize assertions (GetHazelFieldType iter.type)).isSome = true) →
      retrieveFields assertions MONO_FIELD_ATTR_PUBLIC oldFields fields fieldMap
        = some (fieldMap ++ (retrievedFields MONO_FIELD_ATTR_PUBLIC fields).map
            (retrievedEntry assertions oldFields)) := by
  intro fields
  induction fields with
  | nil => intro fieldMap _ _ _; simp [retrieveFields, retrievedFields]
  | cons iter rest ih =>
    intro fieldMap hnodup hfresh hsized
    have hnd : (rest.map fun iter => iter.name).Nodup := (List.nodup_cons.1 hnodup).2
    have hnotin : iter.name ∉ rest.map fun iter => iter.name := (List.nodup_cons.1 hnodup).1
    have hfresh' : ∀ x ∈ rest, fieldFind fieldMap x.name = none :=
      fun x hx => hfresh x (List.mem_cons_of_mem _ hx)
    have hhere : fieldFind fieldMap iter.name = none := hfresh iter (List.mem_cons_self _ _)
    have hstep : ∀ v : PublicField, ∀ x ∈ rest,
        fieldFind (fieldEmplace fieldMap iter.name v) x.name = none := by
      intro v x hx
      rw [fieldFind_emplace, hfresh' x hx]
      have hne : iter.name ≠ x.name := by
        intro he
        exact hnotin (List.mem_map.2 ⟨x, hx, he.symm⟩)
      simp [hne]
    have hemp : ∀ v : PublicField,
        fieldEmplace fieldMap iter.name v = fieldMap ++ [(iter.name, v)] := by
      intro v
      unfold fieldEmplace
      rw [hhere]
    unfold retrieveFields
    by_cases hpub : iter.flags &&& MONO_FIELD_ATTR_PUBLIC = 0
    · have hf : retrievedFields MONO_FIELD_ATTR_PUBLIC (iter :: rest)
          = retrievedFields MONO_FIELD_ATTR_PUBLIC rest := by
        simp [retrievedFields, List.filter_cons, hpub]
      rw [hf] at hsized ⊢
      simp only [hpub, if_true]
      exact ih fieldMap hnd hfresh' hsized
    · by_cases hcls : GetHazelFieldType iter.type = FieldType.ClassReference
      · have hf : retrievedFields MONO_FIELD_ATTR_PUBLIC (iter :: rest)
            = retrievedFields MONO_FIELD_ATTR_PUBLIC rest := by
          simp [retrievedFields, List.filter_cons, hcls]
        rw [hf] at hsized ⊢
        simp only [hpub, if_false, hcls, if_true]
        exact ih fieldMap hnd hfresh' hsized
      · have hf : retrievedFields MONO_FIELD_ATTR_PUBLIC (iter :: rest)
            = iter :: retrievedFields MONO_FIELD_ATTR_PUBLIC rest := by
          simp [retrievedFields, List.filter_cons, hcls, hpub]
        rw [hf] at hsized ⊢
        have hsized' : ∀ x ∈ retrievedFields MONO_FIELD_ATTR_PUBLIC rest,
            fieldFind oldFields x.name = none →
              (GetFieldSize assertions (GetHazelFieldType x.type)).isSome = true :=
          fun x hx => hsized x (List.mem_cons_of_mem _ hx)
        simp only [hpub, if_false, hcls]
        cases hold : fieldFind oldFields iter.name with
        | some old =>
          simp only
          rw [ih _ hnd (hstep old) hsized', hemp old]
          simp [retrievedEntry, hold]
        | none =>
          have hsz := hsized iter (List.mem_cons_self _ _) hold
          obtain ⟨size, hsize⟩ := Option.isSome_iff_exists.1 hsz
          simp only [PublicField.create, AllocateBuffer, hsize]
          rw [ih _ hnd (hstep _) hsized', hemp]
          simp [retrievedEntry, hold, hsize]

/-- For a module that exists and whose class has its fields under distinct names,
`InitScriptEntity` returns, unless a new field that it does not skip has a type
without a size case while assertions are compiled in: the field map then has one
entry per field that the loop does not skip, in their order, with the field that
the map held under the name before the call, or else a new field with a buffer
of zeros. -/
theorem InitScriptEntity_field_map (env : ScriptServices) (moduleName : List Char)
    (scriptClass : ScriptClassNames) (fieldMap : List (String × PublicField))
    (fields : List MonoClassField)
    (hname : moduleName ≠ [])
    (hentry : '.' ∈ moduleName ∨ scriptClass.NamespaceName = [])
    (hclass : env.mono_class_from_name (ModuleExistsNames moduleName).1
      (ModuleExistsNames moduleName).2 = some fields)
    (hnodup : (fields.map fun iter => iter.name).Nodup)
    (hsized : ∀ iter ∈ retrievedFields env.MONO_FIELD_ATTR_PUBLIC fields,
      fieldFind fieldMap iter.name = none →
        (GetFieldSize env.assertions (GetHazelFieldType iter.type)).isSome = true) :
    InitScriptEntity env moduleName scriptClass fieldMap
      = some ({ FullName := moduleName
                ClassName := (ModuleExistsNames moduleName).2
                NamespaceName := (ModuleExistsNames moduleName).1 },
              (retrievedFields env.MONO_FIELD_ATTR_PUBLIC fields).map
                (retrievedEntry env.assertions fieldMap)) := by
  have hempty : moduleName.isEmpty = false := by
    cases moduleName with
    | nil => exact absurd rfl hname
    | cons c cs => rfl
  have hexists : ModuleExists env moduleName = true := by
    unfold ModuleExists
    rw [hclass]
    rfl
  have hentries : (retrievedFields env.MONO_FIELD_ATTR_PUBLIC fields).map
        (retrievedEntry env.assertions (saveOldFields fieldMap))
      = (retrievedFields env.MONO_FIELD_ATTR_PUBLIC fields).map
        (retrievedEntry env.assertions fieldMap) := by
    apply List.map_congr_left
    intro iter _
    simp only [retrievedEntry, fieldFind_saveOldFields]
  unfold InitScriptEntity
  simp only [hempty, hexists, Bool.not_true, Bool.false_eq_true, if_false]
  rw [InitScriptEntityNames_eq scriptClass moduleName hentry]
  simp only [hclass]
  rw [retrieveFields_eq env.assertions env.MONO_FIELD_ATTR_PUBLIC (saveOldFields fieldMap)
    fields [] hnodup (fun _ _ => rfl)
    (fun iter hi ho => hsized iter hi (by rw [← fieldFind_saveOldFields]; exact ho))]
  simp only [List.nil_append, hentries]

/-- C21 (the code departs from it): for the module `Game.Sign`, whose class has a
public field `Text` of type `string`, a type without a case in `GetFieldSize`:
with assertions compiled in, the constructor of the new field stops at the
assertion "Unknown field type!" and the call has no result, on an empty field map
as on a field map from an earlier initialisation; with assertions compiled out
the new field gets a buffer of 0 bytes. For the module `Game.Player`, whose
public fields apart from a class reference are a `float` and a `Hazel.Vector3`,
the call on the field map of an earlier initialisation keeps the stored value of
`Speed`, drops `Jump`, leaves out the private `m_Lives` and the class reference
`Target`, and gives `Home` 12 bytes 0. The test of the flags lets through every
field with one of the bits of `MONO_FIELD_ATTR_PUBLIC`: where that constant is 6,
as in the Mono headers, a field with the flags 4 of a protected field gets an
entry. -/
theorem C21_string_field_stops_the_initialisation :
    InitScriptEntity (sampleScripts true) "Game.Sign".toList ⟨[], [], []⟩ [] = none
    ∧ InitScriptEntity (sampleScripts true) "Game.Sign".toList ⟨[], [], []⟩ sampleOldFieldMap
        = none
    ∧ InitScriptEntity (sampleScripts false) "Game.Sign".toList ⟨[], [], []⟩ sampleOldFieldMap
        = some (⟨"Game.Sign".toList, "Sign".toList, "Game".toList⟩,
            [("Text", ⟨"Text", "System.String", FieldType.String, []⟩)])
    ∧ InitScriptEntity (sampleScripts true) "Game.Player".toList ⟨[], [], []⟩ sampleOldFieldMap
        = some (⟨"Game.Player".toList, "Player".toList, "Game".toList⟩,
            [("Speed", ⟨"Speed", "System.Single", FieldType.Float, [0, 0, 128, 63]⟩),
             ("Home", ⟨"Home", "Hazel.Vector3", FieldType.Vec3,
                [0, 0, 0, 0, 0, 0, 0, 0, 0, 0, 0, 0]⟩)])
    ∧ retrieveFields true 6 [] [⟨"m_Health", 4, ⟨.MONO_TYPE_R4, "System.Single"⟩⟩] []
        = some [("m_Health", ⟨"m_Health", "System.Single", FieldType.Float, [0, 0, 0, 0]⟩)] := by
  decide

/-- C29 (the code departs from it): `GetHazelFieldType` returns `String` for a
Mono string and `None` for a value type that is not a Hazel vector; neither is
`ClassReference`, so `InitScriptEntity` does not skip them, and neither has a
case in `GetFieldSize`: with assertions compiled in the assertion "Unknown field
type!" fires in the constructor of the field, and `InitScriptEntity` on a class
with a public `string` has no result; with assertions compiled out the size is 0
and the buffer is empty. -/
theorem C29_unknown_field_type_is_reached :
    GetHazelFieldType ⟨.MONO_TYPE_STRING, "System.String"⟩ = FieldType.String
    ∧ GetHazelFieldType ⟨.MONO_TYPE_VALUETYPE, "Game.Colour"⟩ = FieldType.None
    ∧ FieldType.String ≠ FieldType.ClassReference
    ∧ FieldType.None ≠ FieldType.ClassReference
    ∧ GetFieldSize true FieldType.String = none
    ∧ GetFieldSize true FieldType.None = none
    ∧ GetFieldSize false FieldType.String = some 0
    ∧ GetFieldSize false FieldType.None = some 0
    ∧ PublicField.create true "Text" "System.String" FieldType.String = none
    ∧ PublicField.create false "Text" "System.String" FieldType.String
        = some ⟨"Text", "System.String", FieldType.String, []⟩
    ∧ retrieveFields true 6 [] sampleSignFields [] = none
    ∧ (InitScriptEntity (sampleScripts true) "Game.Sign".toList ⟨[], [], []⟩ []).isSome
        = false := by
  decide

end Hazel
